import Mathlib

/-!
# Mesh hierarchy and skeletal animation

A shallow embedding of `src/rendering/resources/MeshHierarchy.h` and
`src/rendering/resources/MeshHierarchy.cpp`.

Conventions of the embedding.

* The glm value types are type parameters: `T` stands for `double` (key
  times and query times), `F` for `float` (interpolation fractions), `V` for
  `glm::vec3`, `Q` for `glm::quat` and `M` for `glm::mat4`.  The glm
  functions the code calls are the fields of `Glm`; nothing is assumed about
  them.  `M` carries the product `operator*` and `glm::mat4{1.0f}` as `Mul M`
  and `One M`, again with no laws assumed.
* `std::map<double, X>` is a list of `(key, value)` pairs in iteration
  order; the container keeps it strictly ascending in the key, which the
  theorems take as the hypothesis `KeysAscending`.
* `std::unordered_map<int, AnimationData>` is an association list looked up
  by key; `uint` values are natural numbers and the implicit `uint -> int`
  conversion of a lookup key is `uintToInt`.
* A `std::vector` is a list; writing through `operator[]` outside the
  bounds has no defined behaviour in the source and is the outcome
  `Outcome.out_of_range` here.
* Arithmetic on `T` is whatever the instances of `T` provide.  Theorems for
  every `T` use no law of arithmetic and so hold for the rounded operations
  of `double`; where a statement depends on rounding, overflow or NaN, `T`
  is `Double`, the binary64 instance of the floating-point type `Ieee`.
-/

namespace Cits3003

/-! ## glm operations used by the code -/

/-- The glm operations called by `AnimationData::sample`, as parameters. -/
structure Glm (T F V Q M : Type) where
  /-- The narrowing conversion `(float) x` of a `double`. -/
  toFloat : T → F
  /-- The function `glm::mix` on `vec3`. -/
  mix : V → V → F → V
  /-- The function `glm::slerp` on `quat`. -/
  slerp : Q → Q → F → Q
  /-- The value `glm::vec3{0.0f}`. -/
  vec3_zero : V
  /-- The value `glm::vec3{1.0f}`. -/
  vec3_one : V
  /-- The value `glm::quat{1.0f, 0.0f, 0.0f, 0.0f}`. -/
  quat_identity : Q
  /-- The function `glm::translate`. -/
  translate : V → M
  /-- The function `glm::toMat4`. -/
  toMat4 : Q → M
  /-- The function `glm::scale`. -/
  scale : V → M

/-! ## AnimationData -/

/-- The struct `AnimationData`: three keyframe maps in iteration order. -/
structure AnimationData (T V Q : Type) where
  positions : List (T × V) := []
  rotations : List (T × Q) := []
  scalings : List (T × V) := []

/-- The invariant of `std::map`: iteration visits strictly ascending keys. -/
def KeysAscending {T X : Type} [LinearOrder T] (m : List (T × X)) : Prop :=
  (m.map Prod.fst).Pairwise (fun a b => a < b)

instance {T X : Type} [LinearOrder T] (m : List (T × X)) : Decidable (KeysAscending m) :=
  inferInstanceAs (Decidable ((m.map Prod.fst).Pairwise (fun a b => a < b)))

/-- The call `m.lower_bound(time)`: the entries before the returned iterator
(all keys less than `time`) and the entries from the iterator on.  The
iterator is `end()` when the second part is empty and `begin()` when the
first part is empty. -/
def lower_bound {T X : Type} [LinearOrder T] (m : List (T × X)) (time : T) :
    List (T × X) × List (T × X) :=
  m.span (fun kv => decide (kv.1 < time))

/-- One channel block of `AnimationData::sample` (lines 4-17, 19-32 and 34-47
are this block with the map, the initial value and the interpolation function
changed): the value the block leaves in its local variable. -/
def sampleChannel {T F X : Type} [LinearOrder T] [Sub T] [Div T]
    (toFloat : T → F) (interp : X → X → F → X) (init : X)
    (m : List (T × X)) (time : T) : X :=
  match m with
  | [] => init
  | kv :: rest =>
    match lower_bound (kv :: rest) time with
    -- next_key == end(): the value at rbegin()
    | (_, []) => ((kv :: rest).getLast (List.cons_ne_nil kv rest)).2
    | (before, next :: _) =>
      match before.getLast? with
      -- next_key == begin()
      | none => next.2
      -- prev is the entry at --next_key
      | some prev =>
        if next.1 = time then next.2
        else interp prev.2 next.2 (toFloat ((time - prev.1) / (next.1 - prev.1)))

/-- The method `AnimationData::sample`. -/
def AnimationData.sample {T F V Q M : Type} [LinearOrder T] [Sub T] [Div T] [Mul M]
    (g : Glm T F V Q M) (a : AnimationData T V Q) (time : T) : M :=
  let position := sampleChannel g.toFloat g.mix g.vec3_zero a.positions time
  let rotation := sampleChannel g.toFloat g.slerp g.quat_identity a.rotations time
  let scaling := sampleChannel g.toFloat g.mix g.vec3_one a.scalings time
  g.translate position * g.toMat4 rotation * g.scale scaling

/-! ## MeshHierarchyNode, ModelInfo, MeshHierarchy -/

/-- The struct `MeshHierarchyNode`.  A bone binding is
`(mesh_index, bone_id, offset_matrix)`. -/
inductive MeshHierarchyNode (T V Q M : Type) where
  | mk (meshes : List Nat) (transformation : M) (bones : List (Nat × Nat × M))
      (animation_data : List (Int × AnimationData T V Q))
      (children : List (MeshHierarchyNode T V Q M))

namespace MeshHierarchyNode

variable {T V Q M : Type}

/-- Field `meshes`. -/
def meshes : MeshHierarchyNode T V Q M → List Nat
  | .mk ms _ _ _ _ => ms

/-- Field `transformation`. -/
def transformation : MeshHierarchyNode T V Q M → M
  | .mk _ t _ _ _ => t

/-- Field `bones`. -/
def bones : MeshHierarchyNode T V Q M → List (Nat × Nat × M)
  | .mk _ _ b _ _ => b

/-- Field `animation_data`. -/
def animation_data : MeshHierarchyNode T V Q M → List (Int × AnimationData T V Q)
  | .mk _ _ _ a _ => a

/-- Field `children`. -/
def children : MeshHierarchyNode T V Q M → List (MeshHierarchyNode T V Q M)
  | .mk _ _ _ _ c => c

end MeshHierarchyNode

/-- The struct `ModelInfo`, reduced to its mutable member `bone_transforms`
(the members `model` and `bones` are not read by the functions embedded
here). -/
structure ModelInfo (M : Type) where
  bone_transforms : List M
  deriving DecidableEq

/-- The struct `MeshHierarchy`.  An entry of `animations` is
`(animation_name, ticks_per_second, duration_ticks)`. -/
structure MeshHierarchy (T V Q M : Type) where
  meshes : List (ModelInfo M)
  animations : List (String × T × T)
  root_node : MeshHierarchyNode T V Q M

/-- The value `UINT_MAX` of a 32-bit `uint`. -/
def UINT_MAX : Nat := 4294967295

/-- The macro `NONE_ANIMATION`. -/
def NONE_ANIMATION : Nat := UINT_MAX

/-- The implicit conversion of a `uint` to the `int` key type of
`animation_data`, as `find(animation_id)` performs it. -/
def uintToInt (n : Nat) : Int :=
  if n % 4294967296 < 2147483648 then (n % 4294967296 : Nat)
  else ((n % 4294967296 : Nat) : Int) - 4294967296

/-- How a call of `calculate_animation` ends. -/
inductive Outcome (α : Type) where
  /-- The call returns; the payload is the state it leaves. -/
  | ok (a : α)
  /-- The call throws `std::runtime_error("Invalid animation id: <id>")`. -/
  | invalid_animation_id (animation_id : Nat)
  /-- The call indexes `meshes` or a `bone_transforms` array out of bounds. -/
  | out_of_range
  deriving DecidableEq

/-- The assignment `meshes[mesh_id].bone_transforms[bone_id] = value`;
`none` when an index is out of bounds. -/
def writeBone {M : Type} (meshes : List (ModelInfo M)) (mesh_id bone_id : Nat) (value : M) :
    Option (List (ModelInfo M)) :=
  match meshes[mesh_id]? with
  | none => none
  | some mesh =>
    if bone_id < mesh.bone_transforms.length then
      some (meshes.set mesh_id ⟨mesh.bone_transforms.set bone_id value⟩)
    else none

/-- The loop `for (const auto& [mesh_id, bone_id, offset_matrix]: node.bones)`
of the lambda `animate`. -/
def writeBones {M : Type} [Mul M] (accumulated_transformation : M) :
    List (Nat × Nat × M) → List (ModelInfo M) → Option (List (ModelInfo M))
  | [], meshes => some meshes
  | (mesh_id, bone_id, offset_matrix) :: rest, meshes =>
    match writeBone meshes mesh_id bone_id (accumulated_transformation * offset_matrix) with
    | none => none
    | some meshes => writeBones accumulated_transformation rest meshes

section Animate

variable {T F V Q M : Type} [LinearOrder T] [Sub T] [Div T] [Mul M] [One M]

mutual
/-- The lambda `animate` of `calculate_animation`, with the captured `meshes`
passed through as state. -/
def animate (g : Glm T F V Q M) (animation_id : Nat) (time_ticks : T) :
    MeshHierarchyNode T V Q M → M → Bool → List (ModelInfo M) → Option (List (ModelInfo M))
  | .mk _ transformation bones animation_data children, accumulated_transformation,
      is_skeleton, meshes =>
    let is_skeleton := is_skeleton || !bones.isEmpty
    let transform := if is_skeleton then transformation else 1
    let transform :=
      match animation_data.lookup (uintToInt animation_id) with
      | some animation => animation.sample g time_ticks
      | none => transform
    let accumulated_transformation := accumulated_transformation * transform
    match writeBones accumulated_transformation bones meshes with
    | none => none
    | some meshes =>
      animateChildren g animation_id time_ticks children accumulated_transformation
        is_skeleton meshes
/-- The loop `for (const auto& child: node.children)` of the lambda `animate`. -/
def animateChildren (g : Glm T F V Q M) (animation_id : Nat) (time_ticks : T) :
    List (MeshHierarchyNode T V Q M) → M → Bool → List (ModelInfo M) →
      Option (List (ModelInfo M))
  | [], _, _, meshes => some meshes
  | child :: rest, accumulated_transformation, is_skeleton, meshes =>
    match animate g animation_id time_ticks child accumulated_transformation is_skeleton
        meshes with
    | none => none
    | some meshes =>
      animateChildren g animation_id time_ticks rest accumulated_transformation is_skeleton
        meshes
end

/-- The method `MeshHierarchy::calculate_animation`: the outcome of the call
and, when it returns, the `meshes` it leaves. -/
def MeshHierarchy.calculate_animation [Mul T] (g : Glm T F V Q M) (h : MeshHierarchy T V Q M)
    (animation_id : Nat) (time_seconds : T) : Outcome (List (ModelInfo M)) :=
  if animation_id = NONE_ANIMATION then
    -- std::fill over every mesh, then return
    .ok (h.meshes.map fun mesh => ⟨mesh.bone_transforms.map fun _ => 1⟩)
  else if hge : animation_id ≥ h.animations.length then
    .invalid_animation_id animation_id
  else
    let time_ticks := time_seconds * (h.animations[animation_id]).2.1
    match animate g animation_id time_ticks h.root_node 1 false h.meshes with
    | none => .out_of_range
    | some meshes => .ok meshes

end Animate

section Visit

variable {T V Q M σ : Type} [Mul M] [One M]

mutual
/-- The lambda `visit` of `visit_nodes`.  The callback `fn` is a state
transformer: `σ` is whatever the caller's function object reads and writes. -/
def visit (fn : MeshHierarchyNode T V Q M → M → σ → σ) :
    MeshHierarchyNode T V Q M → M → σ → σ
  | .mk meshes transformation bones animation_data children, accumulated_transformation, s =>
    let accumulated_transformation := accumulated_transformation * transformation
    let s := fn (.mk meshes transformation bones animation_data children)
      accumulated_transformation s
    visitChildren fn children accumulated_transformation s
/-- The loop `for (const auto& child: node.children)` of the lambda `visit`. -/
def visitChildren (fn : MeshHierarchyNode T V Q M → M → σ → σ) :
    List (MeshHierarchyNode T V Q M) → M → σ → σ
  | [], _, s => s
  | child :: rest, accumulated_transformation, s =>
    visitChildren fn rest accumulated_transformation
      (visit fn child accumulated_transformation s)
end

/-- The method `MeshHierarchy::visit_nodes`. -/
def MeshHierarchy.visit_nodes (h : MeshHierarchy T V Q M) (fn : MeshHierarchyNode T V Q M → M → σ → σ)
    (s : σ) : σ :=
  visit fn h.root_node 1 s

end Visit

/-! ## Vocabulary of the specification -/

section Vocabulary

variable {T F V Q M : Type}

/-- The node owns at least one bone binding. -/
def hasBones (n : MeshHierarchyNode T V Q M) : Bool := !n.bones.isEmpty

/-- The node is part of the skeleton: it or any of its ancestors owns at
least one bone binding. -/
def inSkeleton (ancestors : List (MeshHierarchyNode T V Q M))
    (n : MeshHierarchyNode T V Q M) : Bool :=
  hasBones n || ancestors.any hasBones

/-- The entry of the node's `animation_data` for `animation_id`, if any. -/
def curveFor (n : MeshHierarchyNode T V Q M) (animation_id : Nat) :
    Option (AnimationData T V Q) :=
  n.animation_data.lookup (uintToInt animation_id)

/-- The bone transform stored for `(mesh, slot)`, if both indices are in
bounds. -/
def readBone (meshes : List (ModelInfo M)) (mesh slot : Nat) : Option M :=
  match meshes[mesh]? with
  | none => none
  | some info => info.bone_transforms[slot]?

/-- The product of a list of matrices, first element leftmost, starting from
the identity: `((1 * m₀) * m₁) * ...`. -/
def productFrom [Mul M] (start : M) (ms : List M) : M :=
  ms.foldl (fun a m => a * m) start

/-- The product of a list of matrices, first element leftmost, starting from
the identity. -/
def product [Mul M] [One M] (ms : List M) : M := productFrom 1 ms

section Contribution

variable [LinearOrder T] [Sub T] [Div T] [Mul M] [One M]

/-- A node's contribution to the accumulated transform, as the
specification words it: the sampled curve if the node has one for the
animation, else its bind transformation if it is part of the skeleton, else
the identity. -/
def contribution (g : Glm T F V Q M) (animation_id : Nat) (time_ticks : T)
    (ancestors : List (MeshHierarchyNode T V Q M)) (n : MeshHierarchyNode T V Q M) : M :=
  match curveFor n animation_id with
  | some curve => curve.sample g time_ticks
  | none => if inSkeleton ancestors n then n.transformation else 1

/-- The contributions of the nodes of `chain`, a descending chain of nodes
whose first element has the ancestors `ancestors` (root first). -/
def contributions (g : Glm T F V Q M) (animation_id : Nat) (time_ticks : T) :
    List (MeshHierarchyNode T V Q M) → List (MeshHierarchyNode T V Q M) → List M
  | _, [] => []
  | ancestors, n :: rest =>
    contribution g animation_id time_ticks ancestors n ::
      contributions g animation_id time_ticks (ancestors ++ [n]) rest

/-- The accumulated transform `acc(n)` of the node `n` with the ancestors
`ancestors` (root first): the product, root first, of the contributions on
the path from the root to `n`. -/
def acc (g : Glm T F V Q M) (animation_id : Nat) (time_ticks : T)
    (ancestors : List (MeshHierarchyNode T V Q M)) (n : MeshHierarchyNode T V Q M) : M :=
  product (contributions g animation_id time_ticks [] (ancestors ++ [n]))

end Contribution

/-- The product, root first, of the bind transformations on the path from
the root to the node `n` with the ancestors `ancestors` (root first). -/
def bindProduct [Mul M] [One M] (ancestors : List (MeshHierarchyNode T V Q M))
    (n : MeshHierarchyNode T V Q M) : M :=
  product ((ancestors ++ [n]).map MeshHierarchyNode.transformation)

/-- A position in a node tree: the path of child indices leading to it from
the root, the nodes passed on the way (root first) and the node reached. -/
structure Position (T V Q M : Type) where
  path : List Nat
  ancestors : List (MeshHierarchyNode T V Q M)
  node : MeshHierarchyNode T V Q M

/-- The position below a new parent `parent`, as its child number `i`. -/
def Position.under (parent : MeshHierarchyNode T V Q M) (i : Nat)
    (p : Position T V Q M) : Position T V Q M :=
  ⟨i :: p.path, parent :: p.ancestors, p.node⟩

mutual
/-- The positions of a node tree in depth-first pre-order: a node before its
children, children in their stored order. -/
def preorder : MeshHierarchyNode T V Q M → List (Position T V Q M)
  | .mk meshes transformation bones animation_data children =>
    ⟨[], [], .mk meshes transformation bones animation_data children⟩ ::
      preorderChildren (.mk meshes transformation bones animation_data children) 0 children
/-- The positions, in pre-order, of the subtrees `children`, which are the
children number `i`, `i + 1`, ... of `parent`. -/
def preorderChildren (parent : MeshHierarchyNode T V Q M) :
    Nat → List (MeshHierarchyNode T V Q M) → List (Position T V Q M)
  | _, [] => []
  | i, child :: rest =>
    (preorder child).map (Position.under parent i) ++ preorderChildren parent (i + 1) rest
end

/-- The position reached from `n` by following the child indices `path`, if
every index is in bounds. -/
def positionAt : MeshHierarchyNode T V Q M → List Nat → Option (Position T V Q M)
  | n, [] => some ⟨[], [], n⟩
  | n, i :: path =>
    match n.children[i]? with
    | none => none
    | some child => (positionAt child path).map (Position.under n i)

/-- The order of depth-first pre-order on paths: a node comes before its
descendants, and the subtree of an earlier child before the subtree of a
later child. -/
def pathBefore : List Nat → List Nat → Bool
  | [], [] => false
  | [], _ :: _ => true
  | _ :: _, [] => false
  | i :: p, j :: q => decide (i < j) || (decide (i = j) && pathBefore p q)

/-- A bone binding together with the position of the node that owns it. -/
structure BoundBone (T V Q M : Type) where
  position : Position T V Q M
  mesh : Nat
  slot : Nat
  offset : M

/-- The bone bindings of the node at a position, in their stored order. -/
def bonesAt (p : Position T V Q M) : List (BoundBone T V Q M) :=
  p.node.bones.map fun b => ⟨p, b.1, b.2.1, b.2.2⟩

/-- All bone bindings of a node tree in pre-order. -/
def allBones (root : MeshHierarchyNode T V Q M) : List (BoundBone T V Q M) :=
  (preorder root).flatMap bonesAt

/-- The binding number `k` of `bs` is `b`, and no later binding of `bs`
targets the same `(mesh, slot)`. -/
def LastFor (bs : List (BoundBone T V Q M)) (k : Nat) (b : BoundBone T V Q M) : Prop :=
  bs[k]? = some b ∧ ∀ c ∈ bs.drop (k + 1), ¬ (c.mesh = b.mesh ∧ c.slot = b.slot)

/-- Every bone binding of the tree addresses an existing slot of an existing
mesh. -/
def BonesInBounds (meshes : List (ModelInfo M)) (root : MeshHierarchyNode T V Q M) : Prop :=
  ∀ b ∈ allBones root, (readBone meshes b.mesh b.slot).isSome = true

instance (meshes : List (ModelInfo M)) (root : MeshHierarchyNode T V Q M) :
    Decidable (BonesInBounds meshes root) :=
  inferInstanceAs (Decidable (∀ b ∈ allBones root, (readBone meshes b.mesh b.slot).isSome = true))

/-- A sequence of assignments `meshes[mesh].bone_transforms[slot] = value`
performed in order; `none` when one of them is out of bounds. -/
def applyWrites : List (Nat × Nat × M) → List (ModelInfo M) → Option (List (ModelInfo M))
  | [], meshes => some meshes
  | (mesh, slot, value) :: rest, meshes =>
    match writeBone meshes mesh slot value with
    | none => none
    | some meshes => applyWrites rest meshes

/-- The assignments the specification prescribes for the bone bindings of
the node at position `p`, when the subtree containing `p` hangs below the
nodes `above` (root first): slot `(mesh, slot)` receives `acc(n) * offset`. -/
def writesOf [LinearOrder T] [Sub T] [Div T] [Mul M] [One M] (g : Glm T F V Q M)
    (animation_id : Nat) (time_ticks : T) (above : List (MeshHierarchyNode T V Q M))
    (p : Position T V Q M) : List (Nat × Nat × M) :=
  p.node.bones.map fun b =>
    (b.1, b.2.1, acc g animation_id time_ticks (above ++ p.ancestors) p.node * b.2.2)

end Vocabulary

/-! ## A worked instance

Concrete types for evaluating the definitions: times, fractions, vectors and
quaternions are integers, and matrices are words under concatenation, so
that a product shows its factors in order. -/

/-- A word of letters; the product is concatenation and the identity is the
empty word. -/
structure Word where
  letters : List Nat
  deriving DecidableEq

instance : Mul Word := ⟨fun a b => ⟨a.letters ++ b.letters⟩⟩

instance : One Word := ⟨⟨[]⟩⟩

/-- Integer stand-ins for the glm operations. -/
def demoGlm : Glm Int Int Int Int Word where
  toFloat := fun x => x
  mix := fun a b f => a + (b - a) * f
  slerp := fun a b f => a + (b - a) * f
  vec3_zero := 0
  vec3_one := 1
  quat_identity := 0
  translate := fun v => ⟨[v.toNat]⟩
  toMat4 := fun q => ⟨[100 + q.toNat]⟩
  scale := fun s => ⟨[200 + s.toNat]⟩

/-- A channel with keys at times 0, 10 and 20. -/
def demoChannel : List (Int × Int) := [(0, 5), (10, 7), (20, 9)]

/-- A single-keyframe curve: position 4, rotation 5, scale 6, all at time 3. -/
def demoCurve : AnimationData Int Int Int := ⟨[(3, 4)], [(3, 5)], [(3, 6)]⟩

/-- A bone-bound leaf with transformation `[4]` and a curve for animation 0,
bound to slot 1 of mesh 0. -/
def demoC : MeshHierarchyNode Int Int Int Word :=
  .mk [] ⟨[4]⟩ [(0, 1, ⟨[14]⟩)] [(0, demoCurve)] []

/-- A node without bone bindings and without curves, transformation `[3]`. -/
def demoB : MeshHierarchyNode Int Int Int Word :=
  .mk [] ⟨[3]⟩ [] [] [demoC]

/-- A bone-bound node with transformation `[2]`, bound to slot 0 of mesh 0. -/
def demoA : MeshHierarchyNode Int Int Int Word :=
  .mk [] ⟨[2]⟩ [(0, 0, ⟨[12]⟩)] [] [demoB]

/-- A second bone-bound node, transformation `[5]`, also bound to slot 0 of
mesh 0. -/
def demoD : MeshHierarchyNode Int Int Int Word :=
  .mk [0] ⟨[5]⟩ [(0, 0, ⟨[15]⟩)] [] []

/-- The root: no bone bindings, transformation `[1]`, children `demoA` and
`demoD`. -/
def demoRoot : MeshHierarchyNode Int Int Int Word :=
  .mk [] ⟨[1]⟩ [] [] [demoA, demoD]

/-- A hierarchy with one mesh of two bone slots and one animation at two
ticks per second. -/
def demoHierarchy : MeshHierarchy Int Int Int Word :=
  ⟨[⟨[⟨[7]⟩, ⟨[8]⟩]⟩], [("walk", 2, 10)], demoRoot⟩

/-- The binding of `demoC`, at its position below `demoRoot`, `demoA` and
`demoB`. -/
def demoBone : BoundBone Int Int Int Word :=
  ⟨⟨[0, 0, 0], [demoRoot, demoA, demoB], demoC⟩, 0, 1, ⟨[14]⟩⟩

/-- A callback that records the transformation it is passed. -/
def demoRecord (_ : MeshHierarchyNode Int Int Int Word) (m : Word) (log : List Word) :
    List Word :=
  log ++ [m]

/-! ## Animator

The entities an `Animator` controls are heap objects held through
`std::shared_ptr`; a pointer is a natural number and the heap is a function
from pointers to objects.  `std::unordered_map` is an association list; the
container keeps its keys distinct, which theorems that need it take as the
hypothesis `KeysUnique`.  The iteration order of the container is the order
of the list. -/

section UnorderedMap

variable {K X : Type} [DecidableEq K]

/-- The invariant of `std::unordered_map`: no key occurs twice. -/
def KeysUnique (m : List (K × X)) : Prop := (m.map Prod.fst).Nodup

instance (m : List (K × X)) : Decidable (KeysUnique m) :=
  inferInstanceAs (Decidable (m.map Prod.fst).Nodup)

/-- The call `m.find(k)`: the mapped value, or `none` for `end()`. -/
def mapFind (k : K) : List (K × X) → Option X
  | [] => none
  | (k', x) :: rest => if k' = k then some x else mapFind k rest

/-- The call `m.erase(k)`. -/
def mapErase (k : K) : List (K × X) → List (K × X)
  | [] => []
  | (k', x) :: rest => if k' = k then mapErase k rest else (k', x) :: mapErase k rest

/-- The assignment `m[k] = x`: the mapped value is replaced when the key is
present and a new entry is added otherwise. -/
def mapAssign (k : K) (x : X) : List (K × X) → List (K × X)
  | [] => [(k, x)]
  | (k', x') :: rest => if k' = k then (k, x) :: rest else (k', x') :: mapAssign k x rest

end UnorderedMap

/-- The struct `AnimationParameters`. -/
structure AnimationParameters (T : Type) where
  animation_id : Nat
  loop : Bool
  paused : Bool
  speed : T
  deriving DecidableEq

/-- The members of `AnimatedRenderedEntity` behind `AnimatedEntityInterface`:
the catalog `mesh_hierarchy->animations`, `animation_id` and
`animation_time_seconds`. -/
structure AnimatedEntity (T : Type) where
  animations : List (String × T × T)
  animation_id : Nat
  animation_time_seconds : T

/-- The method `AnimatedRenderedEntity::get_animation_duration_seconds`. -/
def AnimatedEntity.get_animation_duration_seconds {T : Type} [Zero T] [Div T]
    (e : AnimatedEntity T) : T :=
  if h : e.animation_id ≥ e.animations.length then 0
  else (e.animations[e.animation_id]).2.2 / (e.animations[e.animation_id]).2.1

/-- The class `Animator` together with the heap of entities its keys point
to. -/
structure Animator (T : Type) where
  /-- The entity objects, by pointer. -/
  entities : Nat → AnimatedEntity T
  /-- The member `animated_entities`. -/
  animated_entities : List (Nat × AnimationParameters T)

section AnimatorOps

variable {T : Type}

/-- The body of the first loop of `Animator::animate` for one item; the state
is the heap and the vector `to_remove`. -/
def animateItem [LinearOrder T] [Zero T] [Add T] [Mul T] [Div T] (fmod : T → T → T) (dt : T)
    (st : (Nat → AnimatedEntity T) × List Nat) (item : Nat × AnimationParameters T) :
    (Nat → AnimatedEntity T) × List Nat :=
  if item.2.paused then st
  else
    let entity := st.1 item.1
    let dur := entity.get_animation_duration_seconds
    let time := entity.animation_time_seconds + dt * item.2.speed
    if time > dur then
      if item.2.loop && decide (dur > 0) then
        (Function.update st.1 item.1 { entity with animation_time_seconds := fmod time dur },
          st.2)
      else
        (Function.update st.1 item.1 { entity with animation_time_seconds := dur },
          st.2 ++ [item.1])
    else
      (Function.update st.1 item.1 { entity with animation_time_seconds := time }, st.2)

/-- The method `Animator::animate`; `fmod` is `std::fmod`. -/
def Animator.animate [LinearOrder T] [Zero T] [Add T] [Mul T] [Div T] (fmod : T → T → T)
    (dt : T) (a : Animator T) : Animator T :=
  let st := a.animated_entities.foldl (animateItem fmod dt) (a.entities, [])
  ⟨st.1, st.2.foldl (fun m item => mapErase item m) a.animated_entities⟩

/-- The method `Animator::stop`. -/
def Animator.stop [Zero T] (e : Nat) (a : Animator T) : Animator T :=
  ⟨Function.update a.entities e
      { a.entities e with animation_id := NONE_ANIMATION, animation_time_seconds := 0 },
    mapErase e a.animated_entities⟩

/-- The method `Animator::start`. -/
def Animator.start [Zero T] (e : Nat) (animation_parameters : AnimationParameters T)
    (a : Animator T) : Animator T :=
  let a := a.stop e
  ⟨Function.update a.entities e
      { a.entities e with
        animation_id := animation_parameters.animation_id, animation_time_seconds := 0 },
    mapAssign e animation_parameters a.animated_entities⟩

/-- The method `Animator::update_param`. -/
def Animator.update_param (e : Nat) (animation_parameters : AnimationParameters T)
    (a : Animator T) : Animator T :=
  match mapFind e a.animated_entities with
  | some _ => ⟨a.entities, mapAssign e animation_parameters a.animated_entities⟩
  | none => a

/-- The method `Animator::pause`. -/
def Animator.pause (e : Nat) (a : Animator T) : Animator T :=
  match mapFind e a.animated_entities with
  | some param => ⟨a.entities, mapAssign e { param with paused := true } a.animated_entities⟩
  | none => a

/-- The method `Animator::resume`. -/
def Animator.resume (e : Nat) (animation_parameters : AnimationParameters T)
    (a : Animator T) : Animator T :=
  match mapFind e a.animated_entities with
  | some _ =>
    ⟨a.entities,
      mapAssign e { animation_parameters with paused := false } a.animated_entities⟩
  | none =>
    ⟨Function.update a.entities e
        { a.entities e with animation_id := animation_parameters.animation_id },
      mapAssign e animation_parameters a.animated_entities⟩

/-- The method `Animator::is_animating`. -/
def Animator.is_animating (e : Nat) (a : Animator T) : Option (AnimationParameters T) :=
  mapFind e a.animated_entities

end AnimatorOps

/-- The effect of one unpaused or paused item of `Animator::animate` on the
entity it points to: the entity afterwards, and whether the pointer is
pushed to `to_remove`. -/
def advance {T : Type} [LinearOrder T] [Zero T] [Add T] [Mul T] [Div T] (fmod : T → T → T)
    (dt : T) (param : AnimationParameters T) (entity : AnimatedEntity T) :
    AnimatedEntity T × Bool :=
  if param.paused then (entity, false)
  else
    let dur := entity.get_animation_duration_seconds
    let time := entity.animation_time_seconds + dt * param.speed
    if time > dur then
      if param.loop && decide (dur > 0) then
        ({ entity with animation_time_seconds := fmod time dur }, false)
      else ({ entity with animation_time_seconds := dur }, true)
    else ({ entity with animation_time_seconds := time }, false)

/-- An entity with one animation of 10 ticks at 2 ticks per second, not yet
animated. -/
def demoEntity : AnimatedEntity Int := ⟨[("walk", 2, 10)], NONE_ANIMATION, 0⟩

/-- An animator with no active entity over a heap of copies of `demoEntity`. -/
def demoAnimator : Animator Int := ⟨fun _ => demoEntity, []⟩

/-- Integer stand-in for `std::fmod`. -/
def demoFmod (x y : Int) : Int := x % y

/-- The non-looping parameters `{animation_id: 0, loop: false, paused: false,
speed: 1}`. -/
def demoOnce : AnimationParameters Int := ⟨0, false, false, 1⟩

/-- The animator after entity 0 was started with `demoOnce` and one
`animate(6)` ran it past its duration of 5 seconds. -/
def demoFinished : Animator Int := (demoAnimator.start 0 demoOnce).animate demoFmod 6

/-- The animator with entity 0 playing a looping animation at clock 4. -/
def demoPlaying : Animator Int :=
  ⟨fun _ => ⟨[("walk", 2, 10)], 0, 4⟩, [(0, ⟨0, true, false, 1⟩)]⟩

/-- Integer stand-ins for the glm operations in which the default values are
mapped to the identity: `translate 0`, `toMat4 0` and `scale 1` are the empty
word. -/
def unitGlm : Glm Int Int Int Int Word where
  toFloat := fun x => x
  mix := fun a b f => a + (b - a) * f
  slerp := fun a b f => a + (b - a) * f
  vec3_zero := 0
  vec3_one := 1
  quat_identity := 0
  translate := fun v => ⟨List.replicate v.toNat 1⟩
  toMat4 := fun q => ⟨List.replicate q.toNat 2⟩
  scale := fun s => ⟨List.replicate (s - 1).toNat 3⟩

/-- The remainder of `x / y` with the quotient truncated towards zero, which
is the value the C standard gives `fmod(x, y)`, over an ordered field with a
floor function. -/
def fmodTrunc {T : Type} [LinearOrderedField T] [FloorRing T] (x y : T) : T :=
  x - y * (if 0 ≤ x / y then (Int.floor (x / y) : T) else (Int.ceil (x / y) : T))

/-! ## The hierarchy cache of ModelLoader

`hierarchy_cache` is an association list from `(file, vertex format)` to
`(last_modified, weak_handle)`; a hierarchy instance is identified by a
natural number and a weak handle is the number of the instance it observes.
What a call of `load_hierarchy_from_file` reads from outside the loader is
gathered in `LoadEnv`. -/

/-- The members of `ModelLoader` read by `load_hierarchy_from_file`. -/
structure ModelLoader (Time : Type) where
  import_path : String
  hierarchy_cache : List ((String × Nat) × (Time × Nat))

/-- The surroundings of one call of `load_hierarchy_from_file`. -/
structure LoadEnv (Time : Type) where
  /-- The modification time `std::filesystem::last_write_time(path)`, or
  `none` when `std::filesystem::exists(path)` is false. -/
  last_write_time : String → Option Time
  /-- Whether the instance a weak handle observes is still owned, that is
  whether `lock()` returns a non-null pointer. -/
  alive : Nat → Bool
  /-- Whether the import of lines 233-375 (`importer.ReadFile` and the
  conversion of the scene) completes without throwing. -/
  import_succeeds : String → Bool
  /-- The instance `std::make_shared` creates when the file is imported. -/
  fresh : Nat

/-- What a call of `load_hierarchy_from_file` does: the instance it returns
(`none` when it throws), whether it reached `importer.ReadFile`, and the
loader afterwards. -/
structure LoadResult (Time : Type) where
  returned : Option Nat
  imported : Bool
  loader : ModelLoader Time

/-- The method `ModelLoader::load_hierarchy_from_file`, for the vertex format
`format`. -/
def ModelLoader.load_hierarchy_from_file {Time : Type} [LinearOrder Time]
    (env : LoadEnv Time) (loader : ModelLoader Time) (file : String) (format : Nat) :
    LoadResult Time :=
  let path := loader.import_path ++ "/" ++ file
  match env.last_write_time path with
  | none => ⟨none, false, loader⟩
  | some last_write_time =>
    let cached : Option Nat :=
      match mapFind (file, format) loader.hierarchy_cache with
      | some existing =>
        if env.alive existing.2 && decide (existing.1 ≥ last_write_time) then some existing.2
        else none
      | none => none
    match cached with
    | some handle => ⟨some handle, false, loader⟩
    | none =>
      if env.import_succeeds path then
        ⟨some env.fresh, true,
          { loader with
            hierarchy_cache :=
              mapAssign (file, format) (last_write_time, env.fresh) loader.hierarchy_cache }⟩
      else ⟨none, true, loader⟩

/-- A loader with an empty cache. -/
def demoLoader : ModelLoader Nat := ⟨"res", []⟩

/-- A first call: the file exists with modification time 3, the import
succeeds and creates instance 7. -/
def demoEnvFirst : LoadEnv Nat := ⟨fun _ => some 3, fun _ => false, fun _ => true, 7⟩

/-- A second call: the file is unchanged, instance 7 is alive, and an import
would create instance 8. -/
def demoEnvSecond : LoadEnv Nat := ⟨fun _ => some 3, fun h => decide (h = 7), fun _ => true, 8⟩

/-! ## Bone-weight reduction of load_hierarchy_from_file

Lines 261-294 of `ModelLoader.h`.  `W` stands for `float`.  A
`std::map<float, std::set<uint>>` is a list of `(weight, bone ids)` entries
in ascending order of the weight, each set a list in ascending order.  The
vector `bone_weights_total` is a function of the vertex id. -/

/-- The glm types `vec4` and `uvec4`. -/
structure Vec4 (α : Type) where
  x : α
  y : α
  z : α
  w : α
  deriving DecidableEq

/-- The assignment `v[i] = a` for `i < 4`. -/
def Vec4.set {α : Type} (v : Vec4 α) (i : Nat) (a : α) : Vec4 α :=
  match i with
  | 0 => { v with x := a }
  | 1 => { v with y := a }
  | 2 => { v with z := a }
  | 3 => { v with w := a }
  | _ => v

section BoneWeights

variable {W : Type}

end BoneWeights

/-- An animator in which entity 0 is paused at clock 4 and entity 1 plays a
non-looping animation of duration 5. -/
def demoPaused : Animator Int :=
  ⟨fun _ => ⟨[("walk", 2, 10)], 0, 4⟩, [(0, ⟨0, true, true, 1⟩), (1, ⟨0, false, false, 1⟩)]⟩

/-! ## The member `meshes` across a call of calculate_animation -/

/-- The contents of the member `meshes` when a call of `calculate_animation`
ends, by return or by the throw of line 84: the statements of the call are
followed in order and `meshes` is handed from one to the next.  The throw is
reached before any statement that writes to `meshes`.  `none` when an index
is out of bounds. -/
def MeshHierarchy.meshes_after_calculate_animation {T F V Q M : Type} [LinearOrder T]
    [Sub T] [Div T] [Mul T] [Mul M] [One M] (g : Glm T F V Q M) (h : MeshHierarchy T V Q M)
    (animation_id : Nat) (time_seconds : T) : Option (List (ModelInfo M)) :=
  if animation_id = NONE_ANIMATION then
    some (h.meshes.map fun mesh => ⟨mesh.bone_transforms.map fun _ => 1⟩)
  else if hge : animation_id ≥ h.animations.length then
    some h.meshes
  else
    animate g animation_id (time_seconds * (h.animations[animation_id]).2.1) h.root_node 1
      false h.meshes

/-- A loader whose cache holds instance 7 for `cat.fbx`, recorded at
modification time 3. -/
def demoLoaderCached : ModelLoader Nat := ⟨"res", [(("cat.fbx", 0), (3, 7))]⟩

/-- A call at which the file has the earlier modification time 2, instance 7
is alive, and an import would create instance 8. -/
def demoEnvEarlier : LoadEnv Nat := ⟨fun _ => some 2, fun h => decide (h = 7), fun _ => true, 8⟩

/-- A call at which the file has the later modification time 5, instance 7
is alive, and the import creates instance 8. -/
def demoEnvLater : LoadEnv Nat := ⟨fun _ => some 5, fun h => decide (h = 7), fun _ => true, 8⟩

/-! ## Nearest lights

`Lights.h` and `Lights.cpp`.  The set `point_lights` is the list of the
lights it holds, in iteration order.  `L` is the light type and `D` stands
for `float`. -/

/-- The struct `PointLight`. -/
structure PointLight (V C : Type) where
  position : V
  colour : C
  deriving DecidableEq

/-- The function `LightScene::get_nearest_lights`.  The parameter
`partial_sort k v` is `std::partial_sort(v.begin(), v.begin() + k, v.end(),
comp)` with the comparison of the first components, `distance_squared` is
the body of lines 31-34 and `off` is `Light::off()`. -/
def get_nearest_lights {L D : Type} (partial_sort : Nat → List (D × L) → List (D × L))
    (distance_squared : L → D) (off : L) (lights : List L) (max_count min_count : Nat) :
    List L :=
  if lights.length ≤ max_count then
    lights ++ List.replicate (min_count - lights.length) off
  else
    let result_count := min lights.length max_count
    let sorted_vector := partial_sort result_count (lights.map fun l => (distance_squared l, l))
    let result := (sorted_vector.take result_count).map Prod.snd
    result ++ List.replicate (min_count - result.length) off

/-- The method `LightScene::get_nearest_point_lights`; `sub` and `dot` are
the glm subtraction and `glm::dot` on `vec3`, and `off` is
`PointLight::off()`. -/
def get_nearest_point_lights {V C D : Type}
    (partial_sort : Nat → List (D × PointLight V C) → List (D × PointLight V C))
    (sub : V → V → V) (dot : V → V → D) (off : PointLight V C)
    (point_lights : List (PointLight V C)) (target : V) (max_count min_count : Nat) :
    List (PointLight V C) :=
  get_nearest_lights partial_sort
    (fun light => dot (sub light.position target) (sub light.position target)) off
    point_lights max_count min_count

/-- The contract of `std::partial_sort` with a comparison of the first
components: the result is a rearrangement of the input, and none of its
first `k` elements is greater than any later element. -/
def PartialSortContract {L D : Type} [LinearOrder D]
    (partial_sort : Nat → List (D × L) → List (D × L)) : Prop :=
  ∀ k v, k ≤ v.length →
    (partial_sort k v).Perm v ∧
      ∀ a ∈ (partial_sort k v).take k, ∀ b ∈ (partial_sort k v).drop k, a.1 ≤ b.1

/-- A sort of the whole vector, which meets the contract of
`std::partial_sort`. -/
def demoPartialSort (_ : Nat) (v : List (Int × PointLight Int Int)) :
    List (Int × PointLight Int Int) :=
  v.mergeSort fun a b => decide (a.1 ≤ b.1)

/-- Three lights on a line, at 5, 1 and -2. -/
def demoLights : List (PointLight Int Int) := [⟨5, 10⟩, ⟨1, 20⟩, ⟨-2, 30⟩]

/-- The demo tree with a mesh of three bone slots; no node of the tree binds
slot 2. -/
def demoStaleFirst : MeshHierarchy Int Int Int Word :=
  ⟨[⟨[⟨[7]⟩, ⟨[8]⟩, ⟨[9]⟩]⟩], [("walk", 2, 10)], demoRoot⟩

/-- The hierarchy `demoStaleFirst` with other prior contents of the bone
slots. -/
def demoStaleSecond : MeshHierarchy Int Int Int Word :=
  ⟨[⟨[⟨[70]⟩, ⟨[80]⟩, ⟨[90]⟩]⟩], [("walk", 2, 10)], demoRoot⟩

/-- A hierarchy whose root `demoA` owns a bone binding, with a catalog of two
animations; no node has a curve for animation 1. -/
def demoBindPose : MeshHierarchy Int Int Int Word :=
  ⟨[⟨[⟨[7]⟩, ⟨[8]⟩]⟩], [("walk", 2, 10), ("idle", 2, 10)], demoA⟩

/-- An entity with a catalog of two animations, of durations 5 s and 10 s,
and no active animation. -/
def demoTwoClips : Animator Int :=
  ⟨fun _ => ⟨[("walk", 2, 10), ("idle", 2, 20)], NONE_ANIMATION, 0⟩, []⟩

/-- A call of one of the methods of `Animator` that change its state. -/
inductive AnimatorCall (T : Type) where
  | start (e : Nat) (animation_parameters : AnimationParameters T)
  | stop (e : Nat)
  | pause (e : Nat)
  | resume (e : Nat) (animation_parameters : AnimationParameters T)
  | update_param (e : Nat) (animation_parameters : AnimationParameters T)
  | animate (dt : T)

/-- The state after one call. -/
def Animator.step {T : Type} [LinearOrder T] [Zero T] [Add T] [Mul T] [Div T]
    (fmod : T → T → T) (a : Animator T) : AnimatorCall T → Animator T
  | .start e p => a.start e p
  | .stop e => a.stop e
  | .pause e => a.pause e
  | .resume e p => a.resume e p
  | .update_param e p => a.update_param e p
  | .animate dt => a.animate fmod dt

/-- The state after a sequence of calls, first call first. -/
def Animator.run {T : Type} [LinearOrder T] [Zero T] [Add T] [Mul T] [Div T]
    (fmod : T → T → T) (a : Animator T) (calls : List (AnimatorCall T)) : Animator T :=
  calls.foldl (fun a c => a.step fmod c) a

/-- Every entity of the active set has its own animation id equal to the
`animation_id` of its stored parameters. -/
def IdsInSync {T : Type} (a : Animator T) : Prop :=
  ∀ x ∈ a.animated_entities, (a.entities x.1).animation_id = x.2.animation_id

instance {T : Type} (a : Animator T) : Decidable (IdsInSync a) :=
  inferInstanceAs
    (Decidable (∀ x ∈ a.animated_entities, (a.entities x.1).animation_id = x.2.animation_id))

/-! ## Conversion of an imported scene

The part of `ModelLoader::load_hierarchy_from_file` that follows
`importer.ReadFile` (lines 239-375 of `ModelLoader.h`).  The Assimp structs
are reduced to the members these lines read; the vertex data, which does not
enter the hierarchy, is left out.  Counters of type `uint` are natural
numbers. -/

/-- The Assimp struct `aiBone` as the mesh loop reads it for the bone
bindings: its name and its offset matrix. -/
structure AiNamedBone (M : Type) where
  mName : String
  mOffsetMatrix : M

/-- The Assimp struct `aiMesh`: whether `mPrimitiveTypes` has the bit
`aiPrimitiveType_TRIANGLE`, and the bones. -/
structure AiMesh (M : Type) where
  hasTriangles : Bool
  mBones : List (AiNamedBone M)

/-- The Assimp struct `aiNode`. -/
inductive AiNode (M : Type) where
  | mk (mName : String) (mTransformation : M) (mMeshes : List Nat)
      (mChildren : List (AiNode M))

/-- The Assimp struct `aiNodeAnim`, keys as `(mTime, mValue)`. -/
structure AiNodeAnim (T V Q : Type) where
  mNodeName : String
  mPositionKeys : List (T × V)
  mRotationKeys : List (T × Q)
  mScalingKeys : List (T × V)

/-- The Assimp struct `aiAnimation`. -/
structure AiAnimation (T V Q : Type) where
  mName : String
  mTicksPerSecond : T
  mDuration : T
  mChannels : List (AiNodeAnim T V Q)

/-- The Assimp struct `aiScene`. -/
structure AiScene (T V Q M : Type) where
  mMeshes : List (AiMesh M)
  mAnimations : List (AiAnimation T V Q)
  mRootNode : AiNode M

/-- What the mesh loop builds: the meshes of the hierarchy, the map
`total_bones` and the map `mesh_index_map`. -/
structure ImportState (M : Type) where
  meshes : List (ModelInfo M)
  total_bones : List (String × List (Nat × Nat × M))
  mesh_index_map : List (Nat × Nat)

section Import

variable {T V Q M : Type}

/-- The loop `for (bone_i ...)` over the bones of the scene mesh `mesh_i`
(lines 265-268), from bone number `bone_i` on; the state is the map
`bone_names` of the mesh and the map `total_bones`. -/
def boneLoop (transpose : M → M) (mesh_i : Nat) :
    Nat → List (AiNamedBone M) →
      List (String × Nat) × List (String × List (Nat × Nat × M)) →
      List (String × Nat) × List (String × List (Nat × Nat × M))
  | _, [], st => st
  | bone_i, bone :: rest, (bone_names, total_bones) =>
    boneLoop transpose mesh_i (bone_i + 1) rest
      (mapAssign bone.mName bone_i bone_names,
        mapAssign bone.mName
          ((mapFind bone.mName total_bones).getD [] ++
            [(mesh_i, bone_i, transpose bone.mOffsetMatrix)])
          total_bones)

/-- The loop `for (mesh_i ...)` over the meshes of the scene (lines 248-317),
from mesh number `mesh_i` on.  A mesh without triangles is skipped; for the
others `ModelInfo` is constructed with `bone_names`, which sizes
`bone_transforms` to `bone_names.size()` identity matrices. -/
def meshLoop [One M] (transpose : M → M) :
    Nat → List (AiMesh M) → ImportState M → ImportState M
  | _, [], st => st
  | mesh_i, mesh :: rest, st =>
    if !mesh.hasTriangles then meshLoop transpose (mesh_i + 1) rest st
    else
      let bones := boneLoop transpose mesh_i 0 mesh.mBones ([], st.total_bones)
      meshLoop transpose (mesh_i + 1) rest
        ⟨st.meshes ++ [⟨List.replicate bones.1.length 1⟩], bones.2,
          mapAssign mesh_i st.meshes.length st.mesh_index_map⟩

/-- The loop over the channels of animation `animation_i` (lines 334-337). -/
def channelLoop (animation_i : Nat) :
    List (AiNodeAnim T V Q) → List (String × List (Nat × AiNodeAnim T V Q)) →
      List (String × List (Nat × AiNodeAnim T V Q))
  | [], animations => animations
  | node_animation :: rest, animations =>
    channelLoop animation_i rest
      (mapAssign node_animation.mNodeName
        ((mapFind node_animation.mNodeName animations).getD [] ++
          [(animation_i, node_animation)])
        animations)

/-- The loop over the animations of the scene (lines 325-338), from animation
number `animation_i` on; the state is the catalog and the map `animations`
from node names to channels. -/
def animationLoop [Zero T] [One T] [DecidableEq T] :
    Nat → List (AiAnimation T V Q) →
      List (String × T × T) × List (String × List (Nat × AiNodeAnim T V Q)) →
      List (String × T × T) × List (String × List (Nat × AiNodeAnim T V Q))
  | _, [], st => st
  | animation_i, animation :: rest, (catalog, animations) =>
    animationLoop (animation_i + 1) rest
      (catalog ++
          [(if animation.mName = "" then "[Unnamed] (" ++ toString animation_i ++ ")"
              else animation.mName,
            if animation.mTicksPerSecond = 0 then 1 else animation.mTicksPerSecond,
            animation.mDuration)],
        channelLoop animation_i animation.mChannels animations)

/-- The assignment `m[k] = x` on a `std::map`. -/
def orderedAssign {X : Type} [LinearOrder T] (k : T) (x : X) : List (T × X) → List (T × X)
  | [] => [(k, x)]
  | (k', x') :: rest =>
    if k < k' then (k, x) :: (k', x') :: rest
    else if k = k' then (k, x) :: rest
    else (k', x') :: orderedAssign k x rest

/-- The three key loops of the lambda `load_hierarchy_node` (lines 354-365). -/
def keyLoops [LinearOrder T] (node_animation : AiNodeAnim T V Q)
    (animation_data : AnimationData T V Q) : AnimationData T V Q :=
  ⟨node_animation.mPositionKeys.foldl (fun m key => orderedAssign key.1 key.2 m)
      animation_data.positions,
    node_animation.mRotationKeys.foldl (fun m key => orderedAssign key.1 key.2 m)
      animation_data.rotations,
    node_animation.mScalingKeys.foldl (fun m key => orderedAssign key.1 key.2 m)
      animation_data.scalings⟩

/-- The loop over the channels of a node (lines 352-366). -/
def animationDataLoop [LinearOrder T] :
    List (Nat × AiNodeAnim T V Q) → List (Int × AnimationData T V Q) →
      List (Int × AnimationData T V Q)
  | [], animation_data => animation_data
  | (animation_id, node_animation) :: rest, animation_data =>
    animationDataLoop rest
      (mapAssign (uintToInt animation_id)
        (keyLoops node_animation
          ((mapFind (uintToInt animation_id) animation_data).getD {}))
        animation_data)

mutual
/-- The lambda `load_hierarchy_node` (lines 341-372).  `operator[]` on
`mesh_index_map` and `total_bones` yields a value-initialised entry for an
absent key. -/
def load_hierarchy_node [LinearOrder T] (transpose : M → M) (st : ImportState M)
    (animations : List (String × List (Nat × AiNodeAnim T V Q))) :
    AiNode M → MeshHierarchyNode T V Q M
  | .mk mName mTransformation mMeshes mChildren =>
    .mk (mMeshes.map fun mesh => (mapFind mesh st.mesh_index_map).getD 0)
      (transpose mTransformation)
      ((mapFind mName st.total_bones).getD [])
      (match mapFind mName animations with
        | some channels => animationDataLoop channels []
        | none => [])
      (load_hierarchy_children transpose st animations mChildren)
/-- The loop over the children of a node (lines 369-371). -/
def load_hierarchy_children [LinearOrder T] (transpose : M → M) (st : ImportState M)
    (animations : List (String × List (Nat × AiNodeAnim T V Q))) :
    List (AiNode M) → List (MeshHierarchyNode T V Q M)
  | [] => []
  | child :: rest =>
    load_hierarchy_node transpose st animations child ::
      load_hierarchy_children transpose st animations rest
end

/-- The conversion of an imported scene with a root node into a
`MeshHierarchy` (lines 239-375); an error is the message of the exception
thrown. -/
def load_hierarchy_from_scene [LinearOrder T] [Zero T] [One T] [One M] (transpose : M → M)
    (scene : AiScene T V Q M) : Except String (MeshHierarchy T V Q M) :=
  if scene.mMeshes.length = 0 then .error "No meshes"
  else
    let st := meshLoop transpose 0 scene.mMeshes ⟨[], [], []⟩
    if st.meshes.isEmpty then .error "No triangle meshes"
    else
      let animations := animationLoop 0 scene.mAnimations ([], [])
      .ok ⟨st.meshes, animations.1,
        load_hierarchy_node transpose st animations.2 scene.mRootNode⟩

end Import

/-- A scene whose mesh 0 has no triangles and whose mesh 1 has the bone
"hip"; the root node is named "hip" and shows mesh 1. -/
def demoSceneSkipped : AiScene Int Int Int Word :=
  ⟨[⟨false, []⟩, ⟨true, [⟨"hip", ⟨[14]⟩⟩]⟩], [⟨"walk", 2, 10, []⟩],
    .mk "hip" ⟨[2]⟩ [1] []⟩

/-- The hierarchy the conversion makes of `demoSceneSkipped`. -/
def demoLoadedSkipped : MeshHierarchy Int Int Int Word :=
  ⟨[⟨[1]⟩], [("walk", 2, 10)], .mk [0] ⟨[2]⟩ [(1, 0, ⟨[14]⟩)] [] []⟩

/-- A scene with one mesh, two of whose bones are named "hip"; the root node
is named "hip". -/
def demoSceneRepeated : AiScene Int Int Int Word :=
  ⟨[⟨true, [⟨"hip", ⟨[14]⟩⟩, ⟨"hip", ⟨[15]⟩⟩]⟩], [⟨"walk", 2, 10, []⟩],
    .mk "hip" ⟨[2]⟩ [0] []⟩

/-- The hierarchy the conversion makes of `demoSceneRepeated`. -/
def demoLoadedRepeated : MeshHierarchy Int Int Int Word :=
  ⟨[⟨[1]⟩], [("walk", 2, 10)], .mk [0] ⟨[2]⟩ [(0, 0, ⟨[14]⟩), (0, 1, ⟨[15]⟩)] [] []⟩

/-! ## Binary floating point

The C++ types `double` and `float` are the IEEE 754 formats binary64 and
binary32.  A value is NaN, an infinity, or finite; a finite value is carried
as the rational number it denotes, and an operation rounds the exact result
to the nearest value of the format, ties to the even significand, with
gradual underflow and overflow to infinity.  The two zeros are one value.
In the order NaN lies below every other value; an IEEE comparison with NaN
is false, so the order agrees with the comparisons of the code wherever no
operand is NaN. -/

/-- A value of the binary format with `prec` significand bits and largest
finite values below `2 ^ emax`. -/
inductive Ieee (prec emax : Nat) where
  | nan
  | ninf
  | fin (q : ℚ)
  | pinf
  deriving DecidableEq

namespace Ieee

variable {prec emax : Nat}

/-- The place of a value in the order: NaN, negative infinity, the finite
values, positive infinity. -/
def rank : Ieee prec emax → Nat
  | nan => 0
  | ninf => 1
  | fin _ => 2
  | pinf => 3

/-- The rational a finite value denotes. -/
def val : Ieee prec emax → ℚ
  | fin q => q
  | _ => 0

instance : LinearOrder (Ieee prec emax) :=
  LinearOrder.lift' (fun x => toLex (x.rank, x.val)) (by
    intro a b h
    have h1 : a.rank = b.rank := congrArg (fun p => (ofLex p).1) h
    have h2 : a.val = b.val := congrArg (fun p => (ofLex p).2) h
    cases a <;> cases b <;> simp_all [rank, val])

/-- The value is neither NaN nor an infinity. -/
def isFinite (x : Ieee prec emax) : Prop := ∃ q, x = fin q

/-- The number of binary digits of `n`, for `fuel` at least that number. -/
def bitLength : Nat → Nat → Nat
  | 0, _ => 0
  | fuel + 1, n => if n = 0 then 0 else bitLength fuel (n / 2) + 1

/-- The integer `⌊log₂ (n / d)⌋` for positive `n` and `d`. -/
def floorLog2 (n d : Nat) : Int :=
  if bitLength d d ≤ bitLength n n then
    if d * 2 ^ (bitLength n n - bitLength d d) ≤ n then
      ((bitLength n n - bitLength d d : Nat) : Int)
    else ((bitLength n n - bitLength d d : Nat) : Int) - 1
  else
    if d ≤ n * 2 ^ (bitLength d d - bitLength n n) then
      -((bitLength d d - bitLength n n : Nat) : Int)
    else -((bitLength d d - bitLength n n : Nat) : Int) - 1

/-- The integer nearest to `n / d`, a tie going to the even one. -/
def roundHalfEven (n : Int) (d : Nat) : Int :=
  let q := n / (d : Int)
  let r := n - q * (d : Int)
  if 2 * r < (d : Int) then q
  else if (d : Int) < 2 * r then q + 1
  else if q % 2 = 0 then q else q + 1

/-- The rational `m * 2 ^ k`. -/
def scale2 (m k : Int) : ℚ :=
  if 0 ≤ k then ((m * ((2 ^ k.toNat : Nat) : Int) : Int) : ℚ) else mkRat m (2 ^ (-k).toNat)

/-- Rounding of an exact result `x` to the format.  With `e = ⌊log₂ |x|⌋` the
spacing of the format at `x` is `2 ^ k`, `k = max (e - prec + 1) (3 - emax -
prec)`; `x` is rounded to the nearest multiple of it, and a result of
magnitude `2 ^ emax` or more is an infinity. -/
def round (x : ℚ) : Ieee prec emax :=
  if x = 0 then fin 0
  else
    let e := floorLog2 x.num.natAbs x.den
    let k := max (e - ((prec : Int) - 1)) (3 - (emax : Int) - (prec : Int))
    let m :=
      if 0 ≤ k then roundHalfEven x.num (x.den * 2 ^ k.toNat)
      else roundHalfEven (x.num * ((2 ^ (-k).toNat : Nat) : Int)) x.den
    let r := scale2 m k
    if (2 : ℚ) ^ emax ≤ r then pinf
    else if r ≤ -(2 : ℚ) ^ emax then ninf
    else fin r

/-- Addition. -/
def add : Ieee prec emax → Ieee prec emax → Ieee prec emax
  | nan, _ => nan
  | _, nan => nan
  | pinf, ninf => nan
  | ninf, pinf => nan
  | pinf, _ => pinf
  | _, pinf => pinf
  | ninf, _ => ninf
  | _, ninf => ninf
  | fin a, fin b => round (a + b)

/-- Negation. -/
def neg : Ieee prec emax → Ieee prec emax
  | nan => nan
  | pinf => ninf
  | ninf => pinf
  | fin a => fin (-a)

/-- Multiplication. -/
def mul : Ieee prec emax → Ieee prec emax → Ieee prec emax
  | nan, _ => nan
  | _, nan => nan
  | fin a, fin b => round (a * b)
  | fin a, pinf => if a = 0 then nan else if 0 < a then pinf else ninf
  | fin a, ninf => if a = 0 then nan else if 0 < a then ninf else pinf
  | pinf, fin b => if b = 0 then nan else if 0 < b then pinf else ninf
  | ninf, fin b => if b = 0 then nan else if 0 < b then ninf else pinf
  | pinf, pinf => pinf
  | ninf, ninf => pinf
  | pinf, ninf => ninf
  | ninf, pinf => ninf

/-- Division; a zero is taken as the positive zero. -/
def div : Ieee prec emax → Ieee prec emax → Ieee prec emax
  | nan, _ => nan
  | _, nan => nan
  | fin a, fin b =>
    if b = 0 then (if a = 0 then nan else if 0 < a then pinf else ninf) else round (a / b)
  | fin _, pinf => fin 0
  | fin _, ninf => fin 0
  | pinf, fin b => if 0 ≤ b then pinf else ninf
  | ninf, fin b => if 0 ≤ b then ninf else pinf
  | pinf, pinf => nan
  | pinf, ninf => nan
  | ninf, pinf => nan
  | ninf, ninf => nan

/-- The function `std::fmod`: NaN for an infinite first or a zero second
argument, the first argument for an infinite second one, and otherwise the
remainder of the truncated quotient, which the format holds exactly. -/
def fmod : Ieee prec emax → Ieee prec emax → Ieee prec emax
  | fin a, fin b => if b = 0 then nan else fin (fmodTrunc a b)
  | fin a, pinf => fin a
  | fin a, ninf => fin a
  | _, _ => nan

/-- The conversion to another format, as the cast `(float)` of a `double`. -/
def convert {prec' emax' : Nat} : Ieee prec emax → Ieee prec' emax'
  | nan => nan
  | ninf => ninf
  | pinf => pinf
  | fin a => round a

instance : Zero (Ieee prec emax) := ⟨fin 0⟩

instance : One (Ieee prec emax) := ⟨fin 1⟩

instance : Add (Ieee prec emax) := ⟨add⟩

instance : Neg (Ieee prec emax) := ⟨neg⟩

instance : Sub (Ieee prec emax) := ⟨fun a b => add a (neg b)⟩

instance : Mul (Ieee prec emax) := ⟨mul⟩

instance : Div (Ieee prec emax) := ⟨div⟩

end Ieee

/-- The type `double`. -/
abbrev Double := Ieee 53 1024

/-- The type `float`. -/
abbrev Single := Ieee 24 128

/-- The function `glm::mix` on `float`. -/
def mixSingle (x y a : Single) : Single := x * (1 - a) + y * a

/-- An entity with one animation of 10 ticks at 2 ticks per second, times in
`double`, not yet animated. -/
def demoWalkD : Animator Double :=
  ⟨fun _ => ⟨[("walk", .fin 2, .fin 10)], NONE_ANIMATION, 0⟩, []⟩

/-- An entity with one animation of 100 ticks at 24 ticks per second, times
in `double`, not yet animated. -/
def demoClipD : Animator Double :=
  ⟨fun _ => ⟨[("clip", .fin 24, .fin 100)], NONE_ANIMATION, 0⟩, []⟩

/-- Entity 0 plays a looping animation of duration 5 at clock 0 with the
speed `1e200`, times in `double`. -/
def demoFastD : Animator Double :=
  ⟨fun _ => ⟨[("walk", .fin 2, .fin 10)], 0, 0⟩,
    [(0, ⟨0, true, false, Ieee.round (10 ^ 200)⟩)]⟩

/-- Entity 0 plays a looping animation of duration 5 at clock 4 with speed 1,
times in `double`. -/
def demoPlayingD : Animator Double :=
  ⟨fun _ => ⟨[("walk", .fin 2, .fin 10)], 0, .fin 4⟩, [(0, ⟨0, true, false, 1⟩)]⟩

end Cits3003

namespace Cits3003

/-! ## Lemmas on `lower_bound` and the channel block -/

/-- A list is empty or ends in a last element. -/
theorem nil_or_snoc {α : Type} (l : List α) : l = [] ∨ ∃ L b, l = L ++ [b] := by
  rcases List.eq_nil_or_concat l with h | ⟨L, b, h⟩
  · exact Or.inl h
  · exact Or.inr ⟨L, b, by rw [h, List.concat_eq_append]⟩

section ChannelLemmas

variable {T F X : Type} [LinearOrder T]

theorem lower_bound_eq (m : List (T × X)) (time : T) :
    lower_bound m time =
      (m.takeWhile (fun kv => decide (kv.1 < time)), m.dropWhile (fun kv => decide (kv.1 < time))) := by
  simp [lower_bound, List.span_eq_take_drop]

/-- When every entry of `l₁` is below `time` and `a` is not, the search stops
at `a`. -/
theorem lower_bound_split (l₁ l₂ : List (T × X)) (a : T × X) (time : T)
    (h₁ : ∀ x ∈ l₁, x.1 < time) (ha : ¬ a.1 < time) :
    lower_bound (l₁ ++ a :: l₂) time = (l₁, a :: l₂) := by
  rw [lower_bound_eq]
  induction l₁ with
  | nil => simp [List.takeWhile, List.dropWhile, ha]
  | cons x xs ih =>
    have hx : x.1 < time := h₁ x (List.mem_cons_self _ _)
    have ih := ih (fun y hy => h₁ y (List.mem_cons_of_mem _ hy))
    simp only [Prod.mk.injEq] at ih
    simp [List.takeWhile, List.dropWhile, hx, ih.1, ih.2]

/-- When every entry is below `time`, the search returns `end()`. -/
theorem lower_bound_all (m : List (T × X)) (time : T) (h : ∀ x ∈ m, x.1 < time) :
    lower_bound m time = (m, []) := by
  rw [lower_bound_eq]
  induction m with
  | nil => simp
  | cons x xs ih =>
    have hx : x.1 < time := h x (List.mem_cons_self _ _)
    have ih := ih (fun y hy => h y (List.mem_cons_of_mem _ hy))
    simp only [Prod.mk.injEq] at ih
    simp [List.takeWhile, List.dropWhile, hx, ih.1, ih.2]

/-- Every list splits at the first entry that is not below `time`. -/
theorem split_at_time (m : List (T × X)) (time : T) :
    (∀ x ∈ m, x.1 < time) ∨
      ∃ l₁ a l₂, m = l₁ ++ a :: l₂ ∧ (∀ x ∈ l₁, x.1 < time) ∧ ¬ a.1 < time := by
  induction m with
  | nil => left; simp
  | cons x xs ih =>
    by_cases hx : x.1 < time
    · rcases ih with h | ⟨l₁, a, l₂, rfl, h₁, ha⟩
      · left
        intro y hy
        rcases List.mem_cons.1 hy with rfl | hy
        · exact hx
        · exact h y hy
      · right
        refine ⟨x :: l₁, a, l₂, rfl, ?_, ha⟩
        intro y hy
        rcases List.mem_cons.1 hy with rfl | hy
        · exact hx
        · exact h₁ y hy
    · right
      exact ⟨[], x, xs, rfl, by simp, hx⟩

/-- In an ascending map split around an entry, the entries before it have
smaller keys and the entries after it larger keys. -/
theorem keysAscending_split {l₁ l₂ : List (T × X)} {a : T × X}
    (hs : KeysAscending (l₁ ++ a :: l₂)) :
    (∀ x ∈ l₁, x.1 < a.1) ∧ (∀ y ∈ l₂, a.1 < y.1) ∧ KeysAscending l₁ := by
  unfold KeysAscending at hs ⊢
  rw [List.map_append, List.map_cons, List.pairwise_append] at hs
  obtain ⟨h1, h2, h3⟩ := hs
  rw [List.pairwise_cons] at h2
  refine ⟨?_, ?_, h1⟩
  · intro x hx
    exact h3 x.1 (List.mem_map_of_mem _ hx) a.1 (List.mem_cons_self _ _)
  · intro y hy
    exact h2.1 y.1 (List.mem_map_of_mem _ hy)

variable [Sub T] [Div T]

/-- The channel block when the search returns `end()`. -/
theorem sampleChannel_end (toFloat : T → F) (interp : X → X → F → X) (init : X)
    (m : List (T × X)) (time : T) (hne : m ≠ []) (h : ∀ x ∈ m, x.1 < time) :
    sampleChannel toFloat interp init m time = (m.getLast hne).2 := by
  cases m with
  | nil => exact absurd rfl hne
  | cons kv rest =>
    simp only [sampleChannel]
    rw [lower_bound_all _ _ h]

/-- The channel block when the search stops at the first entry. -/
theorem sampleChannel_begin (toFloat : T → F) (interp : X → X → F → X) (init : X)
    (a : T × X) (l₂ : List (T × X)) (time : T) (ha : ¬ a.1 < time) :
    sampleChannel toFloat interp init (a :: l₂) time = a.2 := by
  have h := lower_bound_split [] l₂ a time (by simp) ha
  simp only [List.nil_append] at h
  simp only [sampleChannel]
  rw [h]
  simp

/-- The channel block when the search stops at an entry that has a
predecessor. -/
theorem sampleChannel_mid (toFloat : T → F) (interp : X → X → F → X) (init : X)
    (l₁ : List (T × X)) (prev a : T × X) (l₂ : List (T × X)) (time : T)
    (h₁ : ∀ x ∈ l₁ ++ [prev], x.1 < time) (ha : ¬ a.1 < time) :
    sampleChannel toFloat interp init (l₁ ++ prev :: a :: l₂) time =
      if a.1 = time then a.2
      else interp prev.2 a.2 (toFloat ((time - prev.1) / (a.1 - prev.1))) := by
  have h := lower_bound_split (l₁ ++ [prev]) l₂ a time h₁ ha
  have e : l₁ ++ prev :: a :: l₂ = (l₁ ++ [prev]) ++ a :: l₂ := by simp
  rw [e]
  generalize hm : (l₁ ++ [prev]) ++ a :: l₂ = m at h
  cases m with
  | nil => simp at hm
  | cons kv rest =>
    simp only [sampleChannel]
    rw [h]
    simp

/-- The channel block when the search stops at an entry whose key is the
query time. -/
theorem sampleChannel_hit (toFloat : T → F) (interp : X → X → F → X) (init : X)
    (l₁ : List (T × X)) (a : T × X) (l₂ : List (T × X)) (time : T)
    (h₁ : ∀ x ∈ l₁, x.1 < time) (ha : a.1 = time) :
    sampleChannel toFloat interp init (l₁ ++ a :: l₂) time = a.2 := by
  have hnot : ¬ a.1 < time := by rw [ha]; exact lt_irrefl _
  rcases nil_or_snoc l₁ with rfl | ⟨L, prev, rfl⟩
  · exact sampleChannel_begin toFloat interp init a l₂ time hnot
  · have e : L ++ [prev] ++ a :: l₂ = L ++ prev :: a :: l₂ := by simp
    rw [e, sampleChannel_mid toFloat interp init L prev a l₂ time h₁ hnot, if_pos ha]

end ChannelLemmas

/-! ## Keyframe sampling -/

section SampleTheorems

variable {T F X : Type} [LinearOrder T] [Sub T] [Div T]

/-- C6: for a query time strictly after the first key, not after the last
key and different from every key, the channel block of `sample` yields the
interpolation between the value at the greatest key below the query time
and the value at the least key above it, at the fraction
`(t - t_prev) / (t_next - t_prev)` (narrowed to `float`); `interp` is
`glm::mix` for positions and scalings and `glm::slerp` for rotations. -/
theorem sample_interpolates_between_neighbours (toFloat : T → F) (interp : X → X → F → X)
    (init : X) (m : List (T × X)) (time : T) (hne : m ≠ []) (hs : KeysAscending m)
    (hfirst : (m.head hne).1 < time) (hlast : time ≤ (m.getLast hne).1)
    (hkey : ∀ kv ∈ m, kv.1 ≠ time) :
    ∃ prev next, prev ∈ m ∧ next ∈ m ∧ prev.1 < time ∧ time < next.1 ∧
      (∀ kv ∈ m, kv.1 < time → kv.1 ≤ prev.1) ∧
      (∀ kv ∈ m, time < kv.1 → next.1 ≤ kv.1) ∧
      sampleChannel toFloat interp init m time =
        interp prev.2 next.2 (toFloat ((time - prev.1) / (next.1 - prev.1))) := by
  rcases split_at_time m time with hall | ⟨l₁, a, l₂, rfl, h₁, ha⟩
  · exact absurd (hall _ (List.getLast_mem hne)) (not_lt.2 hlast)
  · obtain ⟨hb, hafter, -⟩ := keysAscending_split hs
    have hane : a.1 ≠ time := hkey a (by simp)
    have hat : time < a.1 := lt_of_le_of_ne (not_lt.1 ha) (Ne.symm hane)
    rcases nil_or_snoc l₁ with rfl | ⟨L, prev, rfl⟩
    · simp only [List.nil_append, List.head_cons] at hfirst
      exact absurd hfirst ha
    · have hprev : prev.1 < time := h₁ prev (by simp)
      refine ⟨prev, a, by simp, by simp, hprev, hat, ?_, ?_, ?_⟩
      · intro kv hkv hlt
        rcases List.mem_append.1 hkv with hkv | hkv
        · obtain ⟨hL, -, -⟩ := keysAscending_split
            (show KeysAscending (L ++ prev :: (a :: l₂)) by simpa using hs)
          rcases List.mem_append.1 hkv with hkv | hkv
          · exact le_of_lt (hL kv hkv)
          · rw [List.mem_singleton.1 hkv]
        · rcases List.mem_cons.1 hkv with rfl | hkv
          · exact absurd hlt ha
          · exact absurd (lt_trans hat (hafter kv hkv)) (not_lt.2 (le_of_lt hlt))
      · intro kv hkv hgt
        rcases List.mem_append.1 hkv with hkv | hkv
        · exact absurd (h₁ kv hkv) (not_lt.2 (le_of_lt hgt))
        · rcases List.mem_cons.1 hkv with rfl | hkv
          · exact le_refl _
          · exact le_of_lt (hafter kv hkv)
      · have e : L ++ [prev] ++ a :: l₂ = L ++ prev :: a :: l₂ := by simp
        rw [e, sampleChannel_mid toFloat interp init L prev a l₂ time h₁ ha, if_neg hane]

/-- C7: for a non-empty channel and a query time at or after the last key
time, the channel block of `sample` yields exactly the last key's value. -/
theorem sample_clamps_to_last_key (toFloat : T → F) (interp : X → X → F → X)
    (init : X) (m : List (T × X)) (time : T) (hne : m ≠ []) (hs : KeysAscending m)
    (hlast : (m.getLast hne).1 ≤ time) :
    sampleChannel toFloat interp init m time = (m.getLast hne).2 := by
  rcases split_at_time m time with hall | ⟨l₁, a, l₂, rfl, h₁, ha⟩
  · exact sampleChannel_end toFloat interp init m time hne hall
  · obtain ⟨-, hafter, -⟩ := keysAscending_split hs
    have hl₂ : l₂ = [] := by
      by_contra hl
      have hmem : (l₁ ++ a :: l₂).getLast hne ∈ l₂ := by
        rw [List.getLast_append_of_ne_nil (List.cons_ne_nil a l₂),
          List.getLast_cons hl]
        exact List.getLast_mem hl
      exact ha (lt_of_lt_of_le (hafter _ hmem) hlast)
    subst hl₂
    have hlast_eq : (l₁ ++ [a]).getLast hne = a := by simp
    rw [hlast_eq] at hlast ⊢
    exact sampleChannel_hit toFloat interp init l₁ a [] time h₁
      (le_antisymm hlast (not_lt.1 ha))

/-- C8: for a non-empty channel, a query time equal to some key's time
yields exactly that key's value, and a query time at or before the first
key's time yields exactly the first key's value. -/
theorem sample_exact_hit_and_clamp_to_first_key (toFloat : T → F)
    (interp : X → X → F → X) (init : X) (m : List (T × X)) (time : T) (hne : m ≠ [])
    (hs : KeysAscending m) :
    (∀ kv ∈ m, kv.1 = time → sampleChannel toFloat interp init m time = kv.2) ∧
      (time ≤ (m.head hne).1 →
        sampleChannel toFloat interp init m time = (m.head hne).2) := by
  constructor
  · intro kv hkv hk
    obtain ⟨l₁, l₂, rfl⟩ := List.append_of_mem hkv
    obtain ⟨hb, -, -⟩ := keysAscending_split hs
    exact sampleChannel_hit toFloat interp init l₁ kv l₂ time
      (fun x hx => hk ▸ hb x hx) hk
  · intro hle
    cases m with
    | nil => exact absurd rfl hne
    | cons a l₂ =>
      simp only [List.head_cons] at hle ⊢
      exact sampleChannel_begin toFloat interp init a l₂ time (not_lt.2 hle)

/-- C10: when each of the three channels holds exactly one keyframe
(position `p`, rotation `q`, scale `s`), `sample` returns
`translate(p) * toMat4(q) * scale(s)` at every query time. -/
theorem sample_single_keyframe {V Q M : Type} [Mul M] (g : Glm T F V Q M)
    (tp tq ts : T) (p : V) (q : Q) (s : V) (time : T) :
    AnimationData.sample g ⟨[(tp, p)], [(tq, q)], [(ts, s)]⟩ time =
      g.translate p * g.toMat4 q * g.scale s := by
  have one : ∀ {Y : Type} (interp : Y → Y → F → Y) (init : Y) (k : T) (v : Y),
      sampleChannel g.toFloat interp init [(k, v)] time = v := by
    intro Y interp init k v
    by_cases hk : k < time
    · exact sampleChannel_end g.toFloat interp init [(k, v)] time (by simp)
        (by simpa using hk)
    · exact sampleChannel_begin g.toFloat interp init (k, v) [] time hk
  simp only [AnimationData.sample, one]

/-- A worked instance of C6: at time 15 the channel with keys 0, 10 and 20
interpolates between the keys 10 and 20. -/
theorem sample_interpolates_between_neighbours_witness :
    (KeysAscending demoChannel ∧
        (demoChannel.head (List.cons_ne_nil _ _)).1 < 15 ∧
        15 ≤ (demoChannel.getLast (List.cons_ne_nil _ _)).1 ∧
        ∀ kv ∈ demoChannel, kv.1 ≠ 15) ∧
      ∃ prev next, prev ∈ demoChannel ∧ next ∈ demoChannel ∧ prev.1 < 15 ∧ 15 < next.1 ∧
        (∀ kv ∈ demoChannel, kv.1 < 15 → kv.1 ≤ prev.1) ∧
        (∀ kv ∈ demoChannel, 15 < kv.1 → next.1 ≤ kv.1) ∧
        sampleChannel demoGlm.toFloat demoGlm.mix 0 demoChannel 15 =
          demoGlm.mix prev.2 next.2 (demoGlm.toFloat ((15 - prev.1) / (next.1 - prev.1))) :=
  ⟨⟨by decide, by decide, by decide, by decide⟩,
    sample_interpolates_between_neighbours demoGlm.toFloat demoGlm.mix 0 demoChannel 15
      (List.cons_ne_nil _ _) (by decide) (by decide) (by decide) (by decide)⟩

/-- A worked instance of C7: at time 25, after the last key 20, the channel
yields the last value 9. -/
theorem sample_clamps_to_last_key_witness :
    (KeysAscending demoChannel ∧ (demoChannel.getLast (List.cons_ne_nil _ _)).1 ≤ 25) ∧
      sampleChannel demoGlm.toFloat demoGlm.mix 0 demoChannel 25 = 9 :=
  ⟨⟨by decide, by decide⟩,
    sample_clamps_to_last_key demoGlm.toFloat demoGlm.mix 0 demoChannel 25
      (List.cons_ne_nil _ _) (by decide) (by decide)⟩

/-- A worked instance of C8: at the key time 10 the channel yields the value
7 of that key. -/
theorem sample_exact_hit_and_clamp_to_first_key_witness :
    KeysAscending demoChannel ∧
      ((∀ kv ∈ demoChannel, kv.1 = 10 →
          sampleChannel demoGlm.toFloat demoGlm.mix 0 demoChannel 10 = kv.2) ∧
        (10 ≤ (demoChannel.head (List.cons_ne_nil _ _)).1 →
          sampleChannel demoGlm.toFloat demoGlm.mix 0 demoChannel 10 =
            (demoChannel.head (List.cons_ne_nil _ _)).2)) :=
  ⟨by decide,
    sample_exact_hit_and_clamp_to_first_key demoGlm.toFloat demoGlm.mix 0 demoChannel 10
      (List.cons_ne_nil _ _) (by decide)⟩

/-- In exact arithmetic, with key times in a linear ordered field, the query
time `(t0 + t1) / 2` between two consecutive keys `t0 < t1` yields the
interpolation at the fraction `1 / 2`.  The statement is about field
arithmetic only: it says nothing on the rounding of `double` sums and
quotients, under which `(t0 + t1) / 2` can coincide with `t0` or `t1`. -/
theorem sampleChannel_midpoint_exact {T F X : Type} [LinearOrderedField T]
    (toFloat : T → F) (interp : X → X → F → X) (init : X) (l₁ l₂ : List (T × X))
    (t0 t1 : T) (v0 v1 : X) (hs : KeysAscending (l₁ ++ (t0, v0) :: (t1, v1) :: l₂)) :
    sampleChannel toFloat interp init (l₁ ++ (t0, v0) :: (t1, v1) :: l₂) ((t0 + t1) / 2) =
      interp v0 v1 (toFloat (1 / 2)) := by
  obtain ⟨hbefore, hafter, -⟩ := keysAscending_split hs
  have h01 : t0 < t1 := hafter (t1, v1) (List.mem_cons_self _ _)
  have hmid0 : t0 < (t0 + t1) / 2 := by linarith
  have hmid1 : (t0 + t1) / 2 < t1 := by linarith
  have h₁ : ∀ x ∈ l₁ ++ [(t0, v0)], x.1 < (t0 + t1) / 2 := by
    intro x hx
    rcases List.mem_append.1 hx with hx | hx
    · exact lt_trans (hbefore x hx) hmid0
    · rw [List.mem_singleton.1 hx]
      exact hmid0
  rw [sampleChannel_mid toFloat interp init l₁ (t0, v0) (t1, v1) l₂ _ h₁ (not_lt.2 hmid1.le),
    if_neg (ne_of_gt hmid1)]
  have hfrac : ((t0 + t1) / 2 - t0) / (t1 - t0) = 1 / 2 := by
    have hne : t1 - t0 ≠ 0 := sub_ne_zero.2 (ne_of_gt h01)
    field_simp
    ring
  simp only [hfrac]

end SampleTheorems

/-! ## Lemmas on bone-transform writes -/

section WriteLemmas

variable {M : Type}

theorem writeBone_some_iff (meshes : List (ModelInfo M)) (mesh slot : Nat) (value : M) :
    (∃ r, writeBone meshes mesh slot value = some r) ↔
      ∃ info, meshes[mesh]? = some info ∧ slot < info.bone_transforms.length := by
  unfold writeBone
  cases hm : meshes[mesh]? with
  | none => simp
  | some info =>
    by_cases hs : slot < info.bone_transforms.length
    · simp [hs]
    · simp [hs]

/-- Reading after an assignment: the assigned slot holds the new value and
every other slot is unchanged. -/
theorem readBone_writeBone {meshes r : List (ModelInfo M)} {mesh slot : Nat} {value : M}
    (h : writeBone meshes mesh slot value = some r) (mesh' slot' : Nat) :
    readBone r mesh' slot' =
      if mesh' = mesh ∧ slot' = slot then some value else readBone meshes mesh' slot' := by
  unfold writeBone at h
  cases hm : meshes[mesh]? with
  | none => simp [hm] at h
  | some info =>
    rw [hm] at h
    by_cases hs : slot < info.bone_transforms.length
    · simp only [hs, if_true, Option.some.injEq] at h
      subst h
      have hlt : mesh < meshes.length := by
        rcases List.getElem?_eq_some_iff.1 hm with ⟨hl, -⟩
        exact hl
      unfold readBone
      rw [List.getElem?_set]
      by_cases e : mesh = mesh'
      · subst e
        simp only [hlt, if_true, hm, true_and]
        rw [List.getElem?_set]
        by_cases e2 : slot = slot'
        · subst e2
          simp [hs]
        · have e3 : ¬ slot' = slot := fun h => e2 h.symm
          simp [e2, e3]
      · have e3 : ¬ mesh' = mesh := fun h => e h.symm
        simp [e, e3]
    · simp [hs] at h

theorem applyWrites_append (ws₁ ws₂ : List (Nat × Nat × M)) (meshes : List (ModelInfo M)) :
    applyWrites (ws₁ ++ ws₂) meshes =
      match applyWrites ws₁ meshes with
      | none => none
      | some r => applyWrites ws₂ r := by
  induction ws₁ generalizing meshes with
  | nil => simp [applyWrites]
  | cons w ws ih =>
    obtain ⟨mesh, slot, value⟩ := w
    simp only [List.cons_append, applyWrites]
    cases writeBone meshes mesh slot value with
    | none => rfl
    | some r => exact ih r

/-- A slot that no assignment of the sequence targets keeps its value. -/
theorem readBone_applyWrites_of_untouched {ws : List (Nat × Nat × M)}
    {meshes r : List (ModelInfo M)} (h : applyWrites ws meshes = some r) (mesh slot : Nat)
    (hu : ∀ w ∈ ws, ¬ (w.1 = mesh ∧ w.2.1 = slot)) :
    readBone r mesh slot = readBone meshes mesh slot := by
  induction ws generalizing meshes with
  | nil =>
    simp only [applyWrites, Option.some.injEq] at h
    rw [h]
  | cons w ws ih =>
    obtain ⟨m, s, v⟩ := w
    simp only [applyWrites] at h
    cases hw : writeBone meshes m s v with
    | none => simp [hw] at h
    | some r₁ =>
      rw [hw] at h
      rw [ih h (fun w hw => hu w (List.mem_cons_of_mem _ hw)), readBone_writeBone hw]
      have hne : ¬ (mesh = m ∧ slot = s) := fun e =>
        hu (m, s, v) (List.mem_cons_self _ _) ⟨e.1.symm, e.2.symm⟩
      rw [if_neg hne]

/-- After a sequence of assignments, a slot holds the value of the last
assignment that targets it. -/
theorem readBone_applyWrites_last {ws : List (Nat × Nat × M)}
    {meshes r : List (ModelInfo M)} (h : applyWrites ws meshes = some r)
    (k : Nat) (w : Nat × Nat × M) (hk : ws[k]? = some w)
    (hlast : ∀ j c, k < j → ws[j]? = some c → ¬ (c.1 = w.1 ∧ c.2.1 = w.2.1)) :
    readBone r w.1 w.2.1 = some w.2.2 := by
  induction ws generalizing meshes k with
  | nil => simp at hk
  | cons x xs ih =>
    obtain ⟨m, s, v⟩ := x
    simp only [applyWrites] at h
    cases hw : writeBone meshes m s v with
    | none => simp [hw] at h
    | some r₁ =>
      rw [hw] at h
      cases k with
      | zero =>
        simp only [List.getElem?_cons_zero, Option.some.injEq] at hk
        subst hk
        have hu : ∀ c ∈ xs, ¬ (c.1 = m ∧ c.2.1 = s) := by
          intro c hc
          obtain ⟨j, hj, rfl⟩ := List.getElem_of_mem hc
          exact hlast (j + 1) _ (Nat.succ_pos j)
            (by simp [List.getElem?_eq_getElem hj])
        rw [readBone_applyWrites_of_untouched h m s hu, readBone_writeBone hw]
        simp
      | succ k =>
        simp only [List.getElem?_cons_succ] at hk
        exact ih h k hk (fun j c hj hc =>
          hlast (j + 1) c (Nat.succ_lt_succ hj) (by simpa using hc))

/-- Assignments never change which slots exist. -/
theorem readBone_isSome_applyWrites {ws : List (Nat × Nat × M)}
    {meshes r : List (ModelInfo M)} (h : applyWrites ws meshes = some r) (mesh slot : Nat) :
    (readBone r mesh slot).isSome = (readBone meshes mesh slot).isSome := by
  induction ws generalizing meshes with
  | nil =>
    simp only [applyWrites, Option.some.injEq] at h
    rw [h]
  | cons w ws ih =>
    obtain ⟨m, s, v⟩ := w
    simp only [applyWrites] at h
    cases hw : writeBone meshes m s v with
    | none => simp [hw] at h
    | some r₁ =>
      rw [hw] at h
      rw [ih h, readBone_writeBone hw]
      by_cases e : mesh = m ∧ slot = s
      · rw [if_pos e]
        obtain ⟨info, hi, hs⟩ := (writeBone_some_iff meshes m s v).1 ⟨r₁, hw⟩
        simp [readBone, e.1, e.2, hi, hs]
      · rw [if_neg e]

theorem readBone_isSome_iff (meshes : List (ModelInfo M)) (mesh slot : Nat) :
    (readBone meshes mesh slot).isSome = true ↔
      ∃ info, meshes[mesh]? = some info ∧ slot < info.bone_transforms.length := by
  unfold readBone
  cases hm : meshes[mesh]? with
  | none => simp
  | some info =>
    simp only [Option.some.injEq, exists_eq_left']
    rw [Option.isSome_iff_exists]
    constructor
    · rintro ⟨a, ha⟩
      exact (List.getElem?_eq_some_iff.1 ha).1
    · intro hlt
      exact ⟨_, List.getElem?_eq_getElem hlt⟩

/-- A sequence of assignments that are all in bounds succeeds. -/
theorem applyWrites_some (ws : List (Nat × Nat × M)) (meshes : List (ModelInfo M))
    (hb : ∀ w ∈ ws, ∃ info, meshes[w.1]? = some info ∧ w.2.1 < info.bone_transforms.length) :
    ∃ r, applyWrites ws meshes = some r := by
  induction ws generalizing meshes with
  | nil => exact ⟨meshes, rfl⟩
  | cons w ws ih =>
    obtain ⟨m, s, v⟩ := w
    obtain ⟨r₁, hw⟩ := (writeBone_some_iff meshes m s v).2 (hb (m, s, v) (List.mem_cons_self _ _))
    simp only [applyWrites, hw]
    apply ih
    intro c hc
    rw [← readBone_isSome_iff]
    have h1 : applyWrites [(m, s, v)] meshes = some r₁ := by simp [applyWrites, hw]
    rw [readBone_isSome_applyWrites h1, readBone_isSome_iff]
    exact hb c (List.mem_cons_of_mem _ hc)

theorem writeBones_eq_applyWrites [Mul M] (a : M) (bones : List (Nat × Nat × M))
    (meshes : List (ModelInfo M)) :
    writeBones a bones meshes =
      applyWrites (bones.map fun b => (b.1, b.2.1, a * b.2.2)) meshes := by
  induction bones generalizing meshes with
  | nil => rfl
  | cons b bs ih =>
    obtain ⟨m, s, o⟩ := b
    simp only [writeBones, List.map_cons, applyWrites]
    cases writeBone meshes m s (a * o) with
    | none => rfl
    | some r => exact ih r

end WriteLemmas

/-! ## Lemmas on the accumulated transform -/

section AccLemmas

variable {T F V Q M : Type}

theorem productFrom_append [Mul M] (start : M) (xs ys : List M) :
    productFrom start (xs ++ ys) = productFrom (productFrom start xs) ys := by
  simp [productFrom, List.foldl_append]

variable [LinearOrder T] [Sub T] [Div T] [Mul M] [One M]

theorem contributions_append (g : Glm T F V Q M) (animation_id : Nat) (time_ticks : T)
    (above xs ys : List (MeshHierarchyNode T V Q M)) :
    contributions g animation_id time_ticks above (xs ++ ys) =
      contributions g animation_id time_ticks above xs ++
        contributions g animation_id time_ticks (above ++ xs) ys := by
  induction xs generalizing above with
  | nil => simp [contributions]
  | cons x xs ih =>
    rw [List.cons_append]
    simp only [contributions]
    rw [ih (above ++ [x])]
    simp

/-- Descending one node multiplies the accumulated transform by the
contribution of that node, on the right. -/
theorem acc_eq_mul (g : Glm T F V Q M) (animation_id : Nat) (time_ticks : T)
    (ancestors : List (MeshHierarchyNode T V Q M)) (n : MeshHierarchyNode T V Q M) :
    acc g animation_id time_ticks ancestors n =
      product (contributions g animation_id time_ticks [] ancestors) *
        contribution g animation_id time_ticks ancestors n := by
  simp [acc, product, contributions_append, productFrom_append, contributions, productFrom]

theorem writesOf_under (g : Glm T F V Q M) (animation_id : Nat) (time_ticks : T)
    (above : List (MeshHierarchyNode T V Q M)) (parent : MeshHierarchyNode T V Q M) (i : Nat)
    (p : Position T V Q M) :
    writesOf g animation_id time_ticks above (p.under parent i) =
      writesOf g animation_id time_ticks (above ++ [parent]) p := by
  simp [writesOf, Position.under]

mutual
/-- The lambda `animate`, entered with the accumulated transform and the
skeleton flag of the nodes above, performs in pre-order the assignments the
specification prescribes. -/
theorem animate_eq_applyWrites (g : Glm T F V Q M) (animation_id : Nat) (time_ticks : T) :
    ∀ (n : MeshHierarchyNode T V Q M) (above : List (MeshHierarchyNode T V Q M))
      (meshes : List (ModelInfo M)),
      animate g animation_id time_ticks n
          (product (contributions g animation_id time_ticks [] above))
          (above.any hasBones) meshes =
        applyWrites ((preorder n).flatMap (writesOf g animation_id time_ticks above)) meshes
  | .mk ms t bones ad children, above, meshes => by
    have hsk : (above.any hasBones || !bones.isEmpty) =
        inSkeleton above (.mk ms t bones ad children) := by
      simp [inSkeleton, hasBones, MeshHierarchyNode.bones, Bool.or_comm]
    have hsk2 : (above.any hasBones || !bones.isEmpty) =
        (above ++ [MeshHierarchyNode.mk ms t bones ad children]).any hasBones := by
      simp [hasBones, MeshHierarchyNode.bones]
    have hacc : product (contributions g animation_id time_ticks [] above) *
        (match ad.lookup (uintToInt animation_id) with
          | some animation => animation.sample g time_ticks
          | none => if (above.any hasBones || !bones.isEmpty) = true then t else 1) =
        product (contributions g animation_id time_ticks []
          (above ++ [MeshHierarchyNode.mk ms t bones ad children])) := by
      have := acc_eq_mul g animation_id time_ticks above (.mk ms t bones ad children)
      rw [acc] at this
      rw [this, hsk]
      rfl
    simp only [animate, preorder, List.flatMap_cons, applyWrites_append]
    rw [hacc, writeBones_eq_applyWrites]
    have hw : writesOf g animation_id time_ticks above
        ⟨[], [], MeshHierarchyNode.mk ms t bones ad children⟩ =
        bones.map fun b => (b.1, b.2.1,
          product (contributions g animation_id time_ticks []
            (above ++ [MeshHierarchyNode.mk ms t bones ad children])) * b.2.2) := by
      simp [writesOf, acc, MeshHierarchyNode.bones]
    rw [hw]
    cases applyWrites (bones.map fun b => (b.1, b.2.1,
          product (contributions g animation_id time_ticks []
            (above ++ [MeshHierarchyNode.mk ms t bones ad children])) * b.2.2)) meshes with
    | none => rfl
    | some r =>
      simp only
      rw [hsk2]
      exact animateChildren_eq_applyWrites g animation_id time_ticks children
        (.mk ms t bones ad children) 0 above r
/-- The child loop of `animate` performs the prescribed assignments of the
subtrees in order. -/
theorem animateChildren_eq_applyWrites (g : Glm T F V Q M) (animation_id : Nat)
    (time_ticks : T) :
    ∀ (cs : List (MeshHierarchyNode T V Q M)) (parent : MeshHierarchyNode T V Q M) (i : Nat)
      (above : List (MeshHierarchyNode T V Q M)) (meshes : List (ModelInfo M)),
      animateChildren g animation_id time_ticks cs
          (product (contributions g animation_id time_ticks [] (above ++ [parent])))
          ((above ++ [parent]).any hasBones) meshes =
        applyWrites ((preorderChildren parent i cs).flatMap
          (writesOf g animation_id time_ticks above)) meshes
  | [], parent, i, above, meshes => by
    simp [animateChildren, preorderChildren, applyWrites]
  | c :: rest, parent, i, above, meshes => by
    simp only [animateChildren, preorderChildren, List.flatMap_append, applyWrites_append,
      List.flatMap_map, writesOf_under]
    rw [animate_eq_applyWrites g animation_id time_ticks c (above ++ [parent]) meshes]
    cases applyWrites ((preorder c).flatMap
        (writesOf g animation_id time_ticks (above ++ [parent]))) meshes with
    | none => rfl
    | some r =>
      exact animateChildren_eq_applyWrites g animation_id time_ticks rest parent (i + 1) above r
end

end AccLemmas

/-! ## Lemmas on pre-order positions -/

section PreorderLemmas

variable {T V Q M : Type}

theorem preorder_eq (n : MeshHierarchyNode T V Q M) :
    preorder n = ⟨[], [], n⟩ :: preorderChildren n 0 n.children := by
  cases n
  simp [preorder, MeshHierarchyNode.children]

theorem pathBefore_irrefl : ∀ p : List Nat, pathBefore p p = false
  | [] => rfl
  | i :: p => by simp [pathBefore, pathBefore_irrefl p]

/-- Every position below `parent` starts with a child index. -/
theorem path_of_mem_preorderChildren (parent : MeshHierarchyNode T V Q M) :
    ∀ (cs : List (MeshHierarchyNode T V Q M)) (i : Nat) (p : Position T V Q M),
      p ∈ preorderChildren parent i cs → ∃ j q, p.path = j :: q ∧ i ≤ j
  | [], _, p, h => by simp [preorderChildren] at h
  | c :: rest, i, p, h => by
    simp only [preorderChildren, List.mem_append, List.mem_map] at h
    rcases h with ⟨q, -, rfl⟩ | h
    · exact ⟨i, q.path, rfl, le_refl i⟩
    · obtain ⟨j, q, hq, hj⟩ := path_of_mem_preorderChildren parent rest (i + 1) p h
      exact ⟨j, q, hq, by omega⟩

/-- A position of the subtree of child number `j` is a position below the
parent. -/
theorem mem_preorderChildren (parent : MeshHierarchyNode T V Q M) :
    ∀ (cs : List (MeshHierarchyNode T V Q M)) (i j : Nat) (c : MeshHierarchyNode T V Q M)
      (q : Position T V Q M), cs[j]? = some c → q ∈ preorder c →
      q.under parent (i + j) ∈ preorderChildren parent i cs
  | [], _, _, _, _, h, _ => by simp at h
  | x :: rest, i, 0, c, q, h, hq => by
    simp only [List.getElem?_cons_zero, Option.some.injEq] at h
    subst h
    simp only [preorderChildren, List.mem_append, List.mem_map]
    exact Or.inl ⟨q, hq, rfl⟩
  | x :: rest, i, j + 1, c, q, h, hq => by
    simp only [List.getElem?_cons_succ] at h
    simp only [preorderChildren, List.mem_append]
    right
    have := mem_preorderChildren parent rest (i + 1) j c q h hq
    have e : i + 1 + j = i + (j + 1) := by omega
    rw [e] at this
    exact this

/-- A position that `positionAt` reaches is listed by `preorder`. -/
theorem mem_preorder_of_positionAt :
    ∀ (path : List Nat) (n : MeshHierarchyNode T V Q M) (p : Position T V Q M),
      positionAt n path = some p → p ∈ preorder n
  | [], n, p, h => by
    simp only [positionAt, Option.some.injEq] at h
    rw [preorder_eq, ← h]
    exact List.mem_cons_self _ _
  | i :: path, n, p, h => by
    simp only [positionAt] at h
    cases hc : n.children[i]? with
    | none => simp [hc] at h
    | some c =>
      rw [hc] at h
      simp only [Option.map_eq_some'] at h
      obtain ⟨q, hq, rfl⟩ := h
      rw [preorder_eq]
      refine List.mem_cons_of_mem _ ?_
      have := mem_preorderChildren n n.children 0 i c q hc
        (mem_preorder_of_positionAt path c q hq)
      simpa using this

mutual
/-- A position listed by `preorder` is the one `positionAt` reaches along
its path. -/
theorem positionAt_of_mem_preorder :
    ∀ (n : MeshHierarchyNode T V Q M) (p : Position T V Q M),
      p ∈ preorder n → positionAt n p.path = some p
  | .mk ms t bones ad children, p, h => by
    simp only [preorder, List.mem_cons] at h
    rcases h with rfl | h
    · rfl
    · obtain ⟨j, c, q, hj, hq, rfl⟩ :=
        positionAt_of_mem_preorderChildren children (.mk ms t bones ad children) 0 p h
      simp only [Nat.zero_add] at *
      simp only [Position.under, positionAt, MeshHierarchyNode.children, hj, hq, Option.map_some']
/-- A position below `parent` lies in the subtree of one of the children. -/
theorem positionAt_of_mem_preorderChildren :
    ∀ (cs : List (MeshHierarchyNode T V Q M)) (parent : MeshHierarchyNode T V Q M) (i : Nat)
      (p : Position T V Q M), p ∈ preorderChildren parent i cs →
      ∃ j c q, cs[j]? = some c ∧ positionAt c q.path = some q ∧ p = q.under parent (i + j)
  | [], _, _, p, h => by simp [preorderChildren] at h
  | c :: rest, parent, i, p, h => by
    simp only [preorderChildren, List.mem_append, List.mem_map] at h
    rcases h with ⟨q, hq, rfl⟩ | h
    · exact ⟨0, c, q, by simp, positionAt_of_mem_preorder c q hq, rfl⟩
    · obtain ⟨j, d, q, hj, hq, rfl⟩ :=
        positionAt_of_mem_preorderChildren rest parent (i + 1) p h
      refine ⟨j + 1, d, q, by simpa using hj, hq, ?_⟩
      have e : i + 1 + j = i + (j + 1) := by omega
      rw [e]
end

mutual
/-- The list `preorder n` is strictly ascending in the pre-order of paths. -/
theorem preorder_pairwise :
    ∀ n : MeshHierarchyNode T V Q M,
      (preorder n).Pairwise fun p q => pathBefore p.path q.path = true
  | .mk ms t bones ad children => by
    simp only [preorder, List.pairwise_cons]
    refine ⟨?_, preorderChildren_pairwise children (.mk ms t bones ad children) 0⟩
    intro q hq
    obtain ⟨j, r, hr, -⟩ := path_of_mem_preorderChildren _ children 0 q hq
    rw [hr]
    rfl
/-- The positions below a parent are strictly ascending in the pre-order of
paths. -/
theorem preorderChildren_pairwise :
    ∀ (cs : List (MeshHierarchyNode T V Q M)) (parent : MeshHierarchyNode T V Q M) (i : Nat),
      (preorderChildren parent i cs).Pairwise fun p q => pathBefore p.path q.path = true
  | [], _, _ => by simp [preorderChildren]
  | c :: rest, parent, i => by
    simp only [preorderChildren, List.pairwise_append, List.pairwise_map]
    refine ⟨?_, preorderChildren_pairwise rest parent (i + 1), ?_⟩
    · have := preorder_pairwise c
      refine this.imp ?_
      intro a b hab
      simp [Position.under, pathBefore, hab]
    · intro a ha b hb
      simp only [List.mem_map] at ha
      obtain ⟨q, -, rfl⟩ := ha
      obtain ⟨j, r, hr, hj⟩ := path_of_mem_preorderChildren parent rest (i + 1) b hb
      rw [hr]
      have : i < j := by omega
      simp [Position.under, pathBefore, this]
end

/-- No two positions of `preorder n` have the same path. -/
theorem preorder_paths_nodup (n : MeshHierarchyNode T V Q M) :
    ((preorder n).map Position.path).Nodup := by
  unfold List.Nodup
  rw [List.pairwise_map]
  refine (preorder_pairwise n).imp ?_
  intro a b hab e
  rw [e, pathBefore_irrefl] at hab
  exact Bool.noConfusion hab

/-- The position of a bone binding of the tree is a position of the tree. -/
theorem positionAt_of_mem_allBones {root : MeshHierarchyNode T V Q M}
    {b : BoundBone T V Q M} (hb : b ∈ allBones root) :
    positionAt root b.position.path = some b.position := by
  simp only [allBones, List.mem_flatMap, bonesAt, List.mem_map] at hb
  obtain ⟨p, hp, x, -, rfl⟩ := hb
  exact positionAt_of_mem_preorder root p hp

end PreorderLemmas

/-! ## Lemmas on `visit` -/

section VisitLemmas

variable {T V Q M σ : Type} [Mul M] [One M]

theorem bindProduct_under (above : List (MeshHierarchyNode T V Q M))
    (parent : MeshHierarchyNode T V Q M) (i : Nat) (p : Position T V Q M) :
    bindProduct (above ++ (p.under parent i).ancestors) (p.under parent i).node =
      bindProduct ((above ++ [parent]) ++ p.ancestors) p.node := by
  simp [bindProduct, Position.under]

mutual
/-- The lambda `visit`, entered with the product of the bind transformations
of the nodes above, calls `fn` on the positions of the subtree in pre-order,
each with its product of bind transformations. -/
theorem visit_eq_foldl (fn : MeshHierarchyNode T V Q M → M → σ → σ) :
    ∀ (n : MeshHierarchyNode T V Q M) (above : List (MeshHierarchyNode T V Q M)) (s : σ),
      visit fn n (product (above.map MeshHierarchyNode.transformation)) s =
        (preorder n).foldl
          (fun s p => fn p.node (bindProduct (above ++ p.ancestors) p.node) s) s
  | .mk ms t bones ad children, above, s => by
    have hacc : product (above.map MeshHierarchyNode.transformation) * t =
        product ((above ++ [MeshHierarchyNode.mk ms t bones ad children]).map
          MeshHierarchyNode.transformation) := by
      simp [product, productFrom, MeshHierarchyNode.transformation]
    simp only [visit, preorder, List.foldl_cons, hacc, bindProduct, List.append_nil]
    exact visitChildren_eq_foldl fn children (.mk ms t bones ad children) 0 above _
/-- The child loop of `visit` calls `fn` on the positions of the subtrees in
order. -/
theorem visitChildren_eq_foldl (fn : MeshHierarchyNode T V Q M → M → σ → σ) :
    ∀ (cs : List (MeshHierarchyNode T V Q M)) (parent : MeshHierarchyNode T V Q M) (i : Nat)
      (above : List (MeshHierarchyNode T V Q M)) (s : σ),
      visitChildren fn cs
          (product ((above ++ [parent]).map MeshHierarchyNode.transformation)) s =
        (preorderChildren parent i cs).foldl
          (fun s p => fn p.node (bindProduct (above ++ p.ancestors) p.node) s) s
  | [], parent, i, above, s => by
    simp [visitChildren, preorderChildren]
  | c :: rest, parent, i, above, s => by
    simp only [visitChildren, preorderChildren, List.foldl_append, List.foldl_map,
      bindProduct_under]
    rw [visit_eq_foldl fn c (above ++ [parent]) s]
    exact visitChildren_eq_foldl fn rest parent (i + 1) above _
end

end VisitLemmas

/-! ## Lemmas on `calculate_animation` -/

section CalcLemmas

variable {T F V Q M : Type} [LinearOrder T] [Sub T] [Div T] [Mul M] [One M]

/-- The prescribed assignments of the whole tree are one assignment per bone
binding, in pre-order. -/
theorem writes_eq_map_allBones (g : Glm T F V Q M) (animation_id : Nat) (time_ticks : T)
    (root : MeshHierarchyNode T V Q M) :
    (preorder root).flatMap (writesOf g animation_id time_ticks []) =
      (allBones root).map fun b =>
        (b.mesh, b.slot,
          acc g animation_id time_ticks b.position.ancestors b.position.node * b.offset) := by
  simp only [allBones, List.map_flatMap, bonesAt, List.map_map]
  rfl

/-- For an animation of the catalog, `calculate_animation` returns and leaves
in the slot of a last binding the accumulated transform times the offset. -/
theorem calculate_animation_last_binding [Mul T] (g : Glm T F V Q M)
    (h : MeshHierarchy T V Q M) (animation_id : Nat) (time_seconds : T)
    (hid : animation_id < h.animations.length) (hne : animation_id ≠ NONE_ANIMATION)
    (hb : BonesInBounds h.meshes h.root_node)
    (k : Nat) (b : BoundBone T V Q M) (hlast : LastFor (allBones h.root_node) k b) :
    ∃ meshes, h.calculate_animation g animation_id time_seconds = .ok meshes ∧
      readBone meshes b.mesh b.slot =
        some (acc g animation_id (time_seconds * (h.animations[animation_id]).2.1)
          b.position.ancestors b.position.node * b.offset) := by
  have hrun := animate_eq_applyWrites g animation_id
    (time_seconds * (h.animations[animation_id]).2.1) h.root_node [] h.meshes
  simp only [contributions, product, productFrom, List.foldl_nil, List.any_nil] at hrun
  rw [writes_eq_map_allBones] at hrun
  obtain ⟨r, hr⟩ := applyWrites_some
    ((allBones h.root_node).map fun b =>
      (b.mesh, b.slot,
        acc g animation_id (time_seconds * (h.animations[animation_id]).2.1)
          b.position.ancestors b.position.node * b.offset)) h.meshes (by
      intro w hw
      obtain ⟨c, hc, rfl⟩ := List.mem_map.1 hw
      exact (readBone_isSome_iff _ _ _).1 (hb c hc))
  refine ⟨r, ?_, ?_⟩
  · unfold MeshHierarchy.calculate_animation
    rw [if_neg hne, dif_neg (not_le.2 hid)]
    simp only
    rw [hrun, hr]
  · have hk : ((allBones h.root_node).map fun b =>
        (b.mesh, b.slot,
          acc g animation_id (time_seconds * (h.animations[animation_id]).2.1)
            b.position.ancestors b.position.node * b.offset))[k]? =
        some (b.mesh, b.slot,
          acc g animation_id (time_seconds * (h.animations[animation_id]).2.1)
            b.position.ancestors b.position.node * b.offset) := by
      rw [List.getElem?_map, hlast.1]
      rfl
    refine readBone_applyWrites_last hr k _ hk ?_
    intro j c hj hc
    rw [List.getElem?_map] at hc
    cases hcj : (allBones h.root_node)[j]? with
    | none => simp [hcj] at hc
    | some d =>
      rw [hcj] at hc
      simp only [Option.map_some', Option.some.injEq] at hc
      subst hc
      have hmem : d ∈ (allBones h.root_node).drop (k + 1) := by
        apply List.getElem?_mem (n := j - (k + 1))
        rw [List.getElem?_drop]
        have e : k + 1 + (j - (k + 1)) = j := by omega
        rw [e, hcj]
      exact hlast.2 d hmem

end CalcLemmas

/-! ## Pose computation -/

section CalcTheorems

variable {T F V Q M : Type} [LinearOrder T] [Sub T] [Div T] [Mul T] [Mul M] [One M]

/-- C1: for an animation id below the catalog size (and distinct from the
sentinel `NONE_ANIMATION`), with `time_ticks = time_seconds *
ticks_per_second`, `calculate_animation` returns, and for a bone binding
`(mesh, slot, offset)` on a node `n` that is the last binding in pre-order
targeting `(mesh, slot)`, `meshes[mesh].bone_transforms[slot]` is
`acc(n) * offset`, where `acc(n)` is the product, root first, of the
contributions on the path from the root to `n`: the sampled curve if the
node has one for the animation, else its bind transformation if it or an
ancestor owns a bone binding, else the identity. -/
theorem calculate_animation_writes_acc_times_offset (g : Glm T F V Q M)
    (h : MeshHierarchy T V Q M) (animation_id : Nat) (time_seconds : T)
    (hid : animation_id < h.animations.length) (hne : animation_id ≠ NONE_ANIMATION)
    (hb : BonesInBounds h.meshes h.root_node)
    (k : Nat) (b : BoundBone T V Q M) (hlast : LastFor (allBones h.root_node) k b) :
    positionAt h.root_node b.position.path = some b.position ∧
      ∃ meshes, h.calculate_animation g animation_id time_seconds = .ok meshes ∧
        readBone meshes b.mesh b.slot =
          some (acc g animation_id (time_seconds * (h.animations[animation_id]).2.1)
            b.position.ancestors b.position.node * b.offset) :=
  ⟨positionAt_of_mem_allBones (List.getElem?_mem hlast.1),
    calculate_animation_last_binding g h animation_id time_seconds hid hne hb k b hlast⟩

/-- C2: whatever the prior contents of the bone-transform arrays and
whatever the time, `calculate_animation(NONE_ANIMATION, time)` returns and
leaves every entry of every array equal to the identity, every array keeping
its length. -/
theorem calculate_animation_none_resets_to_identity (g : Glm T F V Q M)
    (h : MeshHierarchy T V Q M) (time_seconds : T) :
    ∃ meshes, h.calculate_animation g NONE_ANIMATION time_seconds = .ok meshes ∧
      meshes.map (fun info => info.bone_transforms.length) =
        h.meshes.map (fun info => info.bone_transforms.length) ∧
      ∀ info ∈ meshes, ∀ x ∈ info.bone_transforms, x = 1 := by
  refine ⟨h.meshes.map fun mesh => ⟨mesh.bone_transforms.map fun _ => 1⟩, ?_, ?_, ?_⟩
  · unfold MeshHierarchy.calculate_animation
    rw [if_pos rfl]
  · simp [Function.comp_def]
  · intro info hinfo x hx
    obtain ⟨old, -, rfl⟩ := List.mem_map.1 hinfo
    obtain ⟨y, -, rfl⟩ := List.mem_map.1 hx
    rfl

/-- C3, as amended: for an animation id other than `NONE_ANIMATION` that is
greater than or equal to the number of entries of the catalog,
`calculate_animation` fails with the invalid-animation-id error. -/
theorem calculate_animation_invalid_id (g : Glm T F V Q M) (h : MeshHierarchy T V Q M)
    (animation_id : Nat) (time_seconds : T) (hne : animation_id ≠ NONE_ANIMATION)
    (hge : h.animations.length ≤ animation_id) :
    h.calculate_animation g animation_id time_seconds =
      .invalid_animation_id animation_id := by
  unfold MeshHierarchy.calculate_animation
  rw [if_neg hne, dif_pos hge]

/-- C4: when a node `B` without a curve for the animation (with or without
bone bindings of its own) lies below a bone-bound node (one of `above`) and
above a bone-bound node `C` (the owner of the binding `b`), the factor `B`
contributes is its bind transformation, and the bone transform written for
`C` is the product of the contributions above `B`, times the bind
transformation of `B`, times the contributions from below `B` down to `C`,
times the offset. -/
theorem calculate_animation_propagates_skeleton_flag (g : Glm T F V Q M)
    (h : MeshHierarchy T V Q M) (animation_id : Nat) (time_seconds : T)
    (hid : animation_id < h.animations.length) (hne : animation_id ≠ NONE_ANIMATION)
    (hb : BonesInBounds h.meshes h.root_node)
    (k : Nat) (b : BoundBone T V Q M) (hlast : LastFor (allBones h.root_node) k b)
    (above below : List (MeshHierarchyNode T V Q M)) (B : MeshHierarchyNode T V Q M)
    (hpath : b.position.ancestors = above ++ B :: below)
    (hskel : above.any hasBones = true)
    (hcurve : curveFor B animation_id = none) :
    contribution g animation_id (time_seconds * (h.animations[animation_id]).2.1) above B =
        B.transformation ∧
      ∃ meshes, h.calculate_animation g animation_id time_seconds = .ok meshes ∧
        readBone meshes b.mesh b.slot =
          some (productFrom
            (product (contributions g animation_id
              (time_seconds * (h.animations[animation_id]).2.1) [] above) * B.transformation)
            (contributions g animation_id (time_seconds * (h.animations[animation_id]).2.1)
              (above ++ [B]) (below ++ [b.position.node])) * b.offset) := by
  have hc : contribution g animation_id (time_seconds * (h.animations[animation_id]).2.1)
      above B = B.transformation := by
    simp [contribution, hcurve, inSkeleton, hskel]
  refine ⟨hc, ?_⟩
  obtain ⟨meshes, hok, hread⟩ :=
    calculate_animation_last_binding g h animation_id time_seconds hid hne hb k b hlast
  refine ⟨meshes, hok, ?_⟩
  rw [hread, acc, hpath]
  have e : above ++ B :: below ++ [b.position.node] =
      above ++ ([B] ++ (below ++ [b.position.node])) := by simp
  rw [e, contributions_append, contributions_append]
  simp only [product, productFrom_append, contributions, List.nil_append, hc]
  simp [productFrom]

/-- A worked instance of C1: in the demo hierarchy the binding of `demoC` is
the last one for slot 1 of mesh 0 and receives the contributions of `demoA`
(bind), `demoB` (bind) and `demoC` (sampled), times the offset. -/
theorem calculate_animation_writes_acc_times_offset_witness :
    (0 < demoHierarchy.animations.length ∧ (0 : Nat) ≠ NONE_ANIMATION ∧
        BonesInBounds demoHierarchy.meshes demoHierarchy.root_node ∧
        LastFor (allBones demoHierarchy.root_node) 1 demoBone) ∧
      (positionAt demoHierarchy.root_node demoBone.position.path = some demoBone.position ∧
        ∃ meshes, demoHierarchy.calculate_animation demoGlm 0 3 = .ok meshes ∧
          readBone meshes 0 1 = some ⟨[2, 3, 4, 105, 206, 14]⟩) := by
  have hlast : LastFor (allBones demoHierarchy.root_node) 1 demoBone := by
    refine ⟨rfl, ?_⟩
    intro c hc
    have hdrop : (allBones demoHierarchy.root_node).drop 2 =
        [⟨⟨[1], [demoRoot], demoD⟩, 0, 0, ⟨[15]⟩⟩] := rfl
    rw [hdrop, List.mem_singleton] at hc
    subst hc
    decide
  exact ⟨⟨by decide, by decide, by decide, hlast⟩,
    calculate_animation_writes_acc_times_offset demoGlm demoHierarchy 0 3 (by decide)
      (by decide) (by decide) 1 demoBone hlast⟩

/-- A worked instance of the amended C3: id 7 with a catalog of one entry. -/
theorem calculate_animation_invalid_id_witness :
    ((7 : Nat) ≠ NONE_ANIMATION ∧ demoHierarchy.animations.length ≤ 7) ∧
      demoHierarchy.calculate_animation demoGlm 7 3 = .invalid_animation_id 7 :=
  ⟨⟨by decide, by decide⟩,
    calculate_animation_invalid_id demoGlm demoHierarchy 7 3 (by decide) (by decide)⟩

/-- C3 fails as stated: `NONE_ANIMATION` is greater than or equal to the size
of the catalog of the demo hierarchy (one entry), yet the call returns
normally, with every bone transform reset, instead of failing. -/
theorem calculate_animation_invalid_id_counterexample :
    NONE_ANIMATION ≤ UINT_MAX ∧ demoHierarchy.animations.length ≤ NONE_ANIMATION ∧
      demoHierarchy.calculate_animation demoGlm NONE_ANIMATION 3 =
        .ok [⟨[⟨[]⟩, ⟨[]⟩]⟩] ∧
      demoHierarchy.calculate_animation demoGlm NONE_ANIMATION 3 ≠
        .invalid_animation_id NONE_ANIMATION := by
  refine ⟨by decide, by decide, by decide, by decide⟩

/-- A worked instance of C4: `demoB` has no bone bindings and no curve, lies
below the bone-bound `demoA` and above the bone-bound `demoC`; its letter 3
appears in the transform written for `demoC`. -/
theorem calculate_animation_propagates_skeleton_flag_witness :
    (0 < demoHierarchy.animations.length ∧ (0 : Nat) ≠ NONE_ANIMATION ∧
        BonesInBounds demoHierarchy.meshes demoHierarchy.root_node ∧
        LastFor (allBones demoHierarchy.root_node) 1 demoBone ∧
        demoBone.position.ancestors = [demoRoot, demoA] ++ demoB :: [] ∧
        [demoRoot, demoA].any hasBones = true ∧ hasBones demoB = false ∧
        curveFor demoB 0 = none) ∧
      (contribution demoGlm 0 6 [demoRoot, demoA] demoB = ⟨[3]⟩ ∧
        ∃ meshes, demoHierarchy.calculate_animation demoGlm 0 3 = .ok meshes ∧
          readBone meshes 0 1 = some ⟨[2, 3, 4, 105, 206, 14]⟩) := by
  have hlast : LastFor (allBones demoHierarchy.root_node) 1 demoBone := by
    refine ⟨rfl, ?_⟩
    intro c hc
    have hdrop : (allBones demoHierarchy.root_node).drop 2 =
        [⟨⟨[1], [demoRoot], demoD⟩, 0, 0, ⟨[15]⟩⟩] := rfl
    rw [hdrop, List.mem_singleton] at hc
    subst hc
    decide
  exact ⟨⟨by decide, by decide, by decide, hlast, rfl, rfl, rfl, rfl⟩,
    calculate_animation_propagates_skeleton_flag demoGlm demoHierarchy 0 3 (by decide)
      (by decide) (by decide) 1 demoBone hlast [demoRoot, demoA] [] demoB rfl rfl rfl⟩

end CalcTheorems

/-! ## World-transform flattening -/

section VisitTheorems

variable {T V Q M σ : Type} [Mul M] [One M]

/-- C5: `visit_nodes` invokes the callback on the positions of the tree in
depth-first pre-order, each exactly once, and passes for a node the product,
root first, of the bind transformations on the path from the root to it.
The positions of `preorder` are exactly the positions of the tree, no two
share a path, and they ascend in the pre-order of paths; the root comes
first and is passed `1 * transformation`, which is its own bind
transformation when the identity matrix is a left unit. -/
theorem visit_nodes_preorder_bind_products (h : MeshHierarchy T V Q M)
    (fn : MeshHierarchyNode T V Q M → M → σ → σ) (s : σ) :
    h.visit_nodes fn s =
        (preorder h.root_node).foldl
          (fun s p => fn p.node (bindProduct p.ancestors p.node) s) s ∧
      (∀ p, p ∈ preorder h.root_node ↔ positionAt h.root_node p.path = some p) ∧
      ((preorder h.root_node).map Position.path).Nodup ∧
      (preorder h.root_node).Pairwise (fun p q => pathBefore p.path q.path = true) ∧
      (preorder h.root_node).head? = some ⟨[], [], h.root_node⟩ ∧
      bindProduct [] h.root_node = 1 * h.root_node.transformation ∧
      ((∀ x : M, 1 * x = x) → bindProduct [] h.root_node = h.root_node.transformation) := by
  refine ⟨?_, ?_, preorder_paths_nodup _, preorder_pairwise _, ?_, rfl, ?_⟩
  · have := visit_eq_foldl fn h.root_node [] s
    simpa [MeshHierarchy.visit_nodes, product, productFrom] using this
  · intro p
    exact ⟨positionAt_of_mem_preorder _ p, mem_preorder_of_positionAt _ _ p⟩
  · rw [preorder_eq]
    rfl
  · intro hone
    exact hone _

/-- A worked instance of C5: on the demo hierarchy a recording callback
receives the five bind products in pre-order, and the root receives its own
bind transformation, words having the empty word as left unit. -/
theorem visit_nodes_preorder_bind_products_witness :
    (∀ x : Word, 1 * x = x) ∧
      demoHierarchy.visit_nodes demoRecord [] =
        [⟨[1]⟩, ⟨[1, 2]⟩, ⟨[1, 2, 3]⟩, ⟨[1, 2, 3, 4]⟩, ⟨[1, 5]⟩] ∧
      bindProduct [] demoHierarchy.root_node = demoHierarchy.root_node.transformation :=
  ⟨fun _ => rfl,
    (visit_nodes_preorder_bind_products demoHierarchy demoRecord []).1.trans rfl,
    (visit_nodes_preorder_bind_products demoHierarchy demoRecord []).2.2.2.2.2.2
      (fun _ => rfl)⟩

end VisitTheorems

/-! ## Lemmas on the association-list model of `std::unordered_map` -/

section MapLemmas

variable {K X : Type} [DecidableEq K]

theorem mapFind_eq_none_iff (k : K) (m : List (K × X)) :
    mapFind k m = none ↔ ∀ kv ∈ m, kv.1 ≠ k := by
  induction m with
  | nil => simp [mapFind]
  | cons kv rest ih =>
    obtain ⟨k', x⟩ := kv
    by_cases h : k' = k
    · simp [mapFind, h]
    · simp [mapFind, h, ih]

theorem mapFind_mapErase_self (k : K) (m : List (K × X)) : mapFind k (mapErase k m) = none := by
  induction m with
  | nil => rfl
  | cons kv rest ih =>
    obtain ⟨k₀, x⟩ := kv
    by_cases h₀ : k₀ = k
    · simp [mapErase, h₀, ih]
    · simp [mapErase, mapFind, h₀, ih]

theorem mapFind_mapErase_ne {k k' : K} (h : k' ≠ k) (m : List (K × X)) :
    mapFind k' (mapErase k m) = mapFind k' m := by
  induction m with
  | nil => rfl
  | cons kv rest ih =>
    obtain ⟨k₀, x⟩ := kv
    by_cases h₀ : k₀ = k
    · have h₁ : ¬ k = k' := fun e => h e.symm
      subst h₀
      simp [mapErase, mapFind, h₁, ih]
    · by_cases h₁ : k₀ = k'
      · subst h₁
        simp [mapErase, mapFind, h₀]
      · simp [mapErase, mapFind, h₀, h₁, ih]

theorem mapFind_mapAssign_self (k : K) (x : X) (m : List (K × X)) :
    mapFind k (mapAssign k x m) = some x := by
  induction m with
  | nil => simp [mapAssign, mapFind]
  | cons kv rest ih =>
    obtain ⟨k₀, x₀⟩ := kv
    by_cases h₀ : k₀ = k
    · simp [mapAssign, mapFind, h₀]
    · simp [mapAssign, mapFind, h₀, ih]

theorem mapFind_mapAssign_ne {k k' : K} (h : k' ≠ k) (x : X) (m : List (K × X)) :
    mapFind k' (mapAssign k x m) = mapFind k' m := by
  induction m with
  | nil =>
    have : ¬ k = k' := fun e => h e.symm
    simp [mapAssign, mapFind, this]
  | cons kv rest ih =>
    obtain ⟨k₀, x₀⟩ := kv
    by_cases h₀ : k₀ = k
    · have h₁ : ¬ k₀ = k' := fun e => h (e.symm.trans h₀)
      have h₂ : ¬ k = k' := fun e => h e.symm
      simp [mapAssign, mapFind, h₀, h₂]
    · by_cases h₁ : k₀ = k'
      · subst h₁
        simp [mapAssign, mapFind, h₀]
      · simp [mapAssign, mapFind, h₀, h₁, ih]

/-- Assigning to an absent key adds one entry at the end. -/
theorem mapAssign_of_absent (k : K) (x : X) (m : List (K × X)) (h : mapFind k m = none) :
    mapAssign k x m = m ++ [(k, x)] := by
  induction m with
  | nil => rfl
  | cons kv rest ih =>
    obtain ⟨k₀, x₀⟩ := kv
    by_cases h₀ : k₀ = k
    · simp [mapFind, h₀] at h
    · simp only [mapFind, h₀, if_false] at h
      simp [mapAssign, h₀, ih h]

/-- In a map with distinct keys, the entry of a present key splits the list
into two parts that do not mention the key. -/
theorem map_split_of_find {k : K} {x : X} {m : List (K × X)} (hu : KeysUnique m)
    (h : mapFind k m = some x) :
    ∃ l₁ l₂, m = l₁ ++ (k, x) :: l₂ ∧ (∀ kv ∈ l₁, kv.1 ≠ k) ∧ (∀ kv ∈ l₂, kv.1 ≠ k) := by
  induction m with
  | nil => simp [mapFind] at h
  | cons kv rest ih =>
    obtain ⟨k₀, x₀⟩ := kv
    unfold KeysUnique at hu
    simp only [List.map_cons, List.nodup_cons, List.mem_map, not_exists, not_and] at hu
    by_cases h₀ : k₀ = k
    · subst h₀
      simp only [mapFind, if_true, Option.some.injEq] at h
      subst h
      exact ⟨[], rest, rfl, by simp, fun kv hkv e => hu.1 kv hkv e⟩
    · simp only [mapFind, h₀, if_false] at h
      obtain ⟨l₁, l₂, rfl, h₁, h₂⟩ := ih hu.2 h
      refine ⟨(k₀, x₀) :: l₁, l₂, rfl, ?_, h₂⟩
      intro kv hkv
      rcases List.mem_cons.1 hkv with rfl | hkv
      · exact h₀
      · exact h₁ kv hkv

/-- Looking up a key after the erasures of the second loop of `animate`. -/
theorem mapFind_foldl_mapErase (k : K) (rem : List K) (m : List (K × X)) :
    mapFind k (rem.foldl (fun m item => mapErase item m) m) =
      if k ∈ rem then none else mapFind k m := by
  induction rem generalizing m with
  | nil => simp
  | cons r rest ih =>
    simp only [List.foldl_cons, ih, List.mem_cons]
    by_cases hr : k = r
    · subst hr
      simp [mapFind_mapErase_self]
    · by_cases hk : k ∈ rest
      · simp [hk]
      · simp [hk, hr, mapFind_mapErase_ne hr]

end MapLemmas

/-! ## Lemmas on `Animator::start` -/

section StartLemmas

variable {T : Type} [Zero T]

/-- After `start`, the entity has exactly one item, the last of the map. -/
theorem start_animated_entities (a : Animator T) (e : Nat) (p : AnimationParameters T) :
    (a.start e p).animated_entities = mapErase e a.animated_entities ++ [(e, p)] := by
  simp only [Animator.start, Animator.stop]
  exact mapAssign_of_absent e p _ (mapFind_mapErase_self e _)

theorem start_entity (a : Animator T) (e : Nat) (p : AnimationParameters T) :
    (a.start e p).entities e = ⟨(a.entities e).animations, p.animation_id, 0⟩ := by
  simp [Animator.start, Animator.stop]

end StartLemmas

/-! ## Lemmas on `Animator::animate` -/

section AnimateLemmas

variable {T : Type} [LinearOrder T] [Zero T] [Add T] [Mul T] [Div T]

theorem animateItem_eq (fmod : T → T → T) (dt : T)
    (st : (Nat → AnimatedEntity T) × List Nat) (item : Nat × AnimationParameters T) :
    animateItem fmod dt st item =
      (Function.update st.1 item.1 (advance fmod dt item.2 (st.1 item.1)).1,
        if (advance fmod dt item.2 (st.1 item.1)).2 = true then st.2 ++ [item.1] else st.2) := by
  by_cases hp : item.2.paused = true
  · simp [animateItem, advance, hp]
  · by_cases ht : (st.1 item.1).animation_time_seconds + dt * item.2.speed >
        (st.1 item.1).get_animation_duration_seconds
    · by_cases hl : (item.2.loop &&
          decide ((st.1 item.1).get_animation_duration_seconds > 0)) = true
      · simp only [animateItem, advance, hp, ht, hl, if_true, if_false]
        simp
      · simp only [animateItem, advance, hp, ht, hl, if_true, if_false]
        simp
    · simp only [animateItem, advance, hp, ht, if_false]
      simp

/-- Items that point to other entities leave an entity and its membership in
`to_remove` alone. -/
theorem foldl_animateItem_other (fmod : T → T → T) (dt : T) (e : Nat)
    (l : List (Nat × AnimationParameters T)) (st : (Nat → AnimatedEntity T) × List Nat)
    (h : ∀ kv ∈ l, kv.1 ≠ e) :
    (l.foldl (animateItem fmod dt) st).1 e = st.1 e ∧
      (e ∈ (l.foldl (animateItem fmod dt) st).2 ↔ e ∈ st.2) := by
  induction l generalizing st with
  | nil => simp
  | cons kv rest ih =>
    have hkv : kv.1 ≠ e := h kv (List.mem_cons_self _ _)
    have ih := ih (animateItem fmod dt st kv) (fun x hx => h x (List.mem_cons_of_mem _ hx))
    rw [List.foldl_cons]
    refine ⟨ih.1.trans ?_, ih.2.trans ?_⟩
    · rw [animateItem_eq]
      exact Function.update_noteq (Ne.symm hkv) _ _
    · rw [animateItem_eq]
      by_cases hr : (advance fmod dt kv.2 (st.1 kv.1)).2 = true
      · simp [hr, Ne.symm hkv]
      · simp [hr]

theorem mapFind_append_entry {X : Type} (e : Nat) (x : X) (l₁ l₂ : List (Nat × X))
    (h₁ : ∀ kv ∈ l₁, kv.1 ≠ e) : mapFind e (l₁ ++ (e, x) :: l₂) = some x := by
  induction l₁ with
  | nil => simp [mapFind]
  | cons kv rest ih =>
    have hkv : ¬ kv.1 = e := h₁ kv (List.mem_cons_self _ _)
    simp only [List.cons_append, mapFind, hkv, if_false]
    exact ih (fun x hx => h₁ x (List.mem_cons_of_mem _ hx))

/-- The effect of `animate` on an entity that has exactly one item: the
entity is advanced once, and it stays in the map unless it was pushed to
`to_remove`. -/
theorem animate_entity (fmod : T → T → T) (dt : T) (a : Animator T) (e : Nat)
    (p : AnimationParameters T) (l₁ l₂ : List (Nat × AnimationParameters T))
    (hm : a.animated_entities = l₁ ++ (e, p) :: l₂)
    (h₁ : ∀ kv ∈ l₁, kv.1 ≠ e) (h₂ : ∀ kv ∈ l₂, kv.1 ≠ e) :
    (a.animate fmod dt).entities e = (advance fmod dt p (a.entities e)).1 ∧
      (a.animate fmod dt).is_animating e =
        if (advance fmod dt p (a.entities e)).2 = true then none else some p := by
  have hb := foldl_animateItem_other fmod dt e l₁ (a.entities, []) h₁
  have ha := foldl_animateItem_other fmod dt e l₂
    (animateItem fmod dt (l₁.foldl (animateItem fmod dt) (a.entities, [])) (e, p)) h₂
  have hfold : a.animated_entities.foldl (animateItem fmod dt) (a.entities, []) =
      l₂.foldl (animateItem fmod dt)
        (animateItem fmod dt (l₁.foldl (animateItem fmod dt) (a.entities, [])) (e, p)) := by
    rw [hm, List.foldl_append, List.foldl_cons]
  have hb1 : (l₁.foldl (animateItem fmod dt) (a.entities, [])).1 e = a.entities e := hb.1
  have hb2 : e ∉ (l₁.foldl (animateItem fmod dt) (a.entities, [])).2 := by
    intro hin
    have := hb.2.1 hin
    simp at this
  constructor
  · show (a.animated_entities.foldl (animateItem fmod dt) (a.entities, [])).1 e = _
    rw [hfold, ha.1, animateItem_eq]
    dsimp only
    rw [Function.update_same, hb1]
  · show mapFind e ((a.animated_entities.foldl (animateItem fmod dt) (a.entities, [])).2.foldl
      (fun m item => mapErase item m) a.animated_entities) = _
    rw [mapFind_foldl_mapErase, hfold]
    have hmem : e ∈ (l₂.foldl (animateItem fmod dt)
        (animateItem fmod dt (l₁.foldl (animateItem fmod dt) (a.entities, [])) (e, p))).2 ↔
        (advance fmod dt p (a.entities e)).2 = true := by
      rw [ha.2, animateItem_eq]
      dsimp only
      rw [hb1]
      by_cases hr : (advance fmod dt p (a.entities e)).2 = true
      · rw [if_pos hr]
        simp [hr]
      · rw [if_neg hr]
        exact ⟨fun hin => absurd hin hb2, fun h => absurd h hr⟩
    rw [hm, mapFind_append_entry e p l₁ l₂ h₁]
    by_cases hr : (advance fmod dt p (a.entities e)).2 = true
    · rw [if_pos (hmem.2 hr), if_pos hr]
    · rw [if_neg (fun h => hr (hmem.1 h)), if_neg hr]

/-- The effect of `animate` right after `start` on the started entity. -/
theorem animate_after_start (fmod : T → T → T) (dt : T) (a : Animator T) (e : Nat)
    (p : AnimationParameters T) :
    ((a.start e p).animate fmod dt).entities e =
        (advance fmod dt p ⟨(a.entities e).animations, p.animation_id, 0⟩).1 ∧
      ((a.start e p).animate fmod dt).is_animating e =
        if (advance fmod dt p ⟨(a.entities e).animations, p.animation_id, 0⟩).2 = true
        then none else some p := by
  have h := animate_entity fmod dt (a.start e p) e p (mapErase e a.animated_entities) []
    (start_animated_entities a e p)
    (fun kv hkv => (mapFind_eq_none_iff e _).1 (mapFind_mapErase_self e a.animated_entities) kv hkv)
    (by simp)
  rw [start_entity] at h
  exact h

end AnimateLemmas

/-! ## Default values of empty channels -/

section EmptyChannelTheorems

variable {T F V Q M : Type} [LinearOrder T] [Sub T] [Div T] [Mul M] [One M]

/-- C11: at every query time a channel without keys contributes its default
to `sample`, whatever the other two channels hold: `vec3{0}` for the
position, the identity quaternion for the rotation, `vec3{1}` for the scale.
With all three channels empty `sample` returns
`translate(vec3{0}) * toMat4(quat{1,0,0,0}) * scale(vec3{1})`, which is the
identity matrix, given that glm maps each of the three defaults to the
identity matrix and that the identity times itself is the identity. -/
theorem sample_empty_channels_default (g : Glm T F V Q M) (time : T) :
    (∀ (rotations : List (T × Q)) (scalings : List (T × V)),
        AnimationData.sample g ⟨[], rotations, scalings⟩ time =
          g.translate g.vec3_zero *
            g.toMat4 (sampleChannel g.toFloat g.slerp g.quat_identity rotations time) *
            g.scale (sampleChannel g.toFloat g.mix g.vec3_one scalings time)) ∧
      (∀ (positions : List (T × V)) (scalings : List (T × V)),
        AnimationData.sample g ⟨positions, [], scalings⟩ time =
          g.translate (sampleChannel g.toFloat g.mix g.vec3_zero positions time) *
            g.toMat4 g.quat_identity *
            g.scale (sampleChannel g.toFloat g.mix g.vec3_one scalings time)) ∧
      (∀ (positions : List (T × V)) (rotations : List (T × Q)),
        AnimationData.sample g ⟨positions, rotations, []⟩ time =
          g.translate (sampleChannel g.toFloat g.mix g.vec3_zero positions time) *
            g.toMat4 (sampleChannel g.toFloat g.slerp g.quat_identity rotations time) *
            g.scale g.vec3_one) ∧
      AnimationData.sample g ⟨[], [], []⟩ time =
        g.translate g.vec3_zero * g.toMat4 g.quat_identity * g.scale g.vec3_one ∧
      (g.translate g.vec3_zero = 1 → g.toMat4 g.quat_identity = 1 → g.scale g.vec3_one = 1 →
        (1 : M) * 1 = 1 → AnimationData.sample g ⟨[], [], []⟩ time = 1) := by
  refine ⟨fun _ _ => rfl, fun _ _ => rfl, fun _ _ => rfl, rfl, ?_⟩
  intro ht hr hs hone
  show g.translate g.vec3_zero * g.toMat4 g.quat_identity * g.scale g.vec3_one = 1
  rw [ht, hr, hs, hone, hone]

/-- A worked instance of C11: with `unitGlm` the three defaults are mapped to
the empty word, and `sample` on three empty channels is the empty word. -/
theorem sample_empty_channels_default_witness :
    (unitGlm.translate unitGlm.vec3_zero = 1 ∧ unitGlm.toMat4 unitGlm.quat_identity = 1 ∧
        unitGlm.scale unitGlm.vec3_one = 1 ∧ (1 : Word) * 1 = 1) ∧
      AnimationData.sample unitGlm ⟨[], [], []⟩ 7 = 1 :=
  ⟨⟨rfl, rfl, rfl, rfl⟩,
    (sample_empty_channels_default unitGlm 7).2.2.2.2 rfl rfl rfl rfl⟩

end EmptyChannelTheorems

/-! ## Playback scheduling -/

section AnimatorTheorems

/-- Right after `start` with parameters that neither pause nor loop, an
`animate(dt)` whose advanced clock `0 + dt * speed` exceeds the duration
clamps the clock to the duration and removes the entity.  No law of
arithmetic is used. -/
theorem animate_after_start_finishes {T : Type} [LinearOrder T] [Zero T] [Add T] [Mul T]
    [Div T] (fmod : T → T → T) (dt : T) (a : Animator T) (e : Nat)
    (p : AnimationParameters T) (hpaused : p.paused = false) (hloop : p.loop = false)
    (hpast : (⟨(a.entities e).animations, p.animation_id, 0⟩ :
        AnimatedEntity T).get_animation_duration_seconds < 0 + dt * p.speed) :
    ((a.start e p).animate fmod dt).is_animating e = none ∧
      (((a.start e p).animate fmod dt).entities e).animation_time_seconds =
        (⟨(a.entities e).animations, p.animation_id, 0⟩ :
          AnimatedEntity T).get_animation_duration_seconds := by
  obtain ⟨h1, h2⟩ := animate_after_start fmod dt a e p
  have hadv : advance fmod dt p ⟨(a.entities e).animations, p.animation_id, 0⟩ =
      (⟨(a.entities e).animations, p.animation_id,
        (⟨(a.entities e).animations, p.animation_id, 0⟩ :
          AnimatedEntity T).get_animation_duration_seconds⟩, true) := by
    simp only [advance, hpaused, hloop, Bool.false_and]
    rw [if_pos hpast]
    simp
  rw [hadv] at h1 h2
  exact ⟨by simpa using h2, by rw [h1]⟩

/-- An unpaused looping item whose advanced clock exceeds a positive
duration stays in the map, and its clock becomes
`fmod(clock + dt * speed, duration)`.  No law of arithmetic is used. -/
theorem animate_loop_wraps {T : Type} [LinearOrder T] [Zero T] [Add T] [Mul T] [Div T]
    (fmod : T → T → T) (dt : T) (a : Animator T) (e : Nat) (p : AnimationParameters T)
    (hu : KeysUnique a.animated_entities) (hp : a.is_animating e = some p)
    (hpaused : p.paused = false) (hloop : p.loop = true)
    (hd : 0 < (a.entities e).get_animation_duration_seconds)
    (hpast : (a.entities e).get_animation_duration_seconds <
      (a.entities e).animation_time_seconds + dt * p.speed) :
    (a.animate fmod dt).is_animating e = some p ∧
      ((a.animate fmod dt).entities e).animation_time_seconds =
        fmod ((a.entities e).animation_time_seconds + dt * p.speed)
          (a.entities e).get_animation_duration_seconds := by
  obtain ⟨l₁, l₂, hm, h₁, h₂⟩ := map_split_of_find hu hp
  obtain ⟨h1, h2⟩ := animate_entity fmod dt a e p l₁ l₂ hm h₁ h₂
  have hadv : advance fmod dt p (a.entities e) =
      ({ a.entities e with
          animation_time_seconds :=
            fmod ((a.entities e).animation_time_seconds + dt * p.speed)
              (a.entities e).get_animation_duration_seconds }, false) := by
    simp only [advance, hpaused, hloop, Bool.true_and]
    rw [if_pos hpast]
    simp [hd]
  rw [hadv] at h1 h2
  exact ⟨by simpa using h2, by rw [h1]⟩

theorem duration_of_entry {T : Type} [Zero T] [Div T] (animations : List (String × T × T))
    (id : Nat) (time : T) (entry : String × T × T) (h : animations[id]? = some entry) :
    (⟨animations, id, time⟩ : AnimatedEntity T).get_animation_duration_seconds =
      entry.2.2 / entry.2.1 := by
  obtain ⟨hlt, he⟩ := List.getElem?_eq_some_iff.1 h
  simp only [AnimatedEntity.get_animation_duration_seconds]
  rw [dif_neg (by simpa using hlt)]
  simp [he]

/-- C12, as amended: when the hierarchy of `E` has an animation 0 of duration
`d = duration_ticks / ticks_per_second`, then after
`start(E, {animation_id: 0, loop: false, paused: false, speed: 1})` and one
`animate(d + ε)` the entity `E` is absent from the active set and its clock
is exactly `d` whenever the advanced clock `0 + (d + ε) * 1`, as the code
computes it, compares greater than `d`; otherwise `E` stays in the active set
and its clock is the advanced clock.  No law of arithmetic is used, so this
holds with every operation rounded as in `double`. -/
theorem start_then_animate_past_duration {T : Type} [LinearOrder T] [Zero T] [One T] [Add T]
    [Mul T] [Div T] (fmod : T → T → T) (a : Animator T) (E : Nat) (entry : String × T × T)
    (ε : T) (h0 : (a.entities E).animations[0]? = some entry) :
    (entry.2.2 / entry.2.1 < 0 + (entry.2.2 / entry.2.1 + ε) * 1 →
        ((a.start E ⟨0, false, false, 1⟩).animate fmod
            (entry.2.2 / entry.2.1 + ε)).is_animating E = none ∧
          (((a.start E ⟨0, false, false, 1⟩).animate fmod
            (entry.2.2 / entry.2.1 + ε)).entities E).animation_time_seconds =
            entry.2.2 / entry.2.1) ∧
      (¬ entry.2.2 / entry.2.1 < 0 + (entry.2.2 / entry.2.1 + ε) * 1 →
        ((a.start E ⟨0, false, false, 1⟩).animate fmod
            (entry.2.2 / entry.2.1 + ε)).is_animating E = some ⟨0, false, false, 1⟩ ∧
          (((a.start E ⟨0, false, false, 1⟩).animate fmod
            (entry.2.2 / entry.2.1 + ε)).entities E).animation_time_seconds =
            0 + (entry.2.2 / entry.2.1 + ε) * 1) := by
  have hd := duration_of_entry (a.entities E).animations 0 (0 : T) entry h0
  constructor
  · intro hpast
    have h := animate_after_start_finishes fmod (entry.2.2 / entry.2.1 + ε) a E
      ⟨0, false, false, 1⟩ rfl rfl (by rw [hd]; exact hpast)
    rw [hd] at h
    exact h
  · intro hnot
    obtain ⟨h1, h2⟩ := animate_after_start fmod (entry.2.2 / entry.2.1 + ε) a E
      ⟨0, false, false, 1⟩
    have hadv : advance fmod (entry.2.2 / entry.2.1 + ε) ⟨0, false, false, 1⟩
        ⟨(a.entities E).animations, 0, 0⟩ =
        (⟨(a.entities E).animations, 0, 0 + (entry.2.2 / entry.2.1 + ε) * 1⟩, false) := by
      simp only [advance, hd]
      rw [if_neg Bool.false_ne_true, if_neg hnot]
    rw [hadv] at h1 h2
    exact ⟨by simpa using h2, by rw [h1]⟩

/-- In exact (ordered field) arithmetic the advanced clock `0 + (d + ε) * 1`
exceeds `d` for every `ε > 0`. -/
theorem animate_past_duration_exact {T : Type} [LinearOrderedField T]
    (fmod : T → T → T) (a : Animator T) (E : Nat) (entry : String × T × T) (ε : T)
    (h0 : (a.entities E).animations[0]? = some entry) (hε : 0 < ε) :
    ((a.start E ⟨0, false, false, 1⟩).animate fmod
        (entry.2.2 / entry.2.1 + ε)).is_animating E = none ∧
      (((a.start E ⟨0, false, false, 1⟩).animate fmod
        (entry.2.2 / entry.2.1 + ε)).entities E).animation_time_seconds =
        entry.2.2 / entry.2.1 := by
  have hd := duration_of_entry (a.entities E).animations 0 (0 : T) entry h0
  have h := animate_after_start_finishes fmod (entry.2.2 / entry.2.1 + ε) a E
    ⟨0, false, false, 1⟩ rfl rfl (by rw [hd]; simp only [zero_add, mul_one]; linarith)
  rw [hd] at h
  exact h

/-- C13, as amended: an unpaused looping entity whose animation has a
duration `d > 0` and whose advanced clock `c + dt * speed` exceeds `d` is
still in the active set after `animate(dt)`, with the clock
`fmod(c + dt * speed, d)`.  In particular an entity started with
`loop: true` and speed 1 has, after an `animate(dt)` whose advanced clock
`0 + dt * 1` exceeds `d`, such as `dt = 1.5 * d`, the clock
`fmod(0 + dt * 1, d)`.  No law of arithmetic is used, so this holds with
every operation rounded as in `double`. -/
theorem animate_loop_wraps_clock {T : Type} [LinearOrder T] [Zero T] [One T] [Add T] [Mul T]
    [Div T] (fmod : T → T → T) :
    (∀ (a : Animator T) (e : Nat) (p : AnimationParameters T) (dt : T),
        KeysUnique a.animated_entities → a.is_animating e = some p →
        p.paused = false → p.loop = true →
        0 < (a.entities e).get_animation_duration_seconds →
        (a.entities e).get_animation_duration_seconds <
          (a.entities e).animation_time_seconds + dt * p.speed →
        (a.animate fmod dt).is_animating e = some p ∧
          ((a.animate fmod dt).entities e).animation_time_seconds =
            fmod ((a.entities e).animation_time_seconds + dt * p.speed)
              (a.entities e).get_animation_duration_seconds) ∧
      (∀ (a : Animator T) (e id : Nat) (entry : String × T × T) (dt : T),
        (a.entities e).animations[id]? = some entry → 0 < entry.2.2 / entry.2.1 →
        entry.2.2 / entry.2.1 < 0 + dt * 1 →
        ((a.start e ⟨id, true, false, 1⟩).animate fmod dt).is_animating e =
            some ⟨id, true, false, 1⟩ ∧
          (((a.start e ⟨id, true, false, 1⟩).animate fmod dt).entities
            e).animation_time_seconds = fmod (0 + dt * 1) (entry.2.2 / entry.2.1)) := by
  refine ⟨fun a e p dt hu hp hpa hl hd hpast =>
    animate_loop_wraps fmod dt a e p hu hp hpa hl hd hpast, ?_⟩
  intro a e id entry dt hentry hd hpast
  have hdur := duration_of_entry (a.entities e).animations id (0 : T) entry hentry
  obtain ⟨h1, h2⟩ := animate_after_start fmod dt a e ⟨id, true, false, 1⟩
  have hadv : advance fmod dt ⟨id, true, false, 1⟩ ⟨(a.entities e).animations, id, 0⟩ =
      (⟨(a.entities e).animations, id, fmod (0 + dt * 1) (entry.2.2 / entry.2.1)⟩,
        false) := by
    simp only [advance, hdur, Bool.true_and]
    have hpos : decide (entry.2.2 / entry.2.1 > 0) = true := decide_eq_true hd
    rw [if_neg Bool.false_ne_true, if_pos hpast, if_pos hpos]
  rw [hadv] at h1 h2
  exact ⟨by simpa using h2, by rw [h1]⟩

/-- In exact (ordered field) arithmetic and with `fmod(x, y) = x - y` for
`0 < y ≤ x < 2y`, an entity started with `loop: true` and speed 1 has the
clock `0.5 * d` after `animate(1.5 * d)`. -/
theorem animate_loop_half_exact {T : Type} [LinearOrderedField T] (fmod : T → T → T)
    (hfmod : ∀ x y : T, 0 < y → y ≤ x → x < y + y → fmod x y = x - y)
    (a : Animator T) (e id : Nat) (entry : String × T × T)
    (hentry : (a.entities e).animations[id]? = some entry)
    (hd : 0 < entry.2.2 / entry.2.1) :
    ((a.start e ⟨id, true, false, 1⟩).animate fmod
        (3 / 2 * (entry.2.2 / entry.2.1))).is_animating e = some ⟨id, true, false, 1⟩ ∧
      (((a.start e ⟨id, true, false, 1⟩).animate fmod
        (3 / 2 * (entry.2.2 / entry.2.1))).entities e).animation_time_seconds =
        1 / 2 * (entry.2.2 / entry.2.1) := by
  have hdur := duration_of_entry (a.entities e).animations id (0 : T) entry hentry
  obtain ⟨h1, h2⟩ := animate_after_start fmod (3 / 2 * (entry.2.2 / entry.2.1)) a e
    ⟨id, true, false, 1⟩
  have hadv : advance fmod (3 / 2 * (entry.2.2 / entry.2.1)) ⟨id, true, false, 1⟩
      ⟨(a.entities e).animations, id, 0⟩ =
      (⟨(a.entities e).animations, id, 1 / 2 * (entry.2.2 / entry.2.1)⟩, false) := by
    simp only [advance, hdur, Bool.true_and, zero_add, mul_one]
    have hgt : 3 / 2 * (entry.2.2 / entry.2.1) > entry.2.2 / entry.2.1 := by linarith
    have hpos : decide (entry.2.2 / entry.2.1 > 0) = true := decide_eq_true hd
    rw [if_neg Bool.false_ne_true, if_pos hgt, if_pos hpos,
      hfmod _ _ hd (by linarith) (by linarith)]
    congr 2
    ring
  rw [hadv] at h1 h2
  exact ⟨by simpa using h2, by rw [h1]⟩

/-- For `0 < y ≤ x < 2y` the truncated remainder is `x - y`. -/
theorem fmodTrunc_sub {T : Type} [LinearOrderedField T] [FloorRing T] (x y : T)
    (hy : 0 < y) (hle : y ≤ x) (hlt : x < y + y) : fmodTrunc x y = x - y := by
  have h1 : 1 ≤ x / y := (one_le_div hy).2 hle
  have h2 : x / y < 2 := (div_lt_iff₀ hy).2 (by linarith)
  have hfloor : Int.floor (x / y) = 1 := by
    rw [Int.floor_eq_iff]
    constructor
    · simpa using h1
    · have : ((1 : ℤ) : T) + 1 = 2 := by norm_num
      rw [this]
      exact h2
  unfold fmodTrunc
  rw [if_pos (le_trans zero_le_one h1), hfloor]
  simp

/-- A worked instance of the amended C12 in `double`: a duration of `10 / 2`
seconds and `ε = 1`; the advanced clock 6 exceeds 5. -/
theorem start_then_animate_past_duration_witness :
    (demoWalkD.entities 0).animations[0]? = some ("walk", .fin 2, .fin 10) ∧
      (.fin 10 / .fin 2 : Double) < 0 + (.fin 10 / .fin 2 + .fin 1) * 1 ∧
      ((demoWalkD.start 0 ⟨0, false, false, 1⟩).animate Ieee.fmod
          (.fin 10 / .fin 2 + .fin 1)).is_animating 0 = none ∧
      (((demoWalkD.start 0 ⟨0, false, false, 1⟩).animate Ieee.fmod
          (.fin 10 / .fin 2 + .fin 1)).entities 0).animation_time_seconds =
        .fin 10 / .fin 2 :=
  ⟨rfl, by decide!,
    (start_then_animate_past_duration Ieee.fmod demoWalkD 0 ("walk", .fin 2, .fin 10) (.fin 1)
      rfl).1 (by decide!)⟩

/-- C12 fails as stated: in `double` the duration is `10 / 2 = 5` and
`ε = 1e-16` is positive, yet `5 + ε` rounds to 5, the advanced clock does not
exceed the duration, and after `start` and `animate(d + ε)` the entity is
still in the active set. -/
theorem start_then_animate_rounding_counterexample :
    (demoWalkD.entities 0).animations[0]? = some ("walk", .fin 2, .fin 10) ∧
      (.fin 10 / .fin 2 : Double) = .fin 5 ∧
      (0 : Double) < Ieee.round (1 / 10 ^ 16) ∧
      (.fin 10 / .fin 2 + Ieee.round (1 / 10 ^ 16) : Double) = .fin 5 ∧
      ((demoWalkD.start 0 ⟨0, false, false, 1⟩).animate Ieee.fmod
          (.fin 10 / .fin 2 + Ieee.round (1 / 10 ^ 16))).is_animating 0 =
        some ⟨0, false, false, 1⟩ ∧
      ((demoWalkD.start 0 ⟨0, false, false, 1⟩).animate Ieee.fmod
          (.fin 10 / .fin 2 + Ieee.round (1 / 10 ^ 16))).is_animating 0 ≠ none := by
  refine ⟨rfl, by decide!, by decide!, by decide!, by decide!, by decide!⟩

/-- A worked instance of the amended C13 in `double`: at clock 4 with
duration 5, `animate(3)` wraps the clock of the looping entity 0 to 2; and
entity 1, started with `loop: true`, has after `animate(1.5 * 5)` the clock
`fmod(7.5, 5) = 2.5`, which is `0.5 * 5`. -/
theorem animate_loop_wraps_clock_witness :
    (KeysUnique demoPlayingD.animated_entities ∧
        demoPlayingD.is_animating 0 = some ⟨0, true, false, 1⟩ ∧
        0 < (demoPlayingD.entities 0).get_animation_duration_seconds ∧
        (demoPlayingD.entities 0).get_animation_duration_seconds <
          (demoPlayingD.entities 0).animation_time_seconds + .fin 3 * 1 ∧
        (demoPlayingD.entities 1).animations[0]? = some ("walk", .fin 2, .fin 10) ∧
        (0 : Double) < .fin 10 / .fin 2 ∧
        (.fin 10 / .fin 2 : Double) < 0 + .fin (3 / 2) * (.fin 10 / .fin 2) * 1) ∧
      (Ieee.fmod ((demoPlayingD.entities 0).animation_time_seconds + .fin 3 * 1)
          (demoPlayingD.entities 0).get_animation_duration_seconds = .fin 2 ∧
        Ieee.fmod ((0 : Double) + .fin (3 / 2) * (.fin 10 / .fin 2) * 1)
          (.fin 10 / .fin 2) = .fin (1 / 2) * (.fin 10 / .fin 2)) ∧
      ((demoPlayingD.animate Ieee.fmod (.fin 3)).is_animating 0 = some ⟨0, true, false, 1⟩ ∧
        ((demoPlayingD.animate Ieee.fmod (.fin 3)).entities 0).animation_time_seconds =
          Ieee.fmod ((demoPlayingD.entities 0).animation_time_seconds + .fin 3 * 1)
            (demoPlayingD.entities 0).get_animation_duration_seconds) ∧
      (((demoPlayingD.start 1 ⟨0, true, false, 1⟩).animate Ieee.fmod
          (.fin (3 / 2) * (.fin 10 / .fin 2))).is_animating 1 = some ⟨0, true, false, 1⟩ ∧
        (((demoPlayingD.start 1 ⟨0, true, false, 1⟩).animate Ieee.fmod
          (.fin (3 / 2) * (.fin 10 / .fin 2))).entities 1).animation_time_seconds =
          Ieee.fmod ((0 : Double) + .fin (3 / 2) * (.fin 10 / .fin 2) * 1)
            (.fin 10 / .fin 2)) := by
  have h1 := (animate_loop_wraps_clock Ieee.fmod).1 demoPlayingD 0 ⟨0, true, false, 1⟩ (.fin 3)
    (by decide) (by decide!) rfl rfl (by decide!) (by decide!)
  have h2 := (animate_loop_wraps_clock Ieee.fmod).2 demoPlayingD 1 0
    ("walk", .fin 2, .fin 10) (.fin (3 / 2) * (.fin 10 / .fin 2)) rfl (by decide!)
    (by decide!)
  exact ⟨⟨by decide, by decide!, by decide!, by decide!, rfl, by decide!, by decide!⟩,
    ⟨by decide!, by decide!⟩, h1, h2⟩

/-- C13 fails as stated in its particular case: in `double` the duration
`100 / 24` is positive; an entity started with `loop: true` and speed 1 is,
after `animate(1.5 * d)`, still active with the clock `fmod(6.25, d)`, which
is `6.25 - d` and lies below `0.5 * d`. -/
theorem animate_loop_half_counterexample :
    (demoClipD.entities 0).animations[0]? = some ("clip", .fin 24, .fin 100) ∧
      (0 : Double) < .fin 100 / .fin 24 ∧
      (.fin (3 / 2) * (.fin 100 / .fin 24) : Double) = .fin (25 / 4) ∧
      ((demoClipD.start 0 ⟨0, true, false, 1⟩).animate Ieee.fmod
          (.fin (3 / 2) * (.fin 100 / .fin 24))).is_animating 0 =
        some ⟨0, true, false, 1⟩ ∧
      (((demoClipD.start 0 ⟨0, true, false, 1⟩).animate Ieee.fmod
          (.fin (3 / 2) * (.fin 100 / .fin 24))).entities 0).animation_time_seconds +
          .fin 100 / .fin 24 = .fin (25 / 4) ∧
      (((demoClipD.start 0 ⟨0, true, false, 1⟩).animate Ieee.fmod
          (.fin (3 / 2) * (.fin 100 / .fin 24))).entities 0).animation_time_seconds <
        .fin (1 / 2) * (.fin 100 / .fin 24) ∧
      (((demoClipD.start 0 ⟨0, true, false, 1⟩).animate Ieee.fmod
          (.fin (3 / 2) * (.fin 100 / .fin 24))).entities 0).animation_time_seconds ≠
        .fin (1 / 2) * (.fin 100 / .fin 24) := by
  refine ⟨rfl, by decide!, by decide!, by decide!, by decide!, by decide!, by decide!⟩

end AnimatorTheorems

/-! ## Start, stop, resume and update_param -/

section ControlTheorems

variable {T : Type}

/-- C14: after `start(e, p)`, whatever the state before and whether or not
`e` was active, `e` is in the active set with exactly the parameters `p`, its
clock is 0 and its animation id is `p.animation_id`; the entry of every other
entity and every other entity object are unchanged. -/
theorem start_sets_entry_clock_and_id [Zero T] (a : Animator T) (e : Nat)
    (p : AnimationParameters T) :
    (a.start e p).is_animating e = some p ∧
      ((a.start e p).entities e).animation_time_seconds = 0 ∧
      ((a.start e p).entities e).animation_id = p.animation_id ∧
      ∀ other, other ≠ e →
        (a.start e p).is_animating other = a.is_animating other ∧
          (a.start e p).entities other = a.entities other := by
  refine ⟨?_, by rw [start_entity], by rw [start_entity], ?_⟩
  · simp only [Animator.is_animating, Animator.start]
    exact mapFind_mapAssign_self e p _
  · intro other hne
    constructor
    · simp only [Animator.is_animating, Animator.start, Animator.stop]
      rw [mapFind_mapAssign_ne hne, mapFind_mapErase_ne hne]
    · simp [Animator.start, Animator.stop, Function.update_noteq hne]

/-- C15, on the code: for the entity 0 of `demoFinished`, which ran past the
end of a non-looping animation and is absent from the active set with clock
5 and animation id 0, `stop` is not a no-op: it sets the clock to 0 and the
animation id to `NONE_ANIMATION`. -/
theorem stop_changes_finished_entity :
    (demoFinished.is_animating 0 = none ∧
        (demoFinished.entities 0).animation_time_seconds = 5 ∧
        (demoFinished.entities 0).animation_id = 0) ∧
      ((demoFinished.stop 0).entities 0).animation_time_seconds = 0 ∧
      ((demoFinished.stop 0).entities 0).animation_id = NONE_ANIMATION ∧
      ((demoFinished.stop 0).entities 0).animation_time_seconds ≠
        (demoFinished.entities 0).animation_time_seconds := by
  decide

/-- C16: for an entity `e` absent from the active set, after `resume(e, p)`
the entity is in the active set with the parameters `p`, its animation id is
`p.animation_id` and its clock is what it was before. -/
theorem resume_absent_keeps_clock (a : Animator T) (e : Nat) (p : AnimationParameters T)
    (habsent : a.is_animating e = none) :
    (a.resume e p).is_animating e = some p ∧
      ((a.resume e p).entities e).animation_id = p.animation_id ∧
      ((a.resume e p).entities e).animation_time_seconds =
        (a.entities e).animation_time_seconds := by
  unfold Animator.is_animating at habsent
  have hr : a.resume e p =
      ⟨Function.update a.entities e { a.entities e with animation_id := p.animation_id },
        mapAssign e p a.animated_entities⟩ := by
    simp only [Animator.resume, habsent]
  rw [hr]
  refine ⟨mapFind_mapAssign_self e p _, ?_, ?_⟩
  · simp only [Function.update_same]
  · simp only [Function.update_same]

/-- A worked instance of C16: entity 0 of `demoFinished` is absent with clock
5; after `resume` it is active and its clock is still 5. -/
theorem resume_absent_keeps_clock_witness :
    demoFinished.is_animating 0 = none ∧
      ((demoFinished.resume 0 demoOnce).is_animating 0 = some demoOnce ∧
        ((demoFinished.resume 0 demoOnce).entities 0).animation_id = demoOnce.animation_id ∧
        ((demoFinished.resume 0 demoOnce).entities 0).animation_time_seconds =
          (demoFinished.entities 0).animation_time_seconds) :=
  ⟨by decide, resume_absent_keeps_clock demoFinished 0 demoOnce (by decide)⟩

/-- C17, on the code: entity 0 of `demoFinished` is not present in the
animator and its clock is 5; after `resume` it is present with the given
parameters, but its clock is still 5, not 0. -/
theorem resume_absent_does_not_reset_clock :
    demoFinished.is_animating 0 = none ∧
      (demoFinished.resume 0 demoOnce).is_animating 0 = some demoOnce ∧
      ((demoFinished.resume 0 demoOnce).entities 0).animation_time_seconds = 5 ∧
      ((demoFinished.resume 0 demoOnce).entities 0).animation_time_seconds ≠ 0 := by
  decide

/-- C18, as amended: `update_param(e, p)` changes no entity object, so the
clock of `e` is unchanged; an absent `e` stays absent and the map is
unchanged; for a present `e` the stored parameters become exactly `p`, the
paused flag included; the entries of the other entities are unchanged. -/
theorem update_param_replaces_parameters (a : Animator T) (e : Nat)
    (p : AnimationParameters T) :
    (a.update_param e p).entities = a.entities ∧
      (a.is_animating e = none → a.update_param e p = a) ∧
      (∀ q, a.is_animating e = some q → (a.update_param e p).is_animating e = some p) ∧
      ∀ other, other ≠ e → (a.update_param e p).is_animating other = a.is_animating other := by
  unfold Animator.is_animating Animator.update_param
  cases h : mapFind e a.animated_entities with
  | none => simp
  | some q =>
    refine ⟨rfl, by simp, fun _ _ => mapFind_mapAssign_self e p _, ?_⟩
    intro other hne
    exact mapFind_mapAssign_ne hne p _

/-- A worked instance of the amended C18: entity 0 of `demoPlaying` is
present; after `update_param` its parameters are the new ones. -/
theorem update_param_replaces_parameters_witness :
    demoPlaying.is_animating 0 = some ⟨0, true, false, 1⟩ ∧
      (demoPlaying.update_param 0 ⟨0, false, true, 2⟩).is_animating 0 =
        some ⟨0, false, true, 2⟩ :=
  ⟨by decide,
    (update_param_replaces_parameters demoPlaying 0 ⟨0, false, true, 2⟩).2.2.1
      ⟨0, true, false, 1⟩ (by decide)⟩

/-- C18 fails as stated: entity 0 of `demoPlaying` is reported playing
(`paused = false`) before `update_param` with parameters whose `paused` is
true, and is reported paused after it. -/
theorem update_param_counterexample :
    (demoPlaying.is_animating 0).map (fun p => p.paused) = some false ∧
      ((demoPlaying.update_param 0 ⟨0, true, true, 1⟩).is_animating 0).map
        (fun p => p.paused) = some true := by
  decide

end ControlTheorems

/-! ## Hierarchy cache -/

section CacheTheorems

variable {Time : Type} [LinearOrder Time]

/-- A call that finds a live, up-to-date entry returns its instance without
importing and leaves the loader as it was. -/
theorem load_hierarchy_hit (env : LoadEnv Time) (loader : ModelLoader Time) (file : String)
    (format : Nat) (t : Time) (existing : Time × Nat)
    (ht : env.last_write_time (loader.import_path ++ "/" ++ file) = some t)
    (hc : mapFind (file, format) loader.hierarchy_cache = some existing)
    (halive : env.alive existing.2 = true) (hle : t ≤ existing.1) :
    loader.load_hierarchy_from_file env file format = ⟨some existing.2, false, loader⟩ := by
  simp [ModelLoader.load_hierarchy_from_file, ht, hc, halive, hle]

/-- After a call that returned an instance, the cache maps the key to that
instance with a recorded time not before the modification time seen. -/
theorem load_hierarchy_returned (env : LoadEnv Time) (loader : ModelLoader Time)
    (file : String) (format h : Nat)
    (hret : (loader.load_hierarchy_from_file env file format).returned = some h) :
    (loader.load_hierarchy_from_file env file format).loader.import_path =
        loader.import_path ∧
      ∃ t t₀, env.last_write_time (loader.import_path ++ "/" ++ file) = some t ∧
        mapFind (file, format)
          (loader.load_hierarchy_from_file env file format).loader.hierarchy_cache =
            some (t₀, h) ∧ t ≤ t₀ := by
  unfold ModelLoader.load_hierarchy_from_file at hret ⊢
  cases ht : env.last_write_time (loader.import_path ++ "/" ++ file) with
  | none => simp [ht] at hret
  | some t =>
    simp only [ht] at hret ⊢
    have himport : ∀ (c : Option Nat), c = none →
        (match c with
          | some handle => (⟨some handle, false, loader⟩ : LoadResult Time)
          | none =>
            if env.import_succeeds (loader.import_path ++ "/" ++ file) = true then
              ⟨some env.fresh, true,
                { loader with
                  hierarchy_cache :=
                    mapAssign (file, format) (t, env.fresh) loader.hierarchy_cache }⟩
            else ⟨none, true, loader⟩).returned = some h →
        (match c with
          | some handle => (⟨some handle, false, loader⟩ : LoadResult Time)
          | none =>
            if env.import_succeeds (loader.import_path ++ "/" ++ file) = true then
              ⟨some env.fresh, true,
                { loader with
                  hierarchy_cache :=
                    mapAssign (file, format) (t, env.fresh) loader.hierarchy_cache }⟩
            else ⟨none, true, loader⟩).loader.import_path = loader.import_path ∧
          ∃ t' t₀, some t = some t' ∧
            mapFind (file, format)
              (match c with
                | some handle => (⟨some handle, false, loader⟩ : LoadResult Time)
                | none =>
                  if env.import_succeeds (loader.import_path ++ "/" ++ file) = true then
                    ⟨some env.fresh, true,
                      { loader with
                        hierarchy_cache :=
                          mapAssign (file, format) (t, env.fresh) loader.hierarchy_cache }⟩
                  else ⟨none, true, loader⟩).loader.hierarchy_cache = some (t₀, h) ∧
            t' ≤ t₀ := by
      intro c hcn hr
      subst hcn
      by_cases hi : env.import_succeeds (loader.import_path ++ "/" ++ file) = true
      · simp only [hi, if_true, Option.some.injEq] at hr ⊢
        subst hr
        exact ⟨trivial, t, t, rfl, mapFind_mapAssign_self _ _ _, le_refl t⟩
      · simp [hi] at hr
    cases hc : mapFind (file, format) loader.hierarchy_cache with
    | none => exact himport none rfl (by simpa [hc] using hret)
    | some existing =>
      by_cases hit : (env.alive existing.2 && decide (existing.1 ≥ t)) = true
      · simp only [hc, hit, if_true, Option.some.injEq] at hret ⊢
        subst hret
        refine ⟨trivial, t, existing.1, rfl, rfl, ?_⟩
        have := (Bool.and_eq_true_iff.1 hit).2
        exact of_decide_eq_true this
      · have hnone : (if (env.alive existing.2 && decide (existing.1 ≥ t)) = true
            then some existing.2 else none) = none := if_neg hit
        simp only [hc] at hret ⊢
        exact himport _ hnone hret

/-- C20: when a first `load_hierarchy_from_file` for `(file, format)` returned
the instance `h`, a second call for the same `(file, format)`, made while `h`
is alive and with the modification time of the file unchanged, returns the
same instance `h`, does not reach the importer and leaves the cache as it
was. -/
theorem second_load_returns_cached_instance (env₁ env₂ : LoadEnv Time)
    (loader : ModelLoader Time) (file : String) (format h : Nat)
    (hfirst : (loader.load_hierarchy_from_file env₁ file format).returned = some h)
    (htime : env₂.last_write_time (loader.import_path ++ "/" ++ file) =
      env₁.last_write_time (loader.import_path ++ "/" ++ file))
    (halive : env₂.alive h = true) :
    ((loader.load_hierarchy_from_file env₁ file format).loader.load_hierarchy_from_file
        env₂ file format).returned = some h ∧
      ((loader.load_hierarchy_from_file env₁ file format).loader.load_hierarchy_from_file
        env₂ file format).imported = false ∧
      ((loader.load_hierarchy_from_file env₁ file format).loader.load_hierarchy_from_file
        env₂ file format).loader =
        (loader.load_hierarchy_from_file env₁ file format).loader := by
  obtain ⟨hpath, t, t₀, ht, hc, hle⟩ := load_hierarchy_returned env₁ loader file format h hfirst
  have hit := load_hierarchy_hit env₂ (loader.load_hierarchy_from_file env₁ file format).loader
    file format t (t₀, h) (by rw [hpath, htime, ht]) hc halive hle
  rw [hit]
  exact ⟨rfl, rfl, rfl⟩

/-- A worked instance of C20: the first call imports and returns instance 7;
the second call returns instance 7 again without importing. -/
theorem second_load_returns_cached_instance_witness :
    ((demoLoader.load_hierarchy_from_file demoEnvFirst "cat.fbx" 0).returned = some 7 ∧
        demoEnvSecond.last_write_time (demoLoader.import_path ++ "/" ++ "cat.fbx") =
          demoEnvFirst.last_write_time (demoLoader.import_path ++ "/" ++ "cat.fbx") ∧
        demoEnvSecond.alive 7 = true) ∧
      (((demoLoader.load_hierarchy_from_file demoEnvFirst "cat.fbx" 0).loader.load_hierarchy_from_file
          demoEnvSecond "cat.fbx" 0).returned = some 7 ∧
        ((demoLoader.load_hierarchy_from_file demoEnvFirst "cat.fbx" 0).loader.load_hierarchy_from_file
          demoEnvSecond "cat.fbx" 0).imported = false ∧
        ((demoLoader.load_hierarchy_from_file demoEnvFirst "cat.fbx" 0).loader.load_hierarchy_from_file
          demoEnvSecond "cat.fbx" 0).loader =
          (demoLoader.load_hierarchy_from_file demoEnvFirst "cat.fbx" 0).loader) :=
  ⟨⟨rfl, rfl, rfl⟩,
    second_load_returns_cached_instance demoEnvFirst demoEnvSecond demoLoader "cat.fbx" 0 7
      rfl rfl rfl⟩

end CacheTheorems

/-! ## Lemmas on the weight map -/

section WeightMapLemmas

variable {W : Type} [LinearOrder W]

end WeightMapLemmas

/-! ## Lemmas on the selection loops -/

section FillLemmas

variable {W : Type}

end FillLemmas

/-! ## Bone-weight reduction -/

section BoneWeightTheorems

end BoneWeightTheorems

/-! ## Paused entities and the range of the clock -/

section ClockTheorems

/-- C25: an entity of the active set whose stored parameters have
`paused = true` is left alone by `animate(dt)`: its object (clock and
animation id) is unchanged, and it is still in the active set with the same
parameters, whatever the other items of the map are. -/
theorem animate_skips_paused {T : Type} [LinearOrder T] [Zero T] [Add T] [Mul T] [Div T]
    (fmod : T → T → T) (dt : T) (a : Animator T) (e : Nat) (p : AnimationParameters T)
    (hu : KeysUnique a.animated_entities) (hp : a.is_animating e = some p)
    (hpaused : p.paused = true) :
    (a.animate fmod dt).entities e = a.entities e ∧
      (a.animate fmod dt).is_animating e = some p := by
  obtain ⟨l₁, l₂, hm, h₁, h₂⟩ := map_split_of_find hu hp
  obtain ⟨h1, h2⟩ := animate_entity fmod dt a e p l₁ l₂ hm h₁ h₂
  have hadv : advance fmod dt p (a.entities e) = (a.entities e, false) := by
    simp [advance, hpaused]
  rw [hadv] at h1 h2
  exact ⟨h1, by simpa using h2⟩

/-- A worked instance of C25: entity 0 of `demoPaused` is paused at clock 4
next to a playing entity; `animate(6)` leaves it at clock 4 and paused. -/
theorem animate_skips_paused_witness :
    (KeysUnique demoPaused.animated_entities ∧
        demoPaused.is_animating 0 = some ⟨0, true, true, 1⟩) ∧
      ((demoPaused.animate demoFmod 6).entities 0 = demoPaused.entities 0 ∧
        (demoPaused.animate demoFmod 6).is_animating 0 = some ⟨0, true, true, 1⟩) :=
  ⟨⟨by decide, by decide⟩,
    animate_skips_paused demoFmod 6 demoPaused 0 ⟨0, true, true, 1⟩ (by decide) (by decide)
      rfl⟩

/-- The truncated remainder lies between 0 and the divisor for a
non-negative dividend and a positive divisor. -/
theorem fmodTrunc_range {T : Type} [LinearOrderedField T] [FloorRing T] (x y : T)
    (hx : 0 ≤ x) (hy : 0 < y) : 0 ≤ fmodTrunc x y ∧ fmodTrunc x y ≤ y := by
  have hq : 0 ≤ x / y := div_nonneg hx (le_of_lt hy)
  unfold fmodTrunc
  rw [if_pos hq]
  have h1 : (Int.floor (x / y) : T) ≤ x / y := Int.floor_le _
  have h2 : x / y < (Int.floor (x / y) : T) + 1 := Int.lt_floor_add_one _
  have hxy : y * (x / y) = x := by field_simp
  constructor
  · have := mul_le_mul_of_nonneg_left h1 (le_of_lt hy)
    rw [hxy] at this
    linarith
  · have := mul_lt_mul_of_pos_left h2 hy
    rw [hxy] at this
    linarith

end ClockTheorems

/-! ## Failure of calculate_animation and the cache after a change -/

section FailureTheorems

variable {T F V Q M : Type} [LinearOrder T] [Sub T] [Div T] [Mul T] [Mul M] [One M]

/-- C26: when `calculate_animation` raises the invalid-animation-id error,
the member `meshes`, and with it every `bone_transforms` array, is what it
was before the call; and when it returns, `meshes` is what it returns. -/
theorem calculate_animation_failure_keeps_meshes (g : Glm T F V Q M)
    (h : MeshHierarchy T V Q M) (animation_id : Nat) (time_seconds : T) :
    (∀ e, h.calculate_animation g animation_id time_seconds = .invalid_animation_id e →
        h.meshes_after_calculate_animation g animation_id time_seconds = some h.meshes) ∧
      (∀ meshes, h.calculate_animation g animation_id time_seconds = .ok meshes →
        h.meshes_after_calculate_animation g animation_id time_seconds = some meshes) := by
  unfold MeshHierarchy.calculate_animation MeshHierarchy.meshes_after_calculate_animation
  by_cases hn : animation_id = NONE_ANIMATION
  · simp [hn]
  · by_cases hge : animation_id ≥ h.animations.length
    · simp [hn, hge]
    · simp only [hn, hge, if_false, dite_false]
      cases animate g animation_id (time_seconds * (h.animations[animation_id]).2.1)
        h.root_node 1 false h.meshes with
      | none => simp
      | some r => simp

/-- A worked instance of C26: id 7 is outside the catalog of the demo
hierarchy; the call fails and the meshes are the ones before the call. -/
theorem calculate_animation_failure_keeps_meshes_witness :
    demoHierarchy.calculate_animation demoGlm 7 3 = .invalid_animation_id 7 ∧
      demoHierarchy.meshes_after_calculate_animation demoGlm 7 3 = some demoHierarchy.meshes :=
  ⟨by decide,
    (calculate_animation_failure_keeps_meshes demoGlm demoHierarchy 7 3).1 7 (by decide)⟩

end FailureTheorems

section CacheChangeTheorems

variable {Time : Type} [LinearOrder Time]

/-- C21, as amended: when the cache holds a live instance for
`(file, format)` and the file now has a modification time later than the
recorded one, a call whose import succeeds returns the newly created
instance, which is not the cached one, and records it with the new time. -/
theorem load_after_later_change_returns_new_instance (env : LoadEnv Time)
    (loader : ModelLoader Time) (file : String) (format : Nat) (t : Time)
    (existing : Time × Nat)
    (ht : env.last_write_time (loader.import_path ++ "/" ++ file) = some t)
    (hc : mapFind (file, format) loader.hierarchy_cache = some existing)
    (halive : env.alive existing.2 = true) (hlater : existing.1 < t)
    (himport : env.import_succeeds (loader.import_path ++ "/" ++ file) = true)
    (hfresh : env.fresh ≠ existing.2) :
    (loader.load_hierarchy_from_file env file format).returned = some env.fresh ∧
      (loader.load_hierarchy_from_file env file format).returned ≠ some existing.2 ∧
      (loader.load_hierarchy_from_file env file format).imported = true ∧
      mapFind (file, format)
        (loader.load_hierarchy_from_file env file format).loader.hierarchy_cache =
          some (t, env.fresh) := by
  have hnot : ¬ existing.1 ≥ t := not_le.2 hlater
  have hrun : loader.load_hierarchy_from_file env file format =
      ⟨some env.fresh, true,
        { loader with
          hierarchy_cache :=
            mapAssign (file, format) (t, env.fresh) loader.hierarchy_cache }⟩ := by
    simp [ModelLoader.load_hierarchy_from_file, ht, hc, halive, hnot, himport]
  rw [hrun]
  refine ⟨rfl, ?_, rfl, mapFind_mapAssign_self _ _ _⟩
  intro h
  exact hfresh (Option.some.inj h)

/-- A worked instance of the amended C21: instance 7 was recorded at time 3
and the file now has time 5; the call imports and returns instance 8. -/
theorem load_after_later_change_returns_new_instance_witness :
    (demoEnvLater.last_write_time (demoLoaderCached.import_path ++ "/" ++ "cat.fbx") =
          some 5 ∧
        mapFind ("cat.fbx", 0) demoLoaderCached.hierarchy_cache = some (3, 7) ∧
        demoEnvLater.alive 7 = true ∧ (3 : Nat) < 5 ∧
        demoEnvLater.import_succeeds (demoLoaderCached.import_path ++ "/" ++ "cat.fbx") =
          true ∧
        demoEnvLater.fresh ≠ 7) ∧
      ((demoLoaderCached.load_hierarchy_from_file demoEnvLater "cat.fbx" 0).returned =
          some demoEnvLater.fresh ∧
        (demoLoaderCached.load_hierarchy_from_file demoEnvLater "cat.fbx" 0).returned ≠
          some 7 ∧
        (demoLoaderCached.load_hierarchy_from_file demoEnvLater "cat.fbx" 0).imported = true ∧
        mapFind ("cat.fbx", 0)
          (demoLoaderCached.load_hierarchy_from_file demoEnvLater "cat.fbx" 0).loader.hierarchy_cache =
            some (5, demoEnvLater.fresh)) :=
  ⟨⟨rfl, rfl, rfl, by decide, rfl, by decide⟩,
    load_after_later_change_returns_new_instance demoEnvLater demoLoaderCached "cat.fbx" 0 5
      (3, 7) rfl rfl rfl (by decide) rfl (by decide)⟩

/-- C21 fails as stated: instance 7 is cached with the recorded time 3 and is
alive; the file now has the different modification time 2; the call returns
the cached instance 7 and does not import. -/
theorem load_after_change_counterexample :
    mapFind ("cat.fbx", 0) demoLoaderCached.hierarchy_cache = some (3, 7) ∧
      demoEnvEarlier.alive 7 = true ∧
      demoEnvEarlier.last_write_time (demoLoaderCached.import_path ++ "/" ++ "cat.fbx") =
        some 2 ∧
      (2 : Nat) ≠ 3 ∧
      (demoLoaderCached.load_hierarchy_from_file demoEnvEarlier "cat.fbx" 0).returned =
        some 7 ∧
      (demoLoaderCached.load_hierarchy_from_file demoEnvEarlier "cat.fbx" 0).imported =
        false :=
  ⟨rfl, rfl, rfl, by decide, rfl, rfl⟩

end CacheChangeTheorems

/-! ## Nearest lights -/

section LightTheorems

variable {L D : Type} [LinearOrder D]

/-- The lights `get_nearest_lights` returns, padding apart, are the first
`min(size, max_count)` entries of the result; they and some list `rest` of
the remaining lights make up the set, and none of them is farther from the
target than a light of `rest`. -/
theorem get_nearest_lights_spec (partial_sort : Nat → List (D × L) → List (D × L))
    (hps : PartialSortContract partial_sort) (distance_squared : L → D) (off : L)
    (lights : List L) (max_count min_count : Nat) :
    ∃ nearest rest,
      get_nearest_lights partial_sort distance_squared off lights max_count min_count =
          nearest ++ List.replicate (min_count - min lights.length max_count) off ∧
        nearest.length = min lights.length max_count ∧
        (nearest ++ rest).Perm lights ∧
        (∀ a ∈ nearest, ∀ b ∈ rest, distance_squared a ≤ distance_squared b) ∧
        (lights.length ≤ max_count → nearest = lights ∧ rest = []) := by
  by_cases hle : lights.length ≤ max_count
  · refine ⟨lights, [], ?_, ?_, by simp, by simp, fun _ => ⟨rfl, rfl⟩⟩
    · simp [get_nearest_lights, hle, Nat.min_eq_left hle]
    · exact (Nat.min_eq_left hle).symm
  · have hk : min lights.length max_count ≤
        (lights.map fun l => (distance_squared l, l)).length := by
      simp
    obtain ⟨hperm, hsorted⟩ := hps (min lights.length max_count)
      (lights.map fun l => (distance_squared l, l)) hk
    have hlen : (partial_sort (min lights.length max_count)
        (lights.map fun l => (distance_squared l, l))).length = lights.length := by
      rw [hperm.length_eq, List.length_map]
    have hfst : ∀ x ∈ partial_sort (min lights.length max_count)
        (lights.map fun l => (distance_squared l, l)), x.1 = distance_squared x.2 := by
      intro x hx
      obtain ⟨l, -, rfl⟩ := List.mem_map.1 (hperm.mem_iff.1 hx)
      rfl
    refine ⟨((partial_sort (min lights.length max_count)
        (lights.map fun l => (distance_squared l, l))).take
          (min lights.length max_count)).map Prod.snd,
      ((partial_sort (min lights.length max_count)
        (lights.map fun l => (distance_squared l, l))).drop
          (min lights.length max_count)).map Prod.snd, ?_, ?_, ?_, ?_, ?_⟩
    · simp only [get_nearest_lights, hle, if_false, List.length_map, List.length_take, hlen]
      congr 2
      omega
    · rw [List.length_map, List.length_take, hlen]
      omega
    · rw [← List.map_append, List.take_append_drop]
      have := hperm.map Prod.snd
      simpa [Function.comp_def] using this
    · intro a ha b hb
      obtain ⟨x, hx, rfl⟩ := List.mem_map.1 ha
      obtain ⟨y, hy, rfl⟩ := List.mem_map.1 hb
      rw [← hfst x (List.mem_of_mem_take hx), ← hfst y (List.mem_of_mem_drop hy)]
      exact hsorted x hx y hy
    · intro h
      exact absurd h hle

variable {V C : Type}

/-- C24, as amended: `get_nearest_point_lights` returns
`max(min(size, max_count), min_count)` lights, so never more than the larger
of `max_count` and `min_count`, and never more than `max_count` when
`min_count ≤ max_count`. -/
theorem get_nearest_point_lights_length
    (partial_sort : Nat → List (D × PointLight V C) → List (D × PointLight V C))
    (hps : PartialSortContract partial_sort) (sub : V → V → V) (dot : V → V → D)
    (off : PointLight V C) (point_lights : List (PointLight V C)) (target : V)
    (max_count min_count : Nat) :
    (get_nearest_point_lights partial_sort sub dot off point_lights target max_count
        min_count).length = max (min point_lights.length max_count) min_count ∧
      (get_nearest_point_lights partial_sort sub dot off point_lights target max_count
        min_count).length ≤ max max_count min_count ∧
      (min_count ≤ max_count →
        (get_nearest_point_lights partial_sort sub dot off point_lights target max_count
          min_count).length ≤ max_count) := by
  obtain ⟨nearest, rest, hres, hlen, -, -, -⟩ :=
    get_nearest_lights_spec partial_sort hps
      (fun light => dot (sub light.position target) (sub light.position target)) off
      point_lights max_count min_count
  change get_nearest_point_lights partial_sort sub dot off point_lights target max_count
    min_count = _ at hres
  have hl : (get_nearest_point_lights partial_sort sub dot off point_lights target max_count
      min_count).length = max (min point_lights.length max_count) min_count := by
    rw [hres, List.length_append, List.length_replicate, hlen]
    omega
  refine ⟨hl, ?_, ?_⟩
  · rw [hl]
    omega
  · intro hmin
    rw [hl]
    omega

/-- A sort of the whole vector meets the contract of `std::partial_sort`. -/
theorem demoPartialSort_contract : PartialSortContract demoPartialSort := by
  intro k v _
  refine ⟨List.mergeSort_perm v _, ?_⟩
  have hs : (v.mergeSort fun a b => decide (a.1 ≤ b.1)).Pairwise
      (fun a b => decide (a.1 ≤ b.1) = true) := List.sorted_mergeSort
    (fun a b c hab hbc => by
      simp only [decide_eq_true_eq] at hab hbc ⊢
      exact le_trans hab hbc)
    (fun a b => by
      simp only [Bool.or_eq_true, decide_eq_true_eq]
      exact le_total a.1 b.1) v
  intro a ha b hb
  have hsplit := List.take_append_drop k (demoPartialSort k v)
  unfold demoPartialSort at hsplit ha hb
  rw [← hsplit, List.pairwise_append] at hs
  simpa using hs.2.2 a ha b hb

/-- A worked instance of the amended C24: three lights, `max_count = 2` and
`min_count = 1` give two lights. -/
theorem get_nearest_point_lights_length_witness :
    (PartialSortContract demoPartialSort ∧ 1 ≤ 2) ∧
      (get_nearest_point_lights demoPartialSort (fun a b => a - b) (fun a b => a * b)
        ⟨0, 0⟩ demoLights 0 2 1).length ≤ 2 :=
  ⟨⟨demoPartialSort_contract, by decide⟩,
    (get_nearest_point_lights_length demoPartialSort demoPartialSort_contract
      (fun a b => a - b) (fun a b => a * b) ⟨0, 0⟩ demoLights 0 2 1).2.2 (by decide)⟩

/-- C24 fails as stated: with no lights, `max_count = 1` and `min_count = 3`
the returned vector holds three padding lights, more than `max_count`. -/
theorem get_nearest_point_lights_length_counterexample :
    (get_nearest_point_lights demoPartialSort (fun a b => a - b) (fun a b => a * b)
        ⟨0, 0⟩ [] 0 1 3).length = 3 ∧
      ¬ (get_nearest_point_lights demoPartialSort (fun a b => a - b) (fun a b => a * b)
        ⟨0, 0⟩ [] 0 1 3).length ≤ 1 := by
  decide

end LightTheorems

/-! ## Refresh of the bone transforms -/

section RefreshLemmas

variable {M : Type}

/-- An assignment to a bone slot keeps the number of meshes and the length of
every `bone_transforms` array. -/
theorem writeBone_shape {meshes r : List (ModelInfo M)} {mesh slot : Nat} {value : M}
    (h : writeBone meshes mesh slot value = some r) :
    r.map (fun m => m.bone_transforms.length) =
      meshes.map (fun m => m.bone_transforms.length) := by
  unfold writeBone at h
  cases hm : meshes[mesh]? with
  | none => simp [hm] at h
  | some info =>
    rw [hm] at h
    by_cases hs : slot < info.bone_transforms.length
    · simp only [hs, if_true, Option.some.injEq] at h
      subst h
      apply List.ext_getElem?
      intro n
      rw [List.getElem?_map, List.getElem?_map, List.getElem?_set]
      by_cases e : mesh = n
      · subst e
        rw [if_pos rfl, hm]
        have hlt : mesh < meshes.length := (List.getElem?_eq_some_iff.1 hm).1
        simp [hlt]
      · rw [if_neg e]
    · simp [hs] at h

theorem applyWrites_shape {ws : List (Nat × Nat × M)} {meshes r : List (ModelInfo M)}
    (h : applyWrites ws meshes = some r) :
    r.map (fun m => m.bone_transforms.length) =
      meshes.map (fun m => m.bone_transforms.length) := by
  induction ws generalizing meshes with
  | nil =>
    simp only [applyWrites, Option.some.injEq] at h
    rw [h]
  | cons w ws ih =>
    obtain ⟨m, s, v⟩ := w
    simp only [applyWrites] at h
    cases hw : writeBone meshes m s v with
    | none => simp [hw] at h
    | some r₁ =>
      rw [hw] at h
      rw [ih h, writeBone_shape hw]

/-- Two mesh lists of the same shape that agree on every bone slot are
equal. -/
theorem meshes_ext {r₁ r₂ : List (ModelInfo M)}
    (hshape : r₁.map (fun m => m.bone_transforms.length) =
      r₂.map (fun m => m.bone_transforms.length))
    (hread : ∀ mesh slot, readBone r₁ mesh slot = readBone r₂ mesh slot) : r₁ = r₂ := by
  apply List.ext_getElem?
  intro n
  have hn := congrArg (fun l => l[n]?) hshape
  simp only [List.getElem?_map] at hn
  cases h₁ : r₁[n]? with
  | none =>
    cases h₂ : r₂[n]? with
    | none => rfl
    | some b => simp [h₁, h₂] at hn
  | some a =>
    cases h₂ : r₂[n]? with
    | none => simp [h₁, h₂] at hn
    | some b =>
      have hab : a.bone_transforms = b.bone_transforms := by
        apply List.ext_getElem?
        intro s
        have := hread n s
        simpa [readBone, h₁, h₂] using this
      cases a
      cases b
      simp only at hab
      rw [hab]

/-- The same assignments performed on two mesh lists leave the same value in
every slot that one of the assignments targets. -/
theorem readBone_applyWrites_agree {ws : List (Nat × Nat × M)}
    {m₁ m₂ r₁ r₂ : List (ModelInfo M)} (h₁ : applyWrites ws m₁ = some r₁)
    (h₂ : applyWrites ws m₂ = some r₂) (mesh slot : Nat)
    (ht : ∃ w ∈ ws, w.1 = mesh ∧ w.2.1 = slot) :
    readBone r₁ mesh slot = readBone r₂ mesh slot := by
  induction ws generalizing m₁ m₂ with
  | nil =>
    obtain ⟨w, hw, -⟩ := ht
    simp at hw
  | cons w ws ih =>
    obtain ⟨m, s, v⟩ := w
    simp only [applyWrites] at h₁ h₂
    cases hw₁ : writeBone m₁ m s v with
    | none => simp [hw₁] at h₁
    | some a₁ =>
      cases hw₂ : writeBone m₂ m s v with
      | none => simp [hw₂] at h₂
      | some a₂ =>
        rw [hw₁] at h₁
        rw [hw₂] at h₂
        by_cases hlater : ∃ w ∈ ws, w.1 = mesh ∧ w.2.1 = slot
        · exact ih h₁ h₂ hlater
        · have hu : ∀ w ∈ ws, ¬ (w.1 = mesh ∧ w.2.1 = slot) := fun w hw hc =>
            hlater ⟨w, hw, hc⟩
          have hhead : mesh = m ∧ slot = s := by
            obtain ⟨w, hw, hc⟩ := ht
            rcases List.mem_cons.1 hw with e | e
            · subst e
              exact ⟨hc.1.symm, hc.2.symm⟩
            · exact absurd hc (hu w e)
          rw [readBone_applyWrites_of_untouched h₁ mesh slot hu,
            readBone_applyWrites_of_untouched h₂ mesh slot hu, readBone_writeBone hw₁,
            readBone_writeBone hw₂, if_pos hhead, if_pos hhead]

end RefreshLemmas

section RefreshTheorems

variable {T F V Q M : Type} [LinearOrder T] [Sub T] [Div T] [Mul T] [Mul M] [One M]

/-- For an animation of the catalog, `calculate_animation` performs one
assignment per bone binding, in pre-order. -/
theorem calculate_animation_eq_applyWrites (g : Glm T F V Q M) (h : MeshHierarchy T V Q M)
    (animation_id : Nat) (time_seconds : T) (hid : animation_id < h.animations.length)
    (hne : animation_id ≠ NONE_ANIMATION) (r : List (ModelInfo M))
    (hr : applyWrites ((allBones h.root_node).map fun b =>
      (b.mesh, b.slot,
        acc g animation_id (time_seconds * (h.animations[animation_id]).2.1)
          b.position.ancestors b.position.node * b.offset)) h.meshes = some r) :
    h.calculate_animation g animation_id time_seconds = .ok r := by
  have hrun := animate_eq_applyWrites g animation_id
    (time_seconds * (h.animations[animation_id]).2.1) h.root_node [] h.meshes
  simp only [contributions, product, productFrom, List.foldl_nil, List.any_nil] at hrun
  rw [writes_eq_map_allBones] at hrun
  unfold MeshHierarchy.calculate_animation
  rw [if_neg hne, dif_neg (not_le.2 hid)]
  simp only
  rw [hrun, hr]

/-- C22, as amended: two runs of `calculate_animation` on the same node tree,
catalog, valid animation id and time, from mesh lists of any prior contents,
both return; they leave the same value in every bone slot that some bone
binding of the tree targets, and a slot that no binding targets keeps the
contents it had before the run.  When the two mesh lists have the same shape
and every bone slot is targeted by a binding, the two runs end with identical
`bone_transforms` arrays. -/
theorem calculate_animation_refreshes_bound_slots (g : Glm T F V Q M)
    (root : MeshHierarchyNode T V Q M) (animations : List (String × T × T))
    (meshes₁ meshes₂ : List (ModelInfo M)) (animation_id : Nat) (time_seconds : T)
    (hid : animation_id < animations.length) (hne : animation_id ≠ NONE_ANIMATION)
    (hb₁ : BonesInBounds meshes₁ root) (hb₂ : BonesInBounds meshes₂ root) :
    ∃ r₁ r₂,
      (MeshHierarchy.mk meshes₁ animations root).calculate_animation g animation_id
          time_seconds = .ok r₁ ∧
        (MeshHierarchy.mk meshes₂ animations root).calculate_animation g animation_id
          time_seconds = .ok r₂ ∧
        (∀ b ∈ allBones root, readBone r₁ b.mesh b.slot = readBone r₂ b.mesh b.slot) ∧
        (∀ mesh slot, (∀ b ∈ allBones root, ¬ (b.mesh = mesh ∧ b.slot = slot)) →
          readBone r₁ mesh slot = readBone meshes₁ mesh slot ∧
            readBone r₂ mesh slot = readBone meshes₂ mesh slot) ∧
        (meshes₁.map (fun m => m.bone_transforms.length) =
            meshes₂.map (fun m => m.bone_transforms.length) →
          (∀ mesh slot, (readBone meshes₁ mesh slot).isSome = true →
            ∃ b ∈ allBones root, b.mesh = mesh ∧ b.slot = slot) →
          r₁ = r₂) := by
  have hbound : ∀ meshes : List (ModelInfo M), BonesInBounds meshes root →
      ∃ r, applyWrites ((allBones root).map fun b =>
        (b.mesh, b.slot,
          acc g animation_id (time_seconds * (animations[animation_id]).2.1)
            b.position.ancestors b.position.node * b.offset)) meshes = some r := by
    intro meshes hb
    apply applyWrites_some
    intro w hw
    obtain ⟨c, hc, rfl⟩ := List.mem_map.1 hw
    exact (readBone_isSome_iff _ _ _).1 (hb c hc)
  obtain ⟨r₁, hr₁⟩ := hbound meshes₁ hb₁
  obtain ⟨r₂, hr₂⟩ := hbound meshes₂ hb₂
  have hagree : ∀ b ∈ allBones root, readBone r₁ b.mesh b.slot = readBone r₂ b.mesh b.slot := by
    intro b hbm
    exact readBone_applyWrites_agree hr₁ hr₂ b.mesh b.slot
      ⟨_, List.mem_map.2 ⟨b, hbm, rfl⟩, rfl, rfl⟩
  have hkeep : ∀ (meshes r : List (ModelInfo M)),
      applyWrites ((allBones root).map fun b =>
        (b.mesh, b.slot,
          acc g animation_id (time_seconds * (animations[animation_id]).2.1)
            b.position.ancestors b.position.node * b.offset)) meshes = some r →
      ∀ mesh slot, (∀ b ∈ allBones root, ¬ (b.mesh = mesh ∧ b.slot = slot)) →
        readBone r mesh slot = readBone meshes mesh slot := by
    intro meshes r hr mesh slot hfree
    apply readBone_applyWrites_of_untouched hr
    intro w hw
    obtain ⟨c, hc, rfl⟩ := List.mem_map.1 hw
    exact hfree c hc
  refine ⟨r₁, r₂,
    calculate_animation_eq_applyWrites g ⟨meshes₁, animations, root⟩ animation_id
      time_seconds hid hne r₁ hr₁,
    calculate_animation_eq_applyWrites g ⟨meshes₂, animations, root⟩ animation_id
      time_seconds hid hne r₂ hr₂, hagree,
    fun mesh slot hfree => ⟨hkeep meshes₁ r₁ hr₁ mesh slot hfree,
      hkeep meshes₂ r₂ hr₂ mesh slot hfree⟩, ?_⟩
  intro hshape hall
  apply meshes_ext
  · rw [applyWrites_shape hr₁, applyWrites_shape hr₂, hshape]
  · intro mesh slot
    by_cases hs : (readBone meshes₁ mesh slot).isSome = true
    · obtain ⟨b, hbm, rfl, rfl⟩ := hall mesh slot hs
      exact hagree b hbm
    · have hs₂ : (readBone meshes₂ mesh slot).isSome = false := by
        have e : (readBone meshes₁ mesh slot).isSome = (readBone meshes₂ mesh slot).isSome := by
          have hn := congrArg (fun l => l[mesh]?) hshape
          simp only [List.getElem?_map] at hn
          unfold readBone
          cases h₁ : meshes₁[mesh]? with
          | none =>
            cases h₂ : meshes₂[mesh]? with
            | none => rfl
            | some b => simp [h₁, h₂] at hn
          | some a =>
            cases h₂ : meshes₂[mesh]? with
            | none => simp [h₁, h₂] at hn
            | some b =>
              simp only [h₁, h₂, Option.map_some', Option.some.injEq] at hn
              by_cases hlt : slot < a.bone_transforms.length
              · have hlt₂ : slot < b.bone_transforms.length := hn ▸ hlt
                simp [hlt, hlt₂]
              · have hlt₂ : ¬ slot < b.bone_transforms.length := hn ▸ hlt
                simp [List.getElem?_eq_none (not_lt.1 hlt),
                  List.getElem?_eq_none (not_lt.1 hlt₂)]
        rw [← e]
        simpa using hs
      have e₁ := readBone_isSome_applyWrites hr₁ mesh slot
      have e₂ := readBone_isSome_applyWrites hr₂ mesh slot
      rw [Bool.not_eq_true] at hs
      rw [hs] at e₁
      rw [hs₂] at e₂
      have n₁ : readBone r₁ mesh slot = none := by
        cases hx : readBone r₁ mesh slot with
        | none => rfl
        | some x => simp [hx] at e₁
      have n₂ : readBone r₂ mesh slot = none := by
        cases hx : readBone r₂ mesh slot with
        | none => rfl
        | some x => simp [hx] at e₂
      rw [n₁, n₂]

/-- A worked instance of the amended C22: the two demo hierarchies with three
bone slots, of which slots 0 and 1 are bound. -/
theorem calculate_animation_refreshes_bound_slots_witness :
    (0 < demoStaleFirst.animations.length ∧ (0 : Nat) ≠ NONE_ANIMATION ∧
        BonesInBounds demoStaleFirst.meshes demoRoot ∧
        BonesInBounds demoStaleSecond.meshes demoRoot) ∧
      ∃ r₁ r₂,
        demoStaleFirst.calculate_animation demoGlm 0 3 = .ok r₁ ∧
          demoStaleSecond.calculate_animation demoGlm 0 3 = .ok r₂ ∧
          (∀ b ∈ allBones demoRoot, readBone r₁ b.mesh b.slot = readBone r₂ b.mesh b.slot) ∧
          (∀ mesh slot, (∀ b ∈ allBones demoRoot, ¬ (b.mesh = mesh ∧ b.slot = slot)) →
            readBone r₁ mesh slot = readBone demoStaleFirst.meshes mesh slot ∧
              readBone r₂ mesh slot = readBone demoStaleSecond.meshes mesh slot) ∧
          (demoStaleFirst.meshes.map (fun m => m.bone_transforms.length) =
              demoStaleSecond.meshes.map (fun m => m.bone_transforms.length) →
            (∀ mesh slot, (readBone demoStaleFirst.meshes mesh slot).isSome = true →
              ∃ b ∈ allBones demoRoot, b.mesh = mesh ∧ b.slot = slot) →
            r₁ = r₂) :=
  ⟨⟨by decide, by decide, by decide, by decide⟩,
    calculate_animation_refreshes_bound_slots demoGlm demoRoot [("walk", 2, 10)]
      demoStaleFirst.meshes demoStaleSecond.meshes 0 3 (by decide) (by decide) (by decide)
      (by decide)⟩

/-- C22 fails as stated: the two demo hierarchies share the node tree and the
catalog and differ only in the prior contents of the bone slots; after
`calculate_animation` for animation 0 at time 3 slot 2, which no node binds,
still holds the prior contents, so the two runs end with different arrays. -/
theorem calculate_animation_refresh_counterexample :
    demoStaleFirst.root_node = demoStaleSecond.root_node ∧
      demoStaleFirst.animations = demoStaleSecond.animations ∧
      demoStaleFirst.meshes.map (fun m => m.bone_transforms.length) =
        demoStaleSecond.meshes.map (fun m => m.bone_transforms.length) ∧
      demoStaleFirst.calculate_animation demoGlm 0 3 =
        .ok [⟨[⟨[5, 15]⟩, ⟨[2, 3, 4, 105, 206, 14]⟩, ⟨[9]⟩]⟩] ∧
      demoStaleSecond.calculate_animation demoGlm 0 3 =
        .ok [⟨[⟨[5, 15]⟩, ⟨[2, 3, 4, 105, 206, 14]⟩, ⟨[90]⟩]⟩] ∧
      demoStaleFirst.calculate_animation demoGlm 0 3 ≠
        demoStaleSecond.calculate_animation demoGlm 0 3 := by
  refine ⟨rfl, rfl, by decide, by decide, by decide, by decide⟩

end RefreshTheorems

/-! ## Agreement of the two tree walks -/

section AgreementLemmas

variable {T F V Q M : Type} [LinearOrder T] [Sub T] [Div T] [Mul M] [One M]

/-- A node without a curve, bone-bound itself or below a bone-bound node,
contributes its bind transformation. -/
theorem contributions_eq_bind_of_no_curve_root (g : Glm T F V Q M) (animation_id : Nat)
    (time_ticks : T) (n : MeshHierarchyNode T V Q M)
    (above : List (MeshHierarchyNode T V Q M))
    (hsk : above.any hasBones = true ∨ hasBones n = true)
    (hab : contributions g animation_id time_ticks [] above =
      above.map MeshHierarchyNode.transformation)
    (hc : curveFor n animation_id = none) :
    contributions g animation_id time_ticks [] (above ++ [n]) =
      (above ++ [n]).map MeshHierarchyNode.transformation := by
  have hin : inSkeleton above n = true := by
    unfold inSkeleton
    rcases hsk with h | h
    · rw [h, Bool.or_true]
    · rw [h, Bool.true_or]
  simp only [contributions_append, hab, contributions, contribution, hc, hin, if_true,
    List.map_append, List.map_cons, List.map_nil, List.nil_append]

/-- Below a bone-bound node and without curves, the contributions along the
path to a position are the bind transformations. -/
theorem contributions_eq_bind_of_no_curve (g : Glm T F V Q M) (animation_id : Nat)
    (time_ticks : T) :
    ∀ (path : List Nat) (n : MeshHierarchyNode T V Q M)
      (above : List (MeshHierarchyNode T V Q M)) (p : Position T V Q M),
      positionAt n path = some p →
      (above.any hasBones = true ∨ hasBones n = true) →
      contributions g animation_id time_ticks [] above =
        above.map MeshHierarchyNode.transformation →
      (∀ q ∈ preorder n, curveFor q.node animation_id = none) →
      contributions g animation_id time_ticks [] ((above ++ p.ancestors) ++ [p.node]) =
        ((above ++ p.ancestors) ++ [p.node]).map MeshHierarchyNode.transformation := by
  intro path
  induction path with
  | nil =>
    intro n above p hp hsk hab hcurve
    simp only [positionAt, Option.some.injEq] at hp
    subst hp
    rw [List.append_nil]
    exact contributions_eq_bind_of_no_curve_root g animation_id time_ticks n above hsk hab
      (hcurve ⟨[], [], n⟩ (mem_preorder_of_positionAt [] n _ rfl))
  | cons i rest ih =>
    intro n above p hp hsk hab hcurve
    simp only [positionAt] at hp
    cases hc : n.children[i]? with
    | none => simp [hc] at hp
    | some c =>
      rw [hc] at hp
      simp only [Option.map_eq_some'] at hp
      obtain ⟨q, hq, rfl⟩ := hp
      have hroot := contributions_eq_bind_of_no_curve_root g animation_id time_ticks n above
        hsk hab (hcurve ⟨[], [], n⟩ (mem_preorder_of_positionAt [] n _ rfl))
      have hsk' : (above ++ [n]).any hasBones = true ∨ hasBones c = true := by
        left
        rw [List.any_append]
        rcases hsk with h | h
        · rw [h, Bool.true_or]
        · simp [h]
      have hcurve' : ∀ q' ∈ preorder c, curveFor q'.node animation_id = none := by
        intro q' hq'
        have hm := mem_preorderChildren n n.children 0 i c q' hc hq'
        rw [Nat.zero_add] at hm
        have := hcurve (q'.under n i) (by
          rw [preorder_eq]
          exact List.mem_cons_of_mem _ hm)
        exact this
      have := ih c (above ++ [n]) q hq hsk' hroot hcurve'
      simpa [Position.under] using this

end AgreementLemmas

section AgreementTheorems

variable {T F V Q M σ : Type} [LinearOrder T] [Sub T] [Div T] [Mul T] [Mul M] [One M]

/-- C30: in a hierarchy whose root node owns a bone binding, for an animation
of the catalog for which no node has a curve, the accumulated transform of
`calculate_animation` at every position of the tree is the product of the
bind transformations from the root to it; `visit_nodes` passes these same
transforms to its callback, position by position; and `calculate_animation`
returns, having assigned for every bone binding, in pre-order, that product
times the offset, so that the slot of a last binding holds it. -/
theorem calculate_animation_agrees_with_visit_nodes (g : Glm T F V Q M)
    (h : MeshHierarchy T V Q M) (animation_id : Nat) (time_seconds : T)
    (fn : MeshHierarchyNode T V Q M → M → σ → σ) (s : σ)
    (hid : animation_id < h.animations.length) (hne : animation_id ≠ NONE_ANIMATION)
    (hb : BonesInBounds h.meshes h.root_node) (hroot : hasBones h.root_node = true)
    (hcurve : ∀ p ∈ preorder h.root_node, curveFor p.node animation_id = none) :
    (∀ p ∈ preorder h.root_node,
        acc g animation_id (time_seconds * (h.animations[animation_id]).2.1) p.ancestors
          p.node = bindProduct p.ancestors p.node) ∧
      h.visit_nodes fn s =
        (preorder h.root_node).foldl
          (fun s p => fn p.node
            (acc g animation_id (time_seconds * (h.animations[animation_id]).2.1)
              p.ancestors p.node) s) s ∧
      ∃ meshes, h.calculate_animation g animation_id time_seconds = .ok meshes ∧
        applyWrites ((allBones h.root_node).map fun b =>
          (b.mesh, b.slot, bindProduct b.position.ancestors b.position.node * b.offset))
          h.meshes = some meshes ∧
        ∀ k b, LastFor (allBones h.root_node) k b →
          readBone meshes b.mesh b.slot =
            some (bindProduct b.position.ancestors b.position.node * b.offset) := by
  have hacc : ∀ p ∈ preorder h.root_node,
      acc g animation_id (time_seconds * (h.animations[animation_id]).2.1) p.ancestors
        p.node = bindProduct p.ancestors p.node := by
    intro p hp
    have := contributions_eq_bind_of_no_curve g animation_id
      (time_seconds * (h.animations[animation_id]).2.1) p.path h.root_node [] p
      (positionAt_of_mem_preorder _ p hp) (Or.inr hroot) rfl hcurve
    rw [List.nil_append] at this
    unfold acc bindProduct
    rw [this]
  have hbones : ∀ b ∈ allBones h.root_node, b.position ∈ preorder h.root_node := by
    intro b hbm
    simp only [allBones, List.mem_flatMap, bonesAt, List.mem_map] at hbm
    obtain ⟨p, hp, x, -, rfl⟩ := hbm
    exact hp
  have hwrites : ((allBones h.root_node).map fun b =>
      (b.mesh, b.slot,
        acc g animation_id (time_seconds * (h.animations[animation_id]).2.1)
          b.position.ancestors b.position.node * b.offset)) =
      (allBones h.root_node).map fun b =>
        (b.mesh, b.slot, bindProduct b.position.ancestors b.position.node * b.offset) := by
    apply List.map_congr_left
    intro b hbm
    rw [hacc b.position (hbones b hbm)]
  refine ⟨hacc, ?_, ?_⟩
  · have hv := visit_eq_foldl fn h.root_node [] s
    simp only [product, productFrom, List.map_nil, List.foldl_nil, List.nil_append] at hv
    unfold MeshHierarchy.visit_nodes
    rw [hv]
    apply List.foldl_ext
    intro s p hp
    rw [hacc p hp]
  · obtain ⟨r, hr⟩ := applyWrites_some
      ((allBones h.root_node).map fun b =>
        (b.mesh, b.slot,
          acc g animation_id (time_seconds * (h.animations[animation_id]).2.1)
            b.position.ancestors b.position.node * b.offset)) h.meshes (by
        intro w hw
        obtain ⟨c, hc, rfl⟩ := List.mem_map.1 hw
        exact (readBone_isSome_iff _ _ _).1 (hb c hc))
    have hok := calculate_animation_eq_applyWrites g h animation_id time_seconds hid hne r hr
    refine ⟨r, hok, hwrites ▸ hr, ?_⟩
    intro k b hlast
    obtain ⟨r', hr', hread⟩ := calculate_animation_last_binding g h animation_id
      time_seconds hid hne hb k b hlast
    rw [hok] at hr'
    cases hr'
    rw [hread, hacc b.position (hbones b (List.getElem?_mem hlast.1))]

/-- A worked instance of C30: the hierarchy `demoBindPose` and animation 1,
for which no node has a curve; slot 1 of mesh 0, bound by `demoC`, receives
the bind transformations of `demoA`, `demoB` and `demoC` times the offset. -/
theorem calculate_animation_agrees_with_visit_nodes_witness :
    (1 < demoBindPose.animations.length ∧ (1 : Nat) ≠ NONE_ANIMATION ∧
        BonesInBounds demoBindPose.meshes demoBindPose.root_node ∧
        hasBones demoBindPose.root_node = true ∧
        ∀ p ∈ preorder demoBindPose.root_node, curveFor p.node 1 = none) ∧
      demoBindPose.visit_nodes demoRecord [] = [⟨[2]⟩, ⟨[2, 3]⟩, ⟨[2, 3, 4]⟩] ∧
      demoBindPose.calculate_animation demoGlm 1 3 =
        .ok [⟨[⟨[2, 12]⟩, ⟨[2, 3, 4, 14]⟩]⟩] ∧
      ((∀ p ∈ preorder demoBindPose.root_node,
          acc demoGlm 1 (3 * (demoBindPose.animations[1]).2.1) p.ancestors p.node =
            bindProduct p.ancestors p.node) ∧
        demoBindPose.visit_nodes demoRecord [] =
          (preorder demoBindPose.root_node).foldl
            (fun s p => demoRecord p.node
              (acc demoGlm 1 (3 * (demoBindPose.animations[1]).2.1) p.ancestors p.node) s)
            [] ∧
        ∃ meshes, demoBindPose.calculate_animation demoGlm 1 3 = .ok meshes ∧
          applyWrites ((allBones demoBindPose.root_node).map fun b =>
            (b.mesh, b.slot, bindProduct b.position.ancestors b.position.node * b.offset))
            demoBindPose.meshes = some meshes ∧
          ∀ k b, LastFor (allBones demoBindPose.root_node) k b →
            readBone meshes b.mesh b.slot =
              some (bindProduct b.position.ancestors b.position.node * b.offset)) := by
  have hcurve : ∀ p ∈ preorder demoBindPose.root_node, curveFor p.node 1 = none := by
    intro p hp
    have hlist : preorder demoBindPose.root_node =
        [⟨[], [], demoA⟩, ⟨[0], [demoA], demoB⟩, ⟨[0, 0], [demoA, demoB], demoC⟩] := rfl
    rw [hlist] at hp
    simp only [List.mem_cons, List.mem_singleton, List.not_mem_nil, or_false] at hp
    rcases hp with rfl | rfl | rfl <;> rfl
  exact ⟨⟨by decide, by decide, by decide, rfl, hcurve⟩, rfl, by decide,
    calculate_animation_agrees_with_visit_nodes demoGlm demoBindPose 1 3 demoRecord []
      (by decide) (by decide) (by decide) rfl hcurve⟩

end AgreementTheorems

/-! ## The animation id of an active entity -/

section SyncTheorems

/-- C28 fails in the code: from the empty `Animator`, `start` with
animation 0 followed by `resume` (or `update_param`) with animation 1 leaves
the entity in the active set with stored parameters for animation 1 while the
entity's own animation id, which selects its duration and its pose, is still
0; the duration `animate` then uses is the 5 s of animation 0.  A `resume` of
an entity that is not in the active set does copy the id to the entity. -/
theorem resume_leaves_entity_animation_id :
    demoTwoClips.animated_entities = [] ∧
      ((demoTwoClips.run demoFmod
          [.start 0 ⟨0, false, false, 1⟩, .resume 0 ⟨1, false, false, 1⟩]).is_animating 0 =
        some ⟨1, false, false, 1⟩ ∧
        ((demoTwoClips.run demoFmod
          [.start 0 ⟨0, false, false, 1⟩, .resume 0 ⟨1, false, false, 1⟩]).entities
            0).animation_id = 0 ∧
        ((demoTwoClips.run demoFmod
          [.start 0 ⟨0, false, false, 1⟩, .resume 0 ⟨1, false, false, 1⟩]).entities
            0).get_animation_duration_seconds = 5 ∧
        ¬ IdsInSync (demoTwoClips.run demoFmod
          [.start 0 ⟨0, false, false, 1⟩, .resume 0 ⟨1, false, false, 1⟩])) ∧
      ((demoTwoClips.run demoFmod
          [.start 0 ⟨0, false, false, 1⟩, .update_param 0 ⟨1, false, false, 1⟩]).is_animating
            0 = some ⟨1, false, false, 1⟩ ∧
        ((demoTwoClips.run demoFmod
          [.start 0 ⟨0, false, false, 1⟩, .update_param 0 ⟨1, false, false, 1⟩]).entities
            0).animation_id = 0 ∧
        ¬ IdsInSync (demoTwoClips.run demoFmod
          [.start 0 ⟨0, false, false, 1⟩, .update_param 0 ⟨1, false, false, 1⟩])) ∧
      ((demoTwoClips.run demoFmod [.resume 0 ⟨1, false, false, 1⟩]).entities 0).animation_id =
        1 ∧
      IdsInSync (demoTwoClips.run demoFmod [.resume 0 ⟨1, false, false, 1⟩]) := by
  refine ⟨rfl, ⟨by decide, by decide, by decide, by decide⟩, ⟨by decide, by decide, by decide⟩,
    by decide, by decide⟩

end SyncTheorems

/-! ## Bone bindings of a converted scene -/

section ImportTheorems

/-- C27 fails in the code: the conversion accepts a scene whose mesh 0 has no
triangles and whose mesh 1 has a bone; the binding placed on the node keeps
the scene's mesh index 1 while the hierarchy has a single mesh, although the
node's own `meshes` entry is remapped to 0.  It also accepts a mesh with two
bones of one name: the binding of the second bone has slot 1 while
`bone_transforms` has one entry.  In both hierarchies a binding is out of
bounds and `calculate_animation` indexes out of range. -/
theorem load_hierarchy_bindings_out_of_range :
    (load_hierarchy_from_scene id demoSceneSkipped = .ok demoLoadedSkipped ∧
        demoLoadedSkipped.meshes.length = 1 ∧
        demoLoadedSkipped.root_node.meshes = [0] ∧
        demoLoadedSkipped.root_node.bones = [(1, 0, ⟨[14]⟩)] ∧
        ¬ BonesInBounds demoLoadedSkipped.meshes demoLoadedSkipped.root_node ∧
        demoLoadedSkipped.calculate_animation demoGlm 0 3 = .out_of_range) ∧
      (load_hierarchy_from_scene id demoSceneRepeated = .ok demoLoadedRepeated ∧
        demoLoadedRepeated.meshes.map (fun m => m.bone_transforms.length) = [1] ∧
        demoLoadedRepeated.root_node.bones = [(0, 0, ⟨[14]⟩), (0, 1, ⟨[15]⟩)] ∧
        ¬ BonesInBounds demoLoadedRepeated.meshes demoLoadedRepeated.root_node ∧
        demoLoadedRepeated.calculate_animation demoGlm 0 3 = .out_of_range) := by
  refine ⟨⟨rfl, rfl, rfl, rfl, by decide, by decide⟩, ⟨rfl, rfl, rfl, by decide, by decide⟩⟩

end ImportTheorems

/-! ## Lemmas on binary floating point -/

section IeeeLemmas

variable {prec emax : Nat}

theorem ieee_le_iff (a b : Ieee prec emax) :
    a ≤ b ↔ a.rank < b.rank ∨ (a.rank = b.rank ∧ a.val ≤ b.val) :=
  Prod.Lex.le_iff _ _

theorem ieee_lt_iff (a b : Ieee prec emax) :
    a < b ↔ a.rank < b.rank ∨ (a.rank = b.rank ∧ a.val < b.val) :=
  Prod.Lex.lt_iff _ _

/-- The values not below zero are the positive infinity and the finite
values that denote a non-negative rational. -/
theorem ieee_zero_le_iff (x : Ieee prec emax) :
    0 ≤ x ↔ x = .pinf ∨ ∃ q, x = .fin q ∧ 0 ≤ q := by
  rw [ieee_le_iff]
  show (Ieee.fin 0 : Ieee prec emax).rank < x.rank ∨
    ((Ieee.fin 0 : Ieee prec emax).rank = x.rank ∧ (Ieee.fin 0 : Ieee prec emax).val ≤ x.val) ↔ _
  cases x <;> simp [Ieee.rank, Ieee.val]

theorem ieee_zero_lt_iff (x : Ieee prec emax) :
    0 < x ↔ x = .pinf ∨ ∃ q, x = .fin q ∧ 0 < q := by
  rw [ieee_lt_iff]
  show (Ieee.fin 0 : Ieee prec emax).rank < x.rank ∨
    ((Ieee.fin 0 : Ieee prec emax).rank = x.rank ∧ (Ieee.fin 0 : Ieee prec emax).val < x.val) ↔ _
  cases x <;> simp [Ieee.rank, Ieee.val]

theorem ieee_fin_le_fin (a b : ℚ) : (Ieee.fin a : Ieee prec emax) ≤ .fin b ↔ a ≤ b := by
  rw [ieee_le_iff]
  simp [Ieee.rank, Ieee.val]

theorem ieee_fin_lt_fin (a b : ℚ) : (Ieee.fin a : Ieee prec emax) < .fin b ↔ a < b := by
  rw [ieee_lt_iff]
  simp [Ieee.rank, Ieee.val]

theorem roundHalfEven_nonneg (n : Int) (d : Nat) (hn : 0 ≤ n) : 0 ≤ Ieee.roundHalfEven n d := by
  have hq : 0 ≤ n / (d : Int) := Int.ediv_nonneg hn (Int.natCast_nonneg d)
  unfold Ieee.roundHalfEven
  simp only
  split_ifs <;> omega

theorem scale2_nonneg (m k : Int) (hm : 0 ≤ m) : 0 ≤ Ieee.scale2 m k := by
  unfold Ieee.scale2
  split_ifs
  · exact Int.cast_nonneg.2 (mul_nonneg hm (Int.natCast_nonneg _))
  · exact Rat.mkRat_nonneg hm _

/-- Rounding keeps a non-negative result non-negative. -/
theorem round_nonneg (x : ℚ) (hx : 0 ≤ x) : (0 : Ieee prec emax) ≤ Ieee.round x := by
  rw [ieee_zero_le_iff]
  unfold Ieee.round
  by_cases h0 : x = 0
  · rw [if_pos h0]
    exact Or.inr ⟨0, rfl, le_refl _⟩
  · rw [if_neg h0]
    have hnum : 0 ≤ x.num := Rat.num_nonneg.2 hx
    simp only
    have hr : ∀ m k : Int, 0 ≤ m →
        (if (2 : ℚ) ^ emax ≤ Ieee.scale2 m k then (Ieee.pinf : Ieee prec emax)
          else if Ieee.scale2 m k ≤ -(2 : ℚ) ^ emax then .ninf
          else .fin (Ieee.scale2 m k)) = .pinf ∨
        ∃ q, (if (2 : ℚ) ^ emax ≤ Ieee.scale2 m k then (Ieee.pinf : Ieee prec emax)
          else if Ieee.scale2 m k ≤ -(2 : ℚ) ^ emax then .ninf
          else .fin (Ieee.scale2 m k)) = .fin q ∧ 0 ≤ q := by
      intro m k hm
      have hs := scale2_nonneg m k hm
      by_cases h1 : (2 : ℚ) ^ emax ≤ Ieee.scale2 m k
      · rw [if_pos h1]
        exact Or.inl rfl
      · rw [if_neg h1]
        have h2 : ¬ Ieee.scale2 m k ≤ -(2 : ℚ) ^ emax := by
          have : (0 : ℚ) < 2 ^ emax := by positivity
          intro h
          linarith
        rw [if_neg h2]
        exact Or.inr ⟨_, rfl, hs⟩
    apply hr
    split_ifs
    · exact roundHalfEven_nonneg _ _ hnum
    · exact roundHalfEven_nonneg _ _ (mul_nonneg hnum (Int.natCast_nonneg _))

/-- A sum of two values not below zero is not below zero. -/
theorem ieee_add_nonneg (a b : Ieee prec emax) (ha : 0 ≤ a) (hb : 0 ≤ b) : 0 ≤ a + b := by
  rcases (ieee_zero_le_iff a).1 ha with rfl | ⟨x, rfl, hx⟩ <;>
    rcases (ieee_zero_le_iff b).1 hb with rfl | ⟨y, rfl, hy⟩
  · exact (ieee_zero_le_iff _).2 (Or.inl rfl)
  · exact (ieee_zero_le_iff _).2 (Or.inl rfl)
  · exact (ieee_zero_le_iff _).2 (Or.inl rfl)
  · exact round_nonneg (x + y) (add_nonneg hx hy)

/-- A product of two values not below zero is NaN or not below zero. -/
theorem ieee_mul_nonneg (a b : Ieee prec emax) (ha : 0 ≤ a) (hb : 0 ≤ b) :
    a * b = .nan ∨ 0 ≤ a * b := by
  rcases (ieee_zero_le_iff a).1 ha with rfl | ⟨x, rfl, hx⟩ <;>
    rcases (ieee_zero_le_iff b).1 hb with rfl | ⟨y, rfl, hy⟩
  · exact Or.inr ((ieee_zero_le_iff _).2 (Or.inl rfl))
  · show Ieee.mul .pinf (.fin y) = .nan ∨ 0 ≤ Ieee.mul .pinf (.fin y)
    unfold Ieee.mul
    by_cases h0 : y = 0
    · simp [h0]
    · have : 0 < y := lt_of_le_of_ne hy (Ne.symm h0)
      simp only [h0, this, if_false, if_true]
      exact Or.inr ((ieee_zero_le_iff _).2 (Or.inl rfl))
  · show Ieee.mul (.fin x) .pinf = .nan ∨ 0 ≤ Ieee.mul (.fin x) .pinf
    unfold Ieee.mul
    by_cases h0 : x = 0
    · simp [h0]
    · have : 0 < x := lt_of_le_of_ne hx (Ne.symm h0)
      simp only [h0, this, if_false, if_true]
      exact Or.inr ((ieee_zero_le_iff _).2 (Or.inl rfl))
  · exact Or.inr (round_nonneg (x * y) (mul_nonneg hx hy))

theorem ieee_add_nan (c : Ieee prec emax) : c + .nan = .nan := by
  show Ieee.add c .nan = .nan
  cases c <;> rfl

end IeeeLemmas

/-! ## The clock stays in range -/

section RangeTheorems

/-- The clock of an advanced entity stays between 0 and the duration when
the advanced clock is not negative and the result of `fmod`, where the clock
wraps, lies between 0 and the duration.  No law of arithmetic is used. -/
theorem advance_clock_in_range {T : Type} [LinearOrder T] [Zero T] [Add T] [Mul T] [Div T]
    (fmod : T → T → T) (dt : T) (p : AnimationParameters T) (entity : AnimatedEntity T)
    (hc0 : 0 ≤ entity.animation_time_seconds)
    (hc1 : entity.animation_time_seconds ≤ entity.get_animation_duration_seconds)
    (hadd : p.paused = false → 0 ≤ entity.animation_time_seconds + dt * p.speed)
    (hwrap : p.paused = false → p.loop = true → 0 < entity.get_animation_duration_seconds →
      entity.get_animation_duration_seconds < entity.animation_time_seconds + dt * p.speed →
      0 ≤ fmod (entity.animation_time_seconds + dt * p.speed)
          entity.get_animation_duration_seconds ∧
        fmod (entity.animation_time_seconds + dt * p.speed)
          entity.get_animation_duration_seconds ≤ entity.get_animation_duration_seconds) :
    (advance fmod dt p entity).1.animations = entity.animations ∧
      (advance fmod dt p entity).1.animation_id = entity.animation_id ∧
      0 ≤ (advance fmod dt p entity).1.animation_time_seconds ∧
      (advance fmod dt p entity).1.animation_time_seconds ≤
        entity.get_animation_duration_seconds := by
  by_cases hpa : p.paused = true
  · simp [advance, hpa, hc0, hc1]
  · have hpf : p.paused = false := by simpa using hpa
    by_cases ht : entity.animation_time_seconds + dt * p.speed >
        entity.get_animation_duration_seconds
    · by_cases hl : (p.loop && decide (entity.get_animation_duration_seconds > 0)) = true
      · have hd : 0 < entity.get_animation_duration_seconds := by
          have := (Bool.and_eq_true_iff.1 hl).2
          exact of_decide_eq_true this
        have hloop : p.loop = true := (Bool.and_eq_true_iff.1 hl).1
        have e : advance fmod dt p entity =
            ({ entity with
                animation_time_seconds :=
                  fmod (entity.animation_time_seconds + dt * p.speed)
                    entity.get_animation_duration_seconds }, false) := by
          simp only [advance, hpf]
          rw [if_neg Bool.false_ne_true, if_pos ht, if_pos hl]
        rw [e]
        exact ⟨rfl, rfl, (hwrap hpf hloop hd ht).1, (hwrap hpf hloop hd ht).2⟩
      · have e : advance fmod dt p entity =
            ({ entity with
                animation_time_seconds := entity.get_animation_duration_seconds }, true) := by
          simp only [advance, hpf]
          rw [if_neg Bool.false_ne_true, if_pos ht, if_neg hl]
        rw [e]
        exact ⟨rfl, rfl, le_trans hc0 hc1, le_refl _⟩
    · have e : advance fmod dt p entity =
          ({ entity with
              animation_time_seconds := entity.animation_time_seconds + dt * p.speed },
            false) := by
        simp only [advance, hpf]
        rw [if_neg Bool.false_ne_true, if_neg ht]
      rw [e]
      exact ⟨rfl, rfl, hadd hpf, not_lt.1 ht⟩

variable {prec emax : Nat}

/-- The result of `std::fmod` for a finite non-negative first argument that
exceeds a positive second argument lies between 0 and the second argument. -/
theorem ieee_fmod_range (x d : Ieee prec emax) (hx : 0 ≤ x) (hfin : x ≠ .pinf)
    (hd : 0 < d) (hlt : d < x) : 0 ≤ Ieee.fmod x d ∧ Ieee.fmod x d ≤ d := by
  rcases (ieee_zero_le_iff x).1 hx with rfl | ⟨a, rfl, ha⟩
  · exact absurd rfl hfin
  · rcases (ieee_zero_lt_iff d).1 hd with rfl | ⟨b, rfl, hb⟩
    · rw [ieee_lt_iff] at hlt
      simp [Ieee.rank, Ieee.val] at hlt
    · have hb0 : b ≠ 0 := ne_of_gt hb
      have hr := fmodTrunc_range a b ha hb
      have e : Ieee.fmod (.fin a : Ieee prec emax) (.fin b) = .fin (fmodTrunc a b) := by
        simp [Ieee.fmod, hb0]
      rw [e]
      exact ⟨(ieee_zero_le_iff _).2 (Or.inr ⟨_, rfl, hr.1⟩), (ieee_fin_le_fin _ _).2 hr.2⟩

/-- C29, as amended: in `double` arithmetic, for `dt ≥ 0` and an active
entity, paused or not, with `speed ≥ 0` whose clock lies in
`[0, duration_seconds]`, the clock lies in `[0, duration_seconds]` again
after `animate(dt)`, whichever branch is taken, provided that for an
unpaused entity the advanced clock `c + dt * speed` is not NaN and, where it
is wrapped (the entity loops and the advanced clock exceeds a positive
duration), is not infinite.  The duration is the one
`get_animation_duration_seconds` returns, 0 for an animation id outside the
catalog, and it is the same before and after. -/
theorem animate_keeps_clock_in_range (dt : Ieee prec emax) (a : Animator (Ieee prec emax))
    (e : Nat) (p : AnimationParameters (Ieee prec emax))
    (hu : KeysUnique a.animated_entities) (hp : a.is_animating e = some p)
    (hdt : 0 ≤ dt) (hs : 0 ≤ p.speed)
    (hc0 : 0 ≤ (a.entities e).animation_time_seconds)
    (hc1 : (a.entities e).animation_time_seconds ≤
      (a.entities e).get_animation_duration_seconds)
    (hnan : p.paused = false →
      (a.entities e).animation_time_seconds + dt * p.speed ≠ .nan)
    (hinf : p.paused = false → p.loop = true →
      0 < (a.entities e).get_animation_duration_seconds →
      (a.entities e).get_animation_duration_seconds <
        (a.entities e).animation_time_seconds + dt * p.speed →
      (a.entities e).animation_time_seconds + dt * p.speed ≠ .pinf) :
    ((a.animate Ieee.fmod dt).entities e).get_animation_duration_seconds =
        (a.entities e).get_animation_duration_seconds ∧
      0 ≤ ((a.animate Ieee.fmod dt).entities e).animation_time_seconds ∧
      ((a.animate Ieee.fmod dt).entities e).animation_time_seconds ≤
        (a.entities e).get_animation_duration_seconds := by
  obtain ⟨l₁, l₂, hm, h₁, h₂⟩ := map_split_of_find hu hp
  obtain ⟨h1, -⟩ := animate_entity Ieee.fmod dt a e p l₁ l₂ hm h₁ h₂
  have hadd : p.paused = false →
      0 ≤ (a.entities e).animation_time_seconds + dt * p.speed := by
    intro hpf
    rcases ieee_mul_nonneg dt p.speed hdt hs with hmul | hmul
    · have := hnan hpf
      rw [hmul, ieee_add_nan] at this
      exact absurd rfl this
    · exact ieee_add_nonneg _ _ hc0 hmul
  obtain ⟨ha, hi, h0, hd⟩ := advance_clock_in_range Ieee.fmod dt p (a.entities e) hc0 hc1
    hadd
    (fun hpf hloop hpos hlt =>
      ieee_fmod_range _ _ (hadd hpf) (hinf hpf hloop hpos hlt) hpos hlt)
  rw [h1]
  refine ⟨?_, h0, hd⟩
  simp only [AnimatedEntity.get_animation_duration_seconds, ha, hi]

/-- A worked instance of the amended C29: entity 0 of `demoPlayingD` plays at
clock 4 of a duration of 5 with speed 1; `animate(3)` wraps the clock to 2. -/
theorem animate_keeps_clock_in_range_witness :
    (KeysUnique demoPlayingD.animated_entities ∧
        demoPlayingD.is_animating 0 = some ⟨0, true, false, 1⟩ ∧
        (0 : Double) ≤ .fin 3 ∧ (0 : Double) ≤ 1 ∧
        0 ≤ (demoPlayingD.entities 0).animation_time_seconds ∧
        (demoPlayingD.entities 0).animation_time_seconds ≤
          (demoPlayingD.entities 0).get_animation_duration_seconds ∧
        (demoPlayingD.entities 0).animation_time_seconds + .fin 3 * 1 ≠ .nan ∧
        (demoPlayingD.entities 0).animation_time_seconds + .fin 3 * 1 ≠ .pinf) ∧
      ((demoPlayingD.animate Ieee.fmod (.fin 3)).entities 0).animation_time_seconds = .fin 2 ∧
      (((demoPlayingD.animate Ieee.fmod (.fin 3)).entities 0).get_animation_duration_seconds =
          (demoPlayingD.entities 0).get_animation_duration_seconds ∧
        0 ≤ ((demoPlayingD.animate Ieee.fmod (.fin 3)).entities 0).animation_time_seconds ∧
        ((demoPlayingD.animate Ieee.fmod (.fin 3)).entities 0).animation_time_seconds ≤
          (demoPlayingD.entities 0).get_animation_duration_seconds) :=
  ⟨⟨by decide, by decide!, by decide!, by decide!, by decide!, by decide!, by decide!,
      by decide!⟩, by decide!,
    animate_keeps_clock_in_range (.fin 3) demoPlayingD 0 ⟨0, true, false, 1⟩ (by decide)
      (by decide!) (by decide!) (by decide!) (by decide!) (by decide!) (fun _ => by decide!)
      (fun _ _ _ _ => by decide!)⟩

/-- C29 fails as stated: entity 0 of `demoFastD` is active, not paused and
loops at clock 0 of a duration of 5 with the speed `1e200`; with
`dt = 1e200` the product overflows to infinity, `std::fmod` of infinity is
NaN, and the clock after `animate(dt)` is NaN, which is not in
`[0, duration_seconds]`. -/
theorem animate_clock_overflow_counterexample :
    KeysUnique demoFastD.animated_entities ∧
      demoFastD.is_animating 0 = some ⟨0, true, false, Ieee.round (10 ^ 200)⟩ ∧
      (0 : Double) ≤ Ieee.round (10 ^ 200) ∧
      (Ieee.round (10 ^ 200) : Double) * Ieee.round (10 ^ 200) = .pinf ∧
      (demoFastD.entities 0).animation_time_seconds = 0 ∧
      (demoFastD.entities 0).get_animation_duration_seconds = .fin 5 ∧
      ((demoFastD.animate Ieee.fmod (Ieee.round (10 ^ 200))).entities
        0).animation_time_seconds = .nan ∧
      ¬ (0 ≤ ((demoFastD.animate Ieee.fmod (Ieee.round (10 ^ 200))).entities
          0).animation_time_seconds ∧
        ((demoFastD.animate Ieee.fmod (Ieee.round (10 ^ 200))).entities
          0).animation_time_seconds ≤ (demoFastD.entities 0).get_animation_duration_seconds) := by
  refine ⟨by decide, by decide!, by decide!, by decide!, by decide!, by decide!, by decide!,
    by decide!⟩

end RangeTheorems

/-! ## Sampling at the computed midpoint -/

section MidpointTheorems

/-- C9, as amended: for consecutive keys `t0 < t1` of a channel with the
values `v0` and `v1`, sampling at the midpoint `m = (t0 + t1) / 2` as the
arithmetic of the key times computes it gives, when `m` lies strictly
between the keys, the interpolation of `v0` and `v1` at the computed
fraction `(m - t0) / (t1 - t0)`, which is the interpolation at 0.5 when that
fraction is 0.5; when `m` is rounded onto `t0` or onto `t1` it gives the
value of that key.  No law of arithmetic is used, so this holds with every
operation rounded as in `double`. -/
theorem sample_at_computed_midpoint {T F X : Type} [LinearOrder T] [Add T] [Sub T] [Div T]
    (two half : T) (toFloat : T → F) (interp : X → X → F → X) (init : X)
    (l₁ l₂ : List (T × X)) (t0 t1 : T) (v0 v1 : X)
    (hs : KeysAscending (l₁ ++ (t0, v0) :: (t1, v1) :: l₂)) :
    (t0 < (t0 + t1) / two → (t0 + t1) / two < t1 →
        sampleChannel toFloat interp init (l₁ ++ (t0, v0) :: (t1, v1) :: l₂)
            ((t0 + t1) / two) =
          interp v0 v1 (toFloat (((t0 + t1) / two - t0) / (t1 - t0))) ∧
        (((t0 + t1) / two - t0) / (t1 - t0) = half →
          sampleChannel toFloat interp init (l₁ ++ (t0, v0) :: (t1, v1) :: l₂)
              ((t0 + t1) / two) = interp v0 v1 (toFloat half))) ∧
      ((t0 + t1) / two = t0 →
        sampleChannel toFloat interp init (l₁ ++ (t0, v0) :: (t1, v1) :: l₂)
          ((t0 + t1) / two) = v0) ∧
      ((t0 + t1) / two = t1 →
        sampleChannel toFloat interp init (l₁ ++ (t0, v0) :: (t1, v1) :: l₂)
          ((t0 + t1) / two) = v1) := by
  obtain ⟨hbefore, hafter, -⟩ := keysAscending_split hs
  have h01 : t0 < t1 := hafter (t1, v1) (List.mem_cons_self _ _)
  refine ⟨?_, ?_, ?_⟩
  · intro hmid0 hmid1
    have h₁ : ∀ x ∈ l₁ ++ [(t0, v0)], x.1 < (t0 + t1) / two := by
      intro x hx
      rcases List.mem_append.1 hx with hx | hx
      · exact lt_trans (hbefore x hx) hmid0
      · rw [List.mem_singleton.1 hx]
        exact hmid0
    have hval := sampleChannel_mid toFloat interp init l₁ (t0, v0) (t1, v1) l₂ _ h₁
      (not_lt.2 hmid1.le)
    rw [if_neg (ne_of_gt hmid1)] at hval
    refine ⟨hval, fun hfrac => ?_⟩
    rw [hval]
    simp only [hfrac]
  · intro hm
    have h₁ : ∀ x ∈ l₁, x.1 < (t0 + t1) / two := by
      intro x hx
      rw [hm]
      exact hbefore x hx
    exact sampleChannel_hit toFloat interp init l₁ (t0, v0) ((t1, v1) :: l₂) _ h₁ hm.symm
  · intro hm
    have h₁ : ∀ x ∈ l₁ ++ [(t0, v0)], x.1 < (t0 + t1) / two := by
      intro x hx
      rw [hm]
      rcases List.mem_append.1 hx with hx | hx
      · exact lt_trans (hbefore x hx) h01
      · rw [List.mem_singleton.1 hx]
        exact h01
    have hval := sampleChannel_hit toFloat interp init (l₁ ++ [(t0, v0)]) (t1, v1) l₂ _ h₁
      hm.symm
    simpa using hval

/-- A worked instance of the amended C9 in `double`: keys at 1 and 2 with the
`float` values 0 and 2; the midpoint is 1.5, the fraction is 0.5 and the
sample is `mix(0, 2, 0.5) = 1`. -/
theorem sample_at_computed_midpoint_witness :
    KeysAscending [((.fin 1 : Double), (0 : Single)), (.fin 2, .fin 2)] ∧
      ((.fin 1 : Double) < (.fin 1 + .fin 2) / .fin 2 ∧
        ((.fin 1 : Double) + .fin 2) / .fin 2 < .fin 2 ∧
        ((.fin 1 + .fin 2) / .fin 2 - .fin 1) / (.fin 2 - .fin 1) =
          (.fin (1 / 2) : Double)) ∧
      mixSingle 0 (.fin 2) (Ieee.convert (.fin (1 / 2) : Double)) = .fin 1 ∧
      sampleChannel Ieee.convert mixSingle 0
          [((.fin 1 : Double), (0 : Single)), (.fin 2, .fin 2)] ((.fin 1 + .fin 2) / .fin 2) =
        mixSingle 0 (.fin 2) (Ieee.convert (.fin (1 / 2) : Double)) := by
  have hs : KeysAscending [((.fin 1 : Double), (0 : Single)), (.fin 2, .fin 2)] := by
    decide!
  have h := sample_at_computed_midpoint (.fin 2 : Double) (.fin (1 / 2)) Ieee.convert
    mixSingle (0 : Single) [] [] (.fin 1) (.fin 2) 0 (.fin 2) hs
  exact ⟨hs, ⟨by decide!, by decide!, by decide!⟩, by decide!,
    (h.1 (by decide!) (by decide!)).2 (by decide!)⟩

/-- C9 fails as stated: in `double` the keys `t0 = 1e16` and
`t1 = 1e16 + 2` are consecutive values, `t0 + t1` rounds to `2e16` and the
midpoint `(t0 + t1) / 2` is `t0` itself; the sample there is the value 0 of
the key `t0`, not the interpolation `mix(0, 2, 0.5) = 1`. -/
theorem sample_midpoint_counterexample :
    (.fin 10000000000000000 : Double) < .fin 10000000000000002 ∧
      ((.fin 10000000000000000 : Double) + .fin 10000000000000002) / .fin 2 =
        .fin 10000000000000000 ∧
      sampleChannel Ieee.convert mixSingle 0
          [((.fin 10000000000000000 : Double), (0 : Single)),
            (.fin 10000000000000002, .fin 2)]
          ((.fin 10000000000000000 + .fin 10000000000000002) / .fin 2) = 0 ∧
      mixSingle 0 (.fin 2) (.fin (1 / 2)) = .fin 1 ∧
      sampleChannel Ieee.convert mixSingle 0
          [((.fin 10000000000000000 : Double), (0 : Single)),
            (.fin 10000000000000002, .fin 2)]
          ((.fin 10000000000000000 + .fin 10000000000000002) / .fin 2) ≠
        mixSingle 0 (.fin 2) (.fin (1 / 2)) := by
  refine ⟨by decide!, by decide!, by decide!, by decide!, by decide!⟩

end MidpointTheorems

end Cits3003
